import Mathlib

/-! xledpwm: keyboard LED brightness by software pulse-width modulation.

A shallow embedding of `src/xledpwm.c` and the properties of its PWM loop,
its fade ramp, its argument handling and its interrupt cleanup.

Conventions of the embedding

* C `double` and `float` values are rationals (`ℚ`), and `fl` rounds an exact
  result to the nearest `double`.  The assignment of line 174 is evaluated
  with it: the quotient by `100` and the product with `usec_cycle` are each
  rounded, as when every operation is evaluated in the precision of its type
  (`FLT_EVAL_METHOD` 0, the rule on x86-64).  The constants of the program
  (`1.25`, `0.75`, `500`, `200`, `100`) are exactly representable in binary
  floating point, and the other floating operations are written without
  `fl`: the period of line 120 and the threshold `hz/200` of line 230 are not
  changed by rounding (`line_120_exact`, `line_230_exact`), and neither is
  the duty value that a ramp step produces on the way of the program from
  `cycle = 200` (`ramp_rounding_immaterial`).
* C `int` values are `Int`.  `wrap32` is applied where the program does `int`
  arithmetic (`tick_count++`, `usec_cycle - usec_on`), so that results which
  leave the 32-bit range are visible in the model.
* Calls into Xlib and libc that have an effect become `Event`s of a trace.
  Library functions whose code is not part of the repository (`atoi`,
  `strtod`, the success of `XOpenDisplay`) are fields of `Env`; the theorems
  hold for every `Env`, and `stdenv` is a concrete one for evaluation.
* The loop `while (1)` never returns: `ticks n` and `loopTrace n` are the
  variables and the events after `n` iterations.  Line 117 registers `cleanup`
  for `SIGINT`; an interrupt appends the events of `cleanup` to the trace so
  far.  The call `cleanup(0)` of line 256 is unreachable.
-/

namespace Xledpwm

/-! ## Constants (lines 56-61) -/

/-- The macro `ON`, defined as `1`. -/
def ON : Int := 1
/-- The macro `OFF`, defined as `0`. -/
def OFF : Int := 0
/-- The macro `ALL`, defined as `-1`. -/
def ALL : Int := -1
/-- The macro `TRUE`, defined as `1`. -/
def TRUE : Int := 1
/-- The macro `FALSE`, defined as `0`. -/
def FALSE : Int := 0

/-! ## Machine arithmetic -/

/-- Result of 32-bit two's-complement `int` arithmetic on the exact result `x`. -/
def wrap32 (x : Int) : Int := (x + 2 ^ 31) % 2 ^ 32 - 2 ^ 31

/-- The conversion `(int) q` of a floating value: truncation toward zero. -/
def ctrunc (q : ℚ) : Int := if 0 ≤ q then ⌊q⌋ else ⌈q⌉

/-- Rounding of a rational to the nearest integer, ties to the even one. -/
def roundEven (m : ℚ) : Int :=
  if m - (⌊m⌋ : ℚ) < 1 / 2 then ⌊m⌋
  else if 1 / 2 < m - (⌊m⌋ : ℚ) then ⌊m⌋ + 1
  else if ⌊m⌋ % 2 = 0 then ⌊m⌋ else ⌊m⌋ + 1

/-- Binary logarithm of `m`, rounded down, by halving at most `fuel` times
(`ilog2 m m` is exact; `0` for `m = 0`). -/
def ilog2 : Nat → Nat → Nat
  | 0, _ => 0
  | f + 1, m => if m < 2 then 0 else ilog2 f (m / 2) + 1

/-- The binary exponent of `x ≠ 0`: the `e` with `2^e ≤ |x| < 2^(e+1)`. -/
def binade (x : ℚ) : Int :=
  if (2 : ℚ) ^ ((ilog2 x.num.natAbs x.num.natAbs : Int) - (ilog2 x.den x.den : Int)) ≤ |x| then
    (ilog2 x.num.natAbs x.num.natAbs : Int) - (ilog2 x.den x.den : Int)
  else
    (ilog2 x.num.natAbs x.num.natAbs : Int) - (ilog2 x.den x.den : Int) - 1

/-- The `double` nearest to the exact result `x` of a floating operation
(IEEE 754 binary64, round to nearest, ties to even): `x` is rounded to a
multiple of `2^(e-52)`, where `e` is its binary exponent, which leaves a
significand of 53 bits.  The exponent is not bounded, so that overflow and
underflow are not modelled; the values that line 174 rounds lie between `2^-7`
and `2^31`, where neither occurs. -/
def fl (x : ℚ) : ℚ :=
  if x = 0 then 0
  else (roundEven (x / (2 : ℚ) ^ (binade x - 52)) : ℚ) * (2 : ℚ) ^ (binade x - 52)

/-! ## Messages, events, library environment -/

/-- The texts the program prints, by the place that prints them. -/
inductive Msg where
  /-- line 128, the usage text -/
  | usage
  /-- lines 136, 146, 169: `missing argument to <opt>` -/
  | missingArgument (opt : String)
  /-- lines 154, 178: `invalid argument '<a>' for <opt>` -/
  | invalidArgument (a opt : String)
  /-- lines 164, 187: `can't specify both -b and -f` -/
  | bothModes
  /-- line 196: `unrecognized argument <arg>` -/
  | unrecognized (arg : String)
  /-- line 205: `'--led (or -l) <num>' argument is required` -/
  | ledRequired
  /-- line 211: `one of '-f' or '-b' is required` -/
  | modeRequired
  /-- line 219: `unable to open display` -/
  | cannotOpen
  deriving DecidableEq, Repr

/-- Observable actions of the program, in program order. -/
inductive Event where
  /-- a `printf` to standard output -/
  | printf (m : Msg)
  /-- a call `fprintf(stderr, ...)` -/
  | fprintf (m : Msg)
  /-- the call `exit(status)` -/
  | exit (status : Int)
  /-- the call `XOpenDisplay(disp)`; `none` is the `NULL` display name -/
  | XOpenDisplay (disp : Option String)
  /-- a call `XChangeKeyboardControl(dpy, mask, &values)`: `led = some l` when the
  mask is `KBLed | KBLedMode` with `values.led = l`, `led = none` when the
  mask is `KBLedMode` alone; `led_mode` is `values.led_mode`. -/
  | XChangeKeyboardControl (led : Option Int) (led_mode : Int)
  /-- a call `XFlush(dpy)` -/
  | XFlush
  /-- a call `usleep(usec)` -/
  | usleep (usec : Int)
  /-- the call `XCloseDisplay(dpy)` -/
  | XCloseDisplay
  deriving DecidableEq, Repr

/-- Library behaviour the program depends on and does not define. -/
structure Env where
  /-- libc `atoi` -/
  atoi : String → Int
  /-- libc `strtod(s, NULL)`; `none` when the result is not a finite number
  (infinity or NaN), for which every comparison of line 173 with a bound fails
  on one side.  A finite result is a `double`; the theorems hold for every
  rational result. -/
  strtod : String → Option ℚ
  /-- whether `XOpenDisplay(disp)` returns a non-`NULL` display -/
  XOpenDisplay : Option String → Bool

/-! ## `set_led`, `is_number`, `cleanup` (lines 69-101) -/

/-- The function `set_led(dpy, led, led_mode)`, lines 69-82. -/
def set_led (led : Int) (led_mode : Int) : List Event :=
  if led ≠ ALL then
    [Event.XChangeKeyboardControl (some led) led_mode]
  else
    [Event.XChangeKeyboardControl none led_mode]

/-- The function `isdigit` of `<ctype.h>` in the C locale. -/
def isdigit (c : Char) : Bool := decide ('0' ≤ c ∧ c ≤ '9')

/-- The function `is_number(arg, maximum)`, lines 84-95; the result is C truth (`1`/`0`)
as a `Bool`. -/
def is_number (env : Env) (arg : String) (maximum : Int) : Bool :=
  if arg.toList = ['-', '1'] then
    true
  else
    let p := arg.toList.dropWhile isdigit
    if p ≠ [] ∨ env.atoi arg > maximum then
      false
    else
      true

/-- The function `cleanup(sig)`, lines 97-101, with the global `led`. -/
def cleanup (led : Int) (sig : Int) : List Event :=
  set_led led OFF ++ [Event.XCloseDisplay, Event.exit sig]

/-! ## The variables of `main` -/

/-- The locals of `main` (lines 104-110) and the global `led` (line 67). -/
structure Vars where
  /-- the local `char *disp`, `none` for `NULL` -/
  disp : Option String
  /-- the local `double hz` -/
  hz : ℚ
  /-- the local `double cycle` -/
  cycle : ℚ
  /-- the local `int usec_cycle` -/
  usec_cycle : Int
  /-- the local `int usec_on`; indeterminate until the first loop iteration assigns it -/
  usec_on : Int
  /-- the local `int usec_off`; indeterminate until the first loop iteration assigns it -/
  usec_off : Int
  /-- the local `float factor` -/
  factor : ℚ
  /-- the local `int tick_count` -/
  tick_count : Int
  /-- the local `int fade` -/
  fade : Int
  /-- the global `int led` -/
  led : Int
  deriving DecidableEq

/-- The state after lines 104-120, before the arguments are parsed, for a
nominal frequency `hz` (the program has `hz = 500`). -/
def initVars (hz : ℚ) : Vars :=
  { disp := none
    hz := hz
    cycle := -1
    usec_cycle := ctrunc ((1 / hz) * 10 ^ 7)
    usec_on := 0
    usec_off := 0
    factor := 1.25
    tick_count := 0
    fade := -1
    led := -1 }

/-! ## The PWM loop (lines 224-254) -/

/-- The ramp step, lines 231-240: executed when the tick threshold is reached
in fade mode. -/
def rampStep (v : Vars) : Vars :=
  let v := { v with tick_count := 0 }
  let v := if v.cycle ≥ (v.usec_cycle : ℚ) then { v with factor := 0.75 } else v
  let v := if v.cycle ≤ ((v.usec_cycle.tdiv 100 : Int) : ℚ) then { v with factor := 1.25 } else v
  let v := { v with cycle := v.cycle * v.factor }
  let v := if v.cycle < ((v.usec_cycle.tdiv 100 : Int) : ℚ) then
      { v with cycle := ((v.usec_cycle.tdiv 100 : Int) : ℚ) } else v
  let v := if v.cycle > (v.usec_cycle : ℚ) then { v with cycle := (v.usec_cycle : ℚ) } else v
  v

/-- Lines 226-245: the variable updates of one loop iteration. -/
def tick (v : Vars) : Vars :=
  let v := { v with tick_count := wrap32 (v.tick_count + 1) }
  let v :=
    if v.fade = TRUE then
      if (v.tick_count : ℚ) ≥ v.hz / 200 then rampStep v else v
    else v
  let v := { v with usec_on := ctrunc v.cycle }
  let v := { v with usec_off := wrap32 (v.usec_cycle - v.usec_on) }
  v

/-- Lines 247-253: the calls of one loop iteration, after `tick`. -/
def pulse (v : Vars) : List Event :=
  set_led v.led ON ++ [Event.XFlush, Event.usleep v.usec_on] ++
  set_led v.led OFF ++ [Event.XFlush, Event.usleep v.usec_off]

/-- The state after `n` iterations of `while (1)`. -/
def ticks : Nat → Vars → Vars
  | 0, v => v
  | n + 1, v => ticks n (tick v)

/-- The events of the first `n` iterations of `while (1)`. -/
def loopTrace : Nat → Vars → List Event
  | 0, _ => []
  | n + 1, v => pulse (tick v) ++ loopTrace n (tick v)

/-! ## Argument parsing (lines 123-200) -/

/-- Which branch of the `if`/`else if` chain of lines 127-199 an iteration of
the parsing loop enters.  `operand` is the element of `argv` that follows the
option, when there is one. -/
inductive Opt where
  /-- the options `--help`, `-h`, `-?` -/
  | help
  /-- the options `--display`, `-d` -/
  | display (operand : Option String)
  /-- the options `--led`, `-l` -/
  | led (operand : Option String)
  /-- the options `--brightness`, `-b` -/
  | brightness (operand : Option String)
  /-- the options `--fade`, `-f` -/
  | fade
  /-- the final `else` -/
  | unrecognized (arg : String)
  deriving DecidableEq, Repr

/-- How the part of `main` before the loop ends. -/
inductive Outcome where
  /-- the program has called `exit` -/
  | exited
  /-- control has reached the next statement with these variables -/
  | running (v : Vars)
  deriving DecidableEq

/-- A run of a part of `main`: the branches entered by the parsing loop, in
order (a record for stating properties; the program does not store it), the
events so far, and the outcome. -/
structure Run where
  /-- branches entered by the parsing loop -/
  seen : List Opt
  /-- events in program order -/
  events : List Event
  /-- how the part ends -/
  outcome : Outcome
  deriving DecidableEq

/-- The parsing loop of lines 123-200 on the arguments `argv[i], argv[i+1], ...`
that remain, with the variables `v` and the branches `seen` so far. -/
def parseArgs (env : Env) : List String → Vars → List Opt → Run
  | [], v, seen => ⟨seen, [], Outcome.running v⟩
  | arg :: rest, v, seen =>
    if arg = "--help" ∨ arg = "-h" ∨ arg = "-?" then
      ⟨seen ++ [Opt.help], [Event.printf Msg.usage, Event.exit 0], Outcome.exited⟩
    else if arg = "--display" ∨ arg = "-d" then
      match rest with
      | [] =>
        ⟨seen ++ [Opt.display none],
          [Event.fprintf (Msg.missingArgument arg), Event.exit 1], Outcome.exited⟩
      | a :: rest1 =>
        parseArgs env rest1 { v with disp := some a } (seen ++ [Opt.display (some a)])
    else if arg = "--led" ∨ arg = "-l" then
      match rest with
      | [] =>
        ⟨seen ++ [Opt.led none],
          [Event.fprintf (Msg.missingArgument arg), Event.exit 1], Outcome.exited⟩
      | a :: rest1 =>
        if is_number env a 32 = true ∧ env.atoi a > 0 then
          parseArgs env rest1 { v with led := env.atoi a } (seen ++ [Opt.led (some a)])
        else
          ⟨seen ++ [Opt.led (some a)],
            [Event.fprintf (Msg.invalidArgument a arg), Event.exit 1], Outcome.exited⟩
    else if arg = "--brightness" ∨ arg = "-b" then
      if v.fade ≠ -1 then
        ⟨seen ++ [Opt.brightness rest.head?],
          [Event.fprintf Msg.bothModes, Event.exit 1], Outcome.exited⟩
      else
        match rest with
        | [] =>
          ⟨seen ++ [Opt.brightness none],
            [Event.fprintf (Msg.missingArgument arg), Event.exit 1], Outcome.exited⟩
        | a :: rest1 =>
          match env.strtod a with
          | some p =>
            if p ≥ 1.0 ∧ p ≤ 100.0 then
              parseArgs env rest1
                { v with cycle := fl ((v.usec_cycle : ℚ) * fl (p / 100)), fade := FALSE }
                (seen ++ [Opt.brightness (some a)])
            else
              ⟨seen ++ [Opt.brightness (some a)],
                [Event.fprintf (Msg.invalidArgument a arg), Event.exit 1], Outcome.exited⟩
          | none =>
            ⟨seen ++ [Opt.brightness (some a)],
              [Event.fprintf (Msg.invalidArgument a arg), Event.exit 1], Outcome.exited⟩
    else if arg = "--fade" ∨ arg = "-f" then
      if v.cycle ≠ -1 then
        ⟨seen ++ [Opt.fade], [Event.fprintf Msg.bothModes, Event.exit 1], Outcome.exited⟩
      else
        parseArgs env rest { v with fade := TRUE, cycle := 200 } (seen ++ [Opt.fade])
    else
      ⟨seen ++ [Opt.unrecognized arg],
        [Event.fprintf (Msg.unrecognized arg), Event.exit 1], Outcome.exited⟩

/-! ## `main` up to the loop (lines 103-222) -/

/-- Lines 203-222, after the parsing loop has ended with variables `v`: the two
required-argument checks and `XOpenDisplay`. -/
def startup (env : Env) (v : Vars) : List Event × Outcome :=
  if v.led = -1 then
    ([Event.fprintf Msg.ledRequired, Event.exit 1], Outcome.exited)
  else if v.fade = -1 ∧ v.cycle = -1 then
    ([Event.fprintf Msg.modeRequired, Event.exit 1], Outcome.exited)
  else if env.XOpenDisplay v.disp = false then
    ([Event.XOpenDisplay v.disp, Event.fprintf Msg.cannotOpen, Event.exit 1], Outcome.exited)
  else
    ([Event.XOpenDisplay v.disp], Outcome.running v)

/-- Lines 103-222 of `main` started with the variables `v0` on `argv`
(`argv[0]` is the program name): the run up to the first loop iteration. -/
def mainFrom (env : Env) (v0 : Vars) (argv : List String) : Run :=
  let r := parseArgs env argv.tail v0 []
  match r.outcome with
  | Outcome.exited => r
  | Outcome.running v =>
    let s := startup env v
    ⟨r.seen, r.events ++ s.1, s.2⟩

/-- The function `main` on `argv`, observed for `n` iterations of its loop:
lines 103-222 with `hz = 500`, then lines 224-254. -/
def main (env : Env) (argv : List String) (n : Nat) : Run :=
  let r := mainFrom env (initVars 500) argv
  match r.outcome with
  | Outcome.exited => r
  | Outcome.running v => ⟨r.seen, r.events ++ loopTrace n v, Outcome.running (ticks n v)⟩

/-! ## A concrete library environment -/

/-- The function `isspace` of `<ctype.h>` in the C locale. -/
def isspace (c : Char) : Bool :=
  c = ' ' ∨ c = '\t' ∨ c = '\n' ∨ c = '\x0b' ∨ c = '\x0c' ∨ c = '\r'

/-- Value of the leading decimal digits of `cs`, continuing from `acc`. -/
def digitsValue : List Char → Nat → Nat
  | [], acc => acc
  | c :: cs, acc => if isdigit c then digitsValue cs (acc * 10 + (c.toNat - '0'.toNat)) else acc

/-- Saturation at the range of a 64-bit `long`. -/
def clampLong (x : Int) : Int := max (-(2 ^ 63)) (min x (2 ^ 63 - 1))

/-- Modelled from the C standard, the code of libc not being part of the
repository: `strtol(s, NULL, 10)` skips white space, reads an optional sign and
the decimal digits that follow, and returns their value, `LONG_MAX` or
`LONG_MIN` when the value is outside the range of `long` (64 bits). -/
def strtol (s : String) : Int :=
  clampLong
    (match s.toList.dropWhile isspace with
     | '-' :: cs => -(digitsValue cs 0 : Int)
     | '+' :: cs => (digitsValue cs 0 : Int)
     | cs => (digitsValue cs 0 : Int))

/-- Modelled from the C standard and, for values outside the range of `int`
(where the standard leaves the behaviour undefined), from the GNU C library,
the code of libc not being part of the repository: `atoi(s)` is
`(int) strtol(s, NULL, 10)`, and the conversion to `int` keeps the low 32
bits. -/
def atoi (s : String) : Int := wrap32 (strtol s)

/-- Modelled from the C standard, the code of libc not being part of the
repository: `strtod` on plain decimal input, an optional sign, digits and an
optional fraction `.digits`; text that does not start with a number gives `0`.
The result is the `double` nearest to the decimal value; a value beyond the
range of `double` stays finite, and fails the test of line 173 as infinity
does.  Exponents, hexadecimal input, `inf` and `nan` are not recognised. -/
def strtod (s : String) : Option ℚ :=
  let cs := s.toList.dropWhile isspace
  let neg := cs.head? = some '-'
  let cs := if cs.head? = some '-' ∨ cs.head? = some '+' then cs.tail else cs
  let ip := cs.takeWhile isdigit
  let cs := cs.dropWhile isdigit
  let fp := if cs.head? = some '.' then cs.tail.takeWhile isdigit else []
  let q : ℚ := fl (mkRat (digitsValue fp (digitsValue ip 0)) (10 ^ fp.length))
  some (if neg then -q else q)

/-- A library environment in which every display can be opened. -/
def stdenv : Env :=
  { atoi := atoi
    strtod := strtod
    XOpenDisplay := fun _ => true }

/-! ## Vocabulary of the statements -/

/-- The lower bound of the ramp, `usec_cycle/100` in `int` arithmetic. -/
def floorOf (v : Vars) : Int := v.usec_cycle.tdiv 100

/-- The duty value lies between the floor and the period. -/
def InBounds (v : Vars) : Prop :=
  (floorOf v : ℚ) ≤ v.cycle ∧ v.cycle ≤ (v.usec_cycle : ℚ)

/-- The state in which no `int` operation of the loop leaves the 32-bit range. -/
def InRange (v : Vars) : Prop :=
  0 ≤ v.usec_cycle ∧ v.usec_cycle < 2 ^ 31 ∧ 0 ≤ v.cycle ∧ v.cycle ≤ (v.usec_cycle : ℚ)

/-- A mode option: `--brightness`/`-b` or `--fade`/`-f`. -/
def Opt.isMode : Opt → Bool
  | Opt.brightness _ => true
  | Opt.fade => true
  | _ => false

/-- The mode options among the branches entered, in order. -/
def modeOpts (seen : List Opt) : List Opt := seen.filter Opt.isMode

/-- An event that sets the state of the indicator. -/
def Event.isStateSet : Event → Bool
  | Event.XChangeKeyboardControl _ _ => true
  | _ => false

/-- A call to the output sink: `XOpenDisplay`, `set_led`
(`XChangeKeyboardControl`), `XFlush` or `XCloseDisplay`. -/
def Event.isSink : Event → Bool
  | Event.XOpenDisplay _ => true
  | Event.XChangeKeyboardControl _ _ => true
  | Event.XFlush => true
  | Event.XCloseDisplay => true
  | _ => false

/-- The state after `n` ramp steps in a row. -/
def rampSteps : Nat → Vars → Vars
  | 0, v => v
  | n + 1, v => rampSteps n (rampStep v)

/-- The variables of the program with period `1000` in place of `20000`,
before the arguments are parsed. -/
def period1000 : Vars := { initVars 500 with usec_cycle := 1000 }

/-- Fixed brightness 25 with period `1000`: the state `period1000` after the
assignments of lines 174-175. -/
def fixed25 : Vars :=
  { period1000 with cycle := fl ((1000 : ℚ) * fl (25 / 100)), fade := FALSE }

/-- Fade with period `1000`, started from `cycle = 100` and factor `1.25`. -/
def fade1000 : Vars := { period1000 with cycle := 100, factor := 1.25, fade := TRUE }

/-- The state in which the program enters its loop on `-l 1 -f`. -/
def fadeStart : Vars := { initVars 500 with led := 1, fade := TRUE, cycle := 200 }

/-- The state in which the program enters its loop on `-l 3 -b 25`. -/
def brightStart : Vars :=
  { initVars 500 with led := 3, cycle := fl ((20000 : ℚ) * fl (25 / 100)), fade := FALSE }

/-- The state in which the program enters its loop on `-l 1 -b 57`. -/
def bright57Start : Vars :=
  { initVars 500 with led := 1, cycle := fl ((20000 : ℚ) * fl (57 / 100)), fade := FALSE }

/-- A state with period `1000` whose duty value has reached the period. -/
def atCeiling : Vars := { fade1000 with cycle := 1000 }

/-- The variables before parsing have the two mode variables and `led` unset
and a period that is not negative. -/
def Unset (v0 : Vars) : Prop :=
  v0.fade = -1 ∧ v0.cycle = -1 ∧ v0.led = -1 ∧ 0 ≤ v0.usec_cycle

/-- What holds of the variables `v` while the parsing loop runs from the
initial variables `v0`, having entered the branches `seen`: the variables the
loop does not assign are unchanged, `led` is unset or comes from an accepted
`--led` operand, and the mode variables `fade` and `cycle` are unset, or set by
the one accepted `--brightness`, or set by the one `--fade`. -/
def ParseInv (env : Env) (v0 v : Vars) (seen : List Opt) : Prop :=
  v.hz = v0.hz ∧ v.usec_cycle = v0.usec_cycle ∧ v.usec_on = v0.usec_on ∧
  v.usec_off = v0.usec_off ∧ v.factor = v0.factor ∧ v.tick_count = v0.tick_count ∧
  ((v.led = -1 ∧ ∀ o, Opt.led o ∉ seen) ∨
   (∃ a, Opt.led (some a) ∈ seen ∧ is_number env a 32 = true ∧ 0 < env.atoi a ∧
      v.led = env.atoi a)) ∧
  ((v.fade = -1 ∧ v.cycle = -1 ∧ modeOpts seen = []) ∨
   (v.fade = FALSE ∧ ∃ a p, modeOpts seen = [Opt.brightness (some a)] ∧
      env.strtod a = some p ∧ 1 ≤ p ∧ p ≤ 100 ∧
      v.cycle = fl ((v0.usec_cycle : ℚ) * fl (p / 100))) ∨
   (v.fade = TRUE ∧ v.cycle = 200 ∧ modeOpts seen = [Opt.fade]))

/-- The parsing loop exits in the branch `last`, entered with the variables
`v`, with the events `events`. -/
def ExitAt (env : Env) (v : Vars) (last : Opt) (events : List Event) : Prop :=
  match last with
  | Opt.help => events = [Event.printf Msg.usage, Event.exit 0]
  | Opt.display o =>
    o = none ∧ ∃ arg, events = [Event.fprintf (Msg.missingArgument arg), Event.exit 1]
  | Opt.led none => ∃ arg, events = [Event.fprintf (Msg.missingArgument arg), Event.exit 1]
  | Opt.led (some a) =>
    ¬ (is_number env a 32 = true ∧ env.atoi a > 0) ∧
    ∃ arg, events = [Event.fprintf (Msg.invalidArgument a arg), Event.exit 1]
  | Opt.brightness o =>
    (v.fade ≠ -1 ∧ events = [Event.fprintf Msg.bothModes, Event.exit 1]) ∨
    (v.fade = -1 ∧ o = none ∧
      ∃ arg, events = [Event.fprintf (Msg.missingArgument arg), Event.exit 1]) ∨
    (v.fade = -1 ∧ ∃ a arg, o = some a ∧
      (∀ p, env.strtod a = some p → ¬ (1 ≤ p ∧ p ≤ 100)) ∧
      events = [Event.fprintf (Msg.invalidArgument a arg), Event.exit 1])
  | Opt.fade => v.cycle ≠ -1 ∧ events = [Event.fprintf Msg.bothModes, Event.exit 1]
  | Opt.unrecognized arg => events = [Event.fprintf (Msg.unrecognized arg), Event.exit 1]

/-- What a run of the parsing loop from `v0` satisfies: when it ends normally,
the invariant and no event; when it exits, the branch it exits in and the
invariant before that branch. -/
def ParseSpec (env : Env) (v0 : Vars) (r : Run) : Prop :=
  match r.outcome with
  | Outcome.running v => ParseInv env v0 v r.seen ∧ r.events = []
  | Outcome.exited =>
    ∃ pre last vm, r.seen = pre ++ [last] ∧ ParseInv env v0 vm pre ∧ ExitAt env vm last r.events

/-- The option text `s` is one that makes the parsing loop enter the branch
`o` (lines 127, 134, 144, 162, 185, and any text for the final `else`). -/
def Opt.enteredBy (o : Opt) (s : String) : Prop :=
  match o with
  | Opt.help => s = "--help" ∨ s = "-h" ∨ s = "-?"
  | Opt.display _ => s = "--display" ∨ s = "-d"
  | Opt.led _ => s = "--led" ∨ s = "-l"
  | Opt.brightness _ => s = "--brightness" ∨ s = "-b"
  | Opt.fade => s = "--fade" ∨ s = "-f"
  | Opt.unrecognized a => s = a

/-- The branch `o` is one that the parsing loop leaves without `exit`: an
option with its operand present and, for `--led` and `--brightness`, passing
the test of line 150 or of line 173. -/
def Opt.accepted (env : Env) (o : Opt) : Prop :=
  match o with
  | Opt.help => False
  | Opt.display d => ∃ a, d = some a
  | Opt.led l => ∃ a, l = some a ∧ is_number env a 32 = true ∧ env.atoi a > 0
  | Opt.brightness b => ∃ a p, b = some a ∧ env.strtod a = some p ∧ 1 ≤ p ∧ p ≤ 100
  | Opt.fade => True
  | Opt.unrecognized _ => False

/-- The branches of a run that were entered and left without `exit`: all of
them when the run has not exited, all but the last when it has. -/
def Run.passed (r : Run) : List Opt :=
  match r.outcome with
  | Outcome.running _ => r.seen
  | Outcome.exited => r.seen.dropLast

/-- The library `atoi` is as the C standard defines it on the texts that
matter to line 150: on a text of decimal digits only whose value fits in an
`int` it returns that value, and on the text `-1` it returns `-1`.  Nothing is
assumed of its result on digits whose value does not fit in an `int`. -/
def IntAtoi (env : Env) : Prop :=
  (∀ s : String, s.toList.all isdigit = true → digitsValue s.toList 0 < 2 ^ 31 →
    env.atoi s = (digitsValue s.toList 0 : Int)) ∧
  env.atoi "-1" = -1

/-- The text `a`, if it consists of decimal digits only, has a value that fits
in an `int`. -/
def FitsInt (a : String) : Prop :=
  a.toList.all isdigit = true → digitsValue a.toList 0 < 2 ^ 31

/-- The text `a` consists of decimal digits only and its value is between 1
and 32 inclusive. -/
def LedText (a : String) : Prop :=
  a.toList.all isdigit = true ∧ 1 ≤ digitsValue a.toList 0 ∧ digitsValue a.toList 0 ≤ 32

/-- The value of the operand of `--brightness` is within `[1, 100]`. -/
def BrightText (env : Env) (a : String) : Prop :=
  ∃ p, env.strtod a = some p ∧ 1 ≤ p ∧ p ≤ 100

/-- The iteration of the loop that starts with the variables `v` executes the
ramp step: the tests of lines 228 and 230, after the increment of line 226,
both hold. -/
def rampDue (v : Vars) : Prop :=
  v.fade = TRUE ∧ ((wrap32 (v.tick_count + 1) : Int) : ℚ) ≥ v.hz / 200

/-- Two states agree on what the ramp step reads: `cycle`, `factor` and
`usec_cycle`. -/
def SameRamp (a b : Vars) : Prop :=
  a.cycle = b.cycle ∧ a.factor = b.factor ∧ a.usec_cycle = b.usec_cycle

/-! ## Rounding to a `double` -/

theorem ilog2_spec (f m : Nat) (hf : m ≤ f) (hm : m ≠ 0) :
    2 ^ ilog2 f m ≤ m ∧ m < 2 ^ (ilog2 f m + 1) := by
  induction f generalizing m with
  | zero => omega
  | succ g ih =>
    unfold ilog2
    by_cases h2 : m < 2
    · rw [if_pos h2]
      simp
      omega
    · rw [if_neg h2]
      obtain ⟨h3, h4⟩ := ih (m / 2) (by omega) (by omega)
      rw [pow_succ] at h4
      rw [pow_succ, pow_succ, pow_succ]
      constructor <;> omega

theorem binade_spec (x : ℚ) (hx : 0 < x) :
    (2 : ℚ) ^ binade x ≤ x ∧ x < (2 : ℚ) ^ (binade x + 1) := by
  have hnum : 0 < x.num := Rat.num_pos.mpr hx
  have hn0 : x.num.natAbs ≠ 0 := by omega
  have hd0 : x.den ≠ 0 := x.den_nz
  obtain ⟨a1, a2⟩ := ilog2_spec x.num.natAbs x.num.natAbs le_rfl hn0
  obtain ⟨b1, b2⟩ := ilog2_spec x.den x.den le_rfl hd0
  set a := ilog2 x.num.natAbs x.num.natAbs with ha
  set b := ilog2 x.den x.den with hb
  have hcast : (x.num.natAbs : ℚ) = (x.num : ℚ) := by
    rw [Nat.cast_natAbs, abs_of_pos hnum]
  have hxe : x = (x.num.natAbs : ℚ) / (x.den : ℚ) := by
    rw [hcast]
    exact (Rat.num_div_den x).symm
  have A1 : ((2 : ℚ) ^ a) ≤ (x.num.natAbs : ℚ) := by exact_mod_cast a1
  have A2 : (x.num.natAbs : ℚ) < 2 * (2 : ℚ) ^ a := by
    have : (x.num.natAbs : ℚ) < (2 : ℚ) ^ (a + 1) := by exact_mod_cast a2
    rw [pow_succ] at this; linarith
  have B1 : ((2 : ℚ) ^ b) ≤ (x.den : ℚ) := by exact_mod_cast b1
  have B2 : (x.den : ℚ) < 2 * (2 : ℚ) ^ b := by
    have : (x.den : ℚ) < (2 : ℚ) ^ (b + 1) := by exact_mod_cast b2
    rw [pow_succ] at this; linarith
  have hA : (0 : ℚ) < (2 : ℚ) ^ a := by positivity
  have hB : (0 : ℚ) < (2 : ℚ) ^ b := by positivity
  have hD : (0 : ℚ) < (x.den : ℚ) := by linarith
  have hK : (2 : ℚ) ^ ((a : Int) - (b : Int)) = (2 : ℚ) ^ a / (2 : ℚ) ^ b := by
    rw [zpow_sub₀ (by norm_num), zpow_natCast, zpow_natCast]
  have up : x < 2 * ((2 : ℚ) ^ a / (2 : ℚ) ^ b) := by
    rw [hxe, ← mul_div_assoc, div_lt_div_iff₀ hD hB]
    nlinarith
  have lo : (2 : ℚ) ^ a / (2 : ℚ) ^ b < 2 * x := by
    rw [hxe, ← mul_div_assoc, div_lt_div_iff₀ hB hD]
    nlinarith
  have habs : |x| = x := abs_of_pos hx
  unfold binade
  rw [← ha, ← hb, habs]
  by_cases hc : (2 : ℚ) ^ ((a : Int) - (b : Int)) ≤ x
  · rw [if_pos hc]
    refine ⟨hc, ?_⟩
    rw [zpow_add_one₀ (by norm_num), hK]
    linarith
  · rw [if_neg hc]
    have hc2 : x < (2 : ℚ) ^ ((a : Int) - (b : Int)) := not_le.mp hc
    constructor
    · rw [zpow_sub_one₀ (by norm_num), hK]
      have : (2 : ℚ) ^ a / (2 : ℚ) ^ b * 2⁻¹ = ((2 : ℚ) ^ a / (2 : ℚ) ^ b) / 2 := by ring
      rw [this]
      linarith
    · rw [sub_add_cancel]
      exact hc2


theorem roundEven_cases (m : ℚ) : roundEven m = ⌊m⌋ ∨ roundEven m = ⌊m⌋ + 1 := by
  unfold roundEven
  split_ifs <;> simp

theorem roundEven_error (m : ℚ) : |(roundEven m : ℚ) - m| ≤ 1 / 2 := by
  have h1 := Int.floor_le m
  have h2 := Int.lt_floor_add_one m
  unfold roundEven
  rw [abs_le]
  split_ifs with c1 c2 c3 <;> push_cast <;> constructor <;> linarith

theorem roundEven_intCast (k : Int) : roundEven (k : ℚ) = k := by
  unfold roundEven
  rw [Int.floor_intCast]
  simp

theorem roundEven_mono (m n : ℚ) (h : m ≤ n) : roundEven m ≤ roundEven n := by
  have hf : ⌊m⌋ ≤ ⌊n⌋ := Int.floor_mono h
  rcases lt_or_eq_of_le hf with hlt | heq
  · rcases roundEven_cases m with e1 | e1 <;> rcases roundEven_cases n with e2 | e2 <;>
      rw [e1, e2] <;> omega
  · unfold roundEven
    rw [← heq]
    have hmn : m - (⌊m⌋ : ℚ) ≤ n - (⌊m⌋ : ℚ) := by linarith
    split_ifs <;> first | omega | (exfalso; linarith)

theorem le_roundEven (k : Int) (m : ℚ) (h : (k : ℚ) ≤ m) : k ≤ roundEven m := by
  have := roundEven_mono _ _ h
  rwa [roundEven_intCast] at this

theorem roundEven_le (k : Int) (m : ℚ) (h : m ≤ (k : ℚ)) : roundEven m ≤ k := by
  have := roundEven_mono _ _ h
  rwa [roundEven_intCast] at this


theorem fl_eq (x : ℚ) (hx : x ≠ 0) :
    fl x = (roundEven (x / (2 : ℚ) ^ (binade x - 52)) : ℚ) * (2 : ℚ) ^ (binade x - 52) := by
  unfold fl
  rw [if_neg hx]

/-- The grid of the binade of `x` bounds `fl x` on both sides. -/
theorem fl_grid (x : ℚ) (hx : 0 < x) (z : Int) :
    ((z : ℚ) * (2 : ℚ) ^ (binade x - 52) ≤ x → (z : ℚ) * (2 : ℚ) ^ (binade x - 52) ≤ fl x) ∧
    (x ≤ (z : ℚ) * (2 : ℚ) ^ (binade x - 52) → fl x ≤ (z : ℚ) * (2 : ℚ) ^ (binade x - 52)) := by
  have hu : (0 : ℚ) < (2 : ℚ) ^ (binade x - 52) := by positivity
  rw [fl_eq x (ne_of_gt hx)]
  constructor
  · intro h
    have h1 : (z : ℚ) ≤ x / (2 : ℚ) ^ (binade x - 52) := (le_div_iff₀ hu).mpr h
    have h2 : ((z : Int) : ℚ) ≤ ((roundEven (x / (2 : ℚ) ^ (binade x - 52)) : Int) : ℚ) := by
      exact_mod_cast le_roundEven z _ h1
    exact mul_le_mul_of_nonneg_right h2 hu.le
  · intro h
    have h1 : x / (2 : ℚ) ^ (binade x - 52) ≤ (z : ℚ) := (div_le_iff₀ hu).mpr h
    have h2 : ((roundEven (x / (2 : ℚ) ^ (binade x - 52)) : Int) : ℚ) ≤ ((z : Int) : ℚ) := by
      exact_mod_cast roundEven_le z _ h1
    exact mul_le_mul_of_nonneg_right h2 hu.le

theorem zpow_sub_52 (e : Int) : (2 : ℚ) ^ (e - 52) = (2 : ℚ) ^ e / 2 ^ 52 := by
  rw [zpow_sub₀ (by norm_num)]
  norm_cast

theorem binade_le_fl (x : ℚ) (hx : 0 < x) : (2 : ℚ) ^ binade x ≤ fl x := by
  have h := (fl_grid x hx (2 ^ 52)).1
  have e : (((2 : Int) ^ 52 : Int) : ℚ) * (2 : ℚ) ^ (binade x - 52) = (2 : ℚ) ^ binade x := by
    rw [zpow_sub_52]
    push_cast
    ring
  rw [e] at h
  exact h (binade_spec x hx).1

theorem fl_le_next (x : ℚ) (hx : 0 < x) : fl x ≤ (2 : ℚ) ^ (binade x + 1) := by
  have h := (fl_grid x hx (2 ^ 53)).2
  have e : (((2 : Int) ^ 53 : Int) : ℚ) * (2 : ℚ) ^ (binade x - 52) = (2 : ℚ) ^ (binade x + 1) := by
    rw [zpow_sub_52, zpow_add_one₀ (by norm_num)]
    push_cast
    ring
  rw [e] at h
  exact h (binade_spec x hx).2.le

theorem fl_pos (x : ℚ) (hx : 0 < x) : 0 < fl x :=
  lt_of_lt_of_le (by positivity) (binade_le_fl x hx)

theorem fl_nonneg (x : ℚ) (hx : 0 ≤ x) : 0 ≤ fl x := by
  rcases eq_or_lt_of_le hx with h | h
  · rw [← h]; simp [fl]
  · exact (fl_pos x h).le

/-- Rounding to a `double` is monotone on positive values. -/
theorem fl_mono (x y : ℚ) (hx : 0 < x) (hxy : x ≤ y) : fl x ≤ fl y := by
  have hy : 0 < y := lt_of_lt_of_le hx hxy
  obtain ⟨x1, x2⟩ := binade_spec x hx
  obtain ⟨y1, y2⟩ := binade_spec y hy
  have hle : binade x ≤ binade y := by
    by_contra hc
    have h1 : binade y + 1 ≤ binade x := by omega
    have h2 : (2 : ℚ) ^ (binade y + 1) ≤ (2 : ℚ) ^ binade x :=
      zpow_le_zpow_right₀ (by norm_num) h1
    linarith
  rcases lt_or_eq_of_le hle with hlt | heq
  · have h2 : (2 : ℚ) ^ (binade x + 1) ≤ (2 : ℚ) ^ binade y :=
      zpow_le_zpow_right₀ (by norm_num) (by omega)
    exact le_trans (fl_le_next x hx) (le_trans h2 (binade_le_fl y hy))
  · rw [fl_eq x (ne_of_gt hx), fl_eq y (ne_of_gt hy), heq]
    have hu : (0 : ℚ) < (2 : ℚ) ^ (binade y - 52) := by positivity
    have h1 : x / (2 : ℚ) ^ (binade y - 52) ≤ y / (2 : ℚ) ^ (binade y - 52) :=
      div_le_div_of_nonneg_right hxy hu.le
    have h2 : ((roundEven (x / (2 : ℚ) ^ (binade y - 52)) : Int) : ℚ) ≤
        ((roundEven (y / (2 : ℚ) ^ (binade y - 52)) : Int) : ℚ) := by
      exact_mod_cast roundEven_mono _ _ h1
    exact mul_le_mul_of_nonneg_right h2 hu.le

/-- The relative error of rounding to a `double` is at most `2^-53`. -/
theorem fl_error (x : ℚ) (hx : 0 < x) : |fl x - x| ≤ x / 2 ^ 53 := by
  have hu : (0 : ℚ) < (2 : ℚ) ^ (binade x - 52) := by positivity
  have hr := roundEven_error (x / (2 : ℚ) ^ (binade x - 52))
  have hue := zpow_sub_52 (binade x)
  have hux : (2 : ℚ) ^ (binade x - 52) ≤ x / 2 ^ 52 := by
    rw [hue]
    exact div_le_div_of_nonneg_right (binade_spec x hx).1 (by positivity)
  have e : fl x - x = ((roundEven (x / (2 : ℚ) ^ (binade x - 52)) : ℚ) -
      x / (2 : ℚ) ^ (binade x - 52)) * (2 : ℚ) ^ (binade x - 52) := by
    rw [fl_eq x (ne_of_gt hx)]
    field_simp
  rw [e, abs_mul, abs_of_pos hu]
  calc |(roundEven (x / (2 : ℚ) ^ (binade x - 52)) : ℚ) - x / (2 : ℚ) ^ (binade x - 52)| *
        (2 : ℚ) ^ (binade x - 52)
      ≤ 1 / 2 * (2 : ℚ) ^ (binade x - 52) := mul_le_mul_of_nonneg_right hr hu.le
    _ ≤ 1 / 2 * (x / 2 ^ 52) := by linarith
    _ = x / 2 ^ 53 := by ring

theorem bright_quotient (p : ℚ) (h1 : 1 ≤ p) (h100 : p ≤ 100) :
    1 / 100 ≤ fl (p / 100) ∧ fl (p / 100) ≤ 1 := by
  have hy0 : (0 : ℚ) < p / 100 := by positivity
  have hlo : (1 : ℚ) / 100 ≤ p / 100 := by linarith
  have hhi : p / 100 ≤ 1 := by linarith
  have m1 := fl_mono (1 / 100) (p / 100) (by norm_num) hlo
  have m2 := fl_mono (p / 100) 1 hy0 hhi
  have e1 : (1 : ℚ) / 100 ≤ fl (1 / 100) := by decide!
  have e2 : fl 1 = 1 := by decide!
  rw [e2] at m2
  exact ⟨le_trans e1 m1, m2⟩

theorem bright_bounds (p : ℚ) (h1 : 1 ≤ p) (h100 : p ≤ 100) :
    200 ≤ fl (20000 * fl (p / 100)) ∧ fl (20000 * fl (p / 100)) ≤ 20000 := by
  obtain ⟨q1, q2⟩ := bright_quotient p h1 h100
  have m1 := fl_mono 200 (20000 * fl (p / 100)) (by norm_num) (by linarith)
  have m2 := fl_mono (20000 * fl (p / 100)) 20000 (by linarith) (by linarith)
  have e1 : fl 200 = 200 := by decide!
  have e2 : fl 20000 = 20000 := by decide!
  rw [e1] at m1
  rw [e2] at m2
  exact ⟨m1, m2⟩

theorem bright_nonneg (U : Int) (hU : 0 ≤ U) (p : ℚ) (h1 : 1 ≤ p) :
    0 ≤ fl ((U : ℚ) * fl (p / 100)) := by
  have hUq : (0 : ℚ) ≤ (U : ℚ) := by exact_mod_cast hU
  have hq : (0 : ℚ) ≤ fl (p / 100) := fl_nonneg _ (by positivity)
  exact fl_nonneg _ (mul_nonneg hUq hq)

/-- The value stored by line 174 is within `40000 / 2^53` of the exact
product. -/
theorem bright_error (p : ℚ) (h1 : 1 ≤ p) (h100 : p ≤ 100) :
    |fl (20000 * fl (p / 100)) - 20000 * (p / 100)| ≤ 40000 / 2 ^ 53 := by
  obtain ⟨q1, q2⟩ := bright_quotient p h1 h100
  have hy0 : (0 : ℚ) < p / 100 := by positivity
  have eq := fl_error (p / 100) hy0
  have ec := fl_error (20000 * fl (p / 100)) (by linarith)
  have hq : |fl (p / 100) - p / 100| ≤ 1 / 2 ^ 53 := by
    refine le_trans eq ?_
    apply div_le_div_of_nonneg_right _ (by positivity)
    linarith
  have hc : |fl (20000 * fl (p / 100)) - 20000 * fl (p / 100)| ≤ 20000 / 2 ^ 53 := by
    refine le_trans ec ?_
    apply div_le_div_of_nonneg_right _ (by positivity)
    linarith
  rw [abs_le] at hq hc ⊢
  constructor <;> linarith [hq.1, hq.2, hc.1, hc.2]

theorem ctrunc_close (a b : ℚ) (ha : 0 ≤ a) (hb : 0 ≤ b) (h : |a - b| < 1) :
    ctrunc a ≤ ctrunc b + 1 ∧ ctrunc b ≤ ctrunc a + 1 := by
  unfold ctrunc
  rw [if_pos ha, if_pos hb]
  rw [abs_lt] at h
  have a1 := Int.floor_le a
  have a2 := Int.lt_floor_add_one a
  have b1 := Int.floor_le b
  have b2 := Int.lt_floor_add_one b
  constructor
  · have : ((⌊a⌋ : Int) : ℚ) < ((⌊b⌋ + 2 : Int) : ℚ) := by push_cast; linarith
    have := Int.cast_lt.mp this
    omega
  · have : ((⌊b⌋ : Int) : ℚ) < ((⌊a⌋ + 2 : Int) : ℚ) := by push_cast; linarith
    have := Int.cast_lt.mp this
    omega

/-- Line 120 in `double` arithmetic: the quotient `1/hz` and its product with
`pow(10,7)` are rounded, and the period is `20000` as in exact arithmetic. -/
theorem line_120_exact :
    ctrunc (fl (fl (1 / 500) * fl (10 ^ 7))) = (initVars 500).usec_cycle ∧
    (initVars 500).usec_cycle = 20000 := by
  constructor <;> decide!

/-- Line 230 in `double` arithmetic: the threshold `hz/200` is `2.5`, which
rounding does not change. -/
theorem line_230_exact : fl ((initVars 500).hz / 200) = (initVars 500).hz / 200 := by
  decide!

/-! ## The loop: frame and bounds -/

theorem wrap32_of_range (x : Int) (h0 : -(2 ^ 31) ≤ x) (h1 : x < 2 ^ 31) : wrap32 x = x := by
  unfold wrap32
  have h : (x + 2 ^ 31) % 2 ^ 32 = x + 2 ^ 31 := Int.emod_eq_of_lt (by omega) (by omega)
  omega

theorem ctrunc_nonneg (q : ℚ) (h : 0 ≤ q) : 0 ≤ ctrunc q := by
  unfold ctrunc
  rw [if_pos h]
  exact Int.floor_nonneg.mpr h

theorem ctrunc_le (q : ℚ) (N : Int) (h0 : 0 ≤ q) (h : q ≤ (N : ℚ)) : ctrunc q ≤ N := by
  unfold ctrunc
  rw [if_pos h0]
  have h1 : ((⌊q⌋ : Int) : ℚ) ≤ (N : ℚ) := le_trans (Int.floor_le q) h
  exact_mod_cast h1

theorem ctrunc_intCast (z : Int) : ctrunc (z : ℚ) = z := by
  unfold ctrunc
  split_ifs <;> simp

theorem floorOf_nonneg (v : Vars) (h : 0 ≤ v.usec_cycle) : 0 ≤ floorOf v := by
  unfold floorOf
  exact Int.tdiv_nonneg h (by decide)

theorem floorOf_le (v : Vars) (h : 0 ≤ v.usec_cycle) : floorOf v ≤ v.usec_cycle := by
  unfold floorOf
  rw [Int.tdiv_eq_ediv h (by decide)]
  omega

theorem floorOf_lt (v : Vars) (h : 1 ≤ v.usec_cycle) : floorOf v < v.usec_cycle := by
  unfold floorOf
  rw [Int.tdiv_eq_ediv (by omega) (by decide)]
  omega

theorem rampStep_frame (v : Vars) :
    (rampStep v).fade = v.fade ∧ (rampStep v).usec_cycle = v.usec_cycle ∧
    (rampStep v).hz = v.hz ∧ (rampStep v).led = v.led ∧ (rampStep v).disp = v.disp ∧
    (rampStep v).tick_count = 0 := by
  simp only [rampStep]
  split_ifs <;> simp

theorem rampStep_inBounds (v : Vars) (h : 0 ≤ v.usec_cycle) : InBounds (rampStep v) := by
  have hle : (floorOf v : ℚ) ≤ (v.usec_cycle : ℚ) := by exact_mod_cast floorOf_le v h
  unfold floorOf at hle
  simp only [InBounds, floorOf, rampStep]
  split_ifs <;> simp_all

theorem tick_frame (v : Vars) :
    (tick v).fade = v.fade ∧ (tick v).usec_cycle = v.usec_cycle ∧
    (tick v).hz = v.hz ∧ (tick v).led = v.led ∧ (tick v).disp = v.disp := by
  have h := rampStep_frame { v with tick_count := wrap32 (v.tick_count + 1) }
  simp only [tick]
  split_ifs <;> simp_all

theorem tick_usec (v : Vars) :
    (tick v).usec_on = ctrunc (tick v).cycle ∧
    (tick v).usec_off = wrap32 ((tick v).usec_cycle - (tick v).usec_on) := by
  simp [tick]

theorem tick_cycle_fixed (v : Vars) (h : v.fade ≠ TRUE) : (tick v).cycle = v.cycle := by
  simp only [tick]
  split_ifs <;> simp_all

theorem tick_inBounds (v : Vars) (h : 0 ≤ v.usec_cycle) (hb : InBounds v) : InBounds (tick v) := by
  have hr := rampStep_inBounds { v with tick_count := wrap32 (v.tick_count + 1) } h
  have hf := rampStep_frame { v with tick_count := wrap32 (v.tick_count + 1) }
  simp only [InBounds, floorOf] at hr hb ⊢
  simp only [tick]
  split_ifs <;> simp_all

theorem ticks_succ (n : Nat) (v : Vars) : ticks (n + 1) v = tick (ticks n v) := by
  induction n generalizing v with
  | zero => rfl
  | succ k ih => exact ih (tick v)

theorem ticks_frame (n : Nat) (v : Vars) :
    (ticks n v).fade = v.fade ∧ (ticks n v).usec_cycle = v.usec_cycle ∧
    (ticks n v).hz = v.hz ∧ (ticks n v).led = v.led ∧ (ticks n v).disp = v.disp := by
  induction n with
  | zero => simp [ticks]
  | succ k ih =>
    rw [ticks_succ]
    have h := tick_frame (ticks k v)
    simp_all

theorem ticks_cycle_fixed (n : Nat) (v : Vars) (h : v.fade ≠ TRUE) :
    (ticks n v).cycle = v.cycle := by
  induction n with
  | zero => rfl
  | succ k ih =>
    rw [ticks_succ, tick_cycle_fixed _ (by rw [(ticks_frame k v).1]; exact h), ih]

theorem ticks_inBounds (n : Nat) (v : Vars) (h : 0 ≤ v.usec_cycle) (hb : InBounds v) :
    InBounds (ticks n v) := by
  induction n with
  | zero => exact hb
  | succ k ih =>
    rw [ticks_succ]
    exact tick_inBounds _ (by rw [(ticks_frame k v).2.1]; exact h) ih

/-! ## The parsing loop -/

theorem modeOpts_append (seen : List Opt) (o : Opt) :
    modeOpts (seen ++ [o]) = modeOpts seen ++ (if o.isMode = true then [o] else []) := by
  simp [modeOpts, List.filter_append, List.filter_cons]

theorem parseInv_init (env : Env) (v0 : Vars) (hf : v0.fade = -1) (hc : v0.cycle = -1)
    (hl : v0.led = -1) : ParseInv env v0 v0 [] := by
  simp [ParseInv, hf, hc, hl, modeOpts]

theorem parseInv_display (env : Env) (v0 v : Vars) (seen : List Opt) (a : String)
    (h : ParseInv env v0 v seen) :
    ParseInv env v0 { v with disp := some a } (seen ++ [Opt.display (some a)]) := by
  obtain ⟨h1, h2, h3, h4, h5, h6, hled, hmode⟩ := h
  refine ⟨h1, h2, h3, h4, h5, h6, ?_, ?_⟩
  · rcases hled with ⟨hl, hno⟩ | ⟨b, hb, hnum, hpos, hl⟩
    · left
      refine ⟨hl, ?_⟩
      intro o ho
      rcases List.mem_append.mp ho with ho | ho
      · exact hno o ho
      · simp at ho
    · right
      exact ⟨b, List.mem_append_left _ hb, hnum, hpos, hl⟩
  · simpa [modeOpts_append, Opt.isMode] using hmode

theorem parseInv_led (env : Env) (v0 v : Vars) (seen : List Opt) (a : String)
    (hnum : is_number env a 32 = true) (hpos : env.atoi a > 0)
    (h : ParseInv env v0 v seen) :
    ParseInv env v0 { v with led := env.atoi a } (seen ++ [Opt.led (some a)]) := by
  obtain ⟨h1, h2, h3, h4, h5, h6, _, hmode⟩ := h
  refine ⟨h1, h2, h3, h4, h5, h6, ?_, ?_⟩
  · right
    exact ⟨a, by simp, hnum, hpos, rfl⟩
  · simpa [modeOpts_append, Opt.isMode] using hmode

theorem parseInv_mem_led (env : Env) (v : Vars) (seen : List Opt) (x : Opt)
    (hx : ∀ o, x ≠ Opt.led o)
    (hled : (v.led = -1 ∧ ∀ o, Opt.led o ∉ seen) ∨
      (∃ a, Opt.led (some a) ∈ seen ∧ is_number env a 32 = true ∧ 0 < env.atoi a ∧
        v.led = env.atoi a)) :
    (v.led = -1 ∧ ∀ o, Opt.led o ∉ seen ++ [x]) ∨
      (∃ a, Opt.led (some a) ∈ seen ++ [x] ∧ is_number env a 32 = true ∧ 0 < env.atoi a ∧
        v.led = env.atoi a) := by
  rcases hled with ⟨hl, hno⟩ | ⟨b, hb, hnum, hpos, hl⟩
  · left
    refine ⟨hl, ?_⟩
    intro o ho
    rcases List.mem_append.mp ho with ho | ho
    · exact hno o ho
    · exact hx o (List.mem_singleton.mp ho).symm
  · right
    exact ⟨b, List.mem_append_left _ hb, hnum, hpos, hl⟩

theorem parseInv_unset_of_fade (env : Env) (v0 v : Vars) (seen : List Opt)
    (h : ParseInv env v0 v seen) (hf : v.fade = -1) : v.cycle = -1 ∧ modeOpts seen = [] := by
  obtain ⟨_, _, _, _, _, _, _, hmode⟩ := h
  rcases hmode with ⟨_, hc, hm⟩ | ⟨hF, _⟩ | ⟨hT, _⟩
  · exact ⟨hc, hm⟩
  · rw [hf] at hF; exact absurd hF (by decide)
  · rw [hf] at hT; exact absurd hT (by decide)

theorem parseInv_unset_of_cycle (env : Env) (v0 v : Vars) (seen : List Opt)
    (hU : 0 ≤ v0.usec_cycle)
    (h : ParseInv env v0 v seen) (hc : v.cycle = -1) : v.fade = -1 ∧ modeOpts seen = [] := by
  obtain ⟨_, _, _, _, _, _, _, hmode⟩ := h
  rcases hmode with ⟨hf, _, hm⟩ | ⟨_, a, p, _, _, h1, _, hcyc⟩ | ⟨_, h200, _⟩
  · exact ⟨hf, hm⟩
  · exfalso
    have : (0 : ℚ) ≤ v.cycle := by rw [hcyc]; exact bright_nonneg _ hU p h1
    rw [hc] at this
    norm_num at this
  · exfalso
    rw [hc] at h200
    norm_num at h200

theorem parseInv_brightness (env : Env) (v0 v : Vars) (seen : List Opt) (a : String) (p : ℚ)
    (hf : v.fade = -1) (hp : env.strtod a = some p) (h1 : 1 ≤ p) (h2 : p ≤ 100)
    (h : ParseInv env v0 v seen) :
    ParseInv env v0 { v with cycle := fl ((v.usec_cycle : ℚ) * fl (p / 100)), fade := FALSE }
      (seen ++ [Opt.brightness (some a)]) := by
  have hun := parseInv_unset_of_fade env v0 v seen h hf
  obtain ⟨e1, e2, e3, e4, e5, e6, hled, _⟩ := h
  refine ⟨e1, e2, e3, e4, e5, e6, ?_, ?_⟩
  · exact parseInv_mem_led env v seen _ (by intro o; simp) hled
  · right; left
    refine ⟨rfl, a, p, ?_, hp, h1, h2, ?_⟩
    · simp [modeOpts_append, Opt.isMode, hun.2]
    · show fl ((v.usec_cycle : ℚ) * fl (p / 100)) = fl ((v0.usec_cycle : ℚ) * fl (p / 100))
      rw [e2]

theorem parseInv_fade (env : Env) (v0 v : Vars) (seen : List Opt)
    (hU : 0 ≤ v0.usec_cycle) (hc : v.cycle = -1)
    (h : ParseInv env v0 v seen) :
    ParseInv env v0 { v with fade := TRUE, cycle := 200 } (seen ++ [Opt.fade]) := by
  have hun := parseInv_unset_of_cycle env v0 v seen hU h hc
  obtain ⟨e1, e2, e3, e4, e5, e6, hled, _⟩ := h
  refine ⟨e1, e2, e3, e4, e5, e6, ?_, ?_⟩
  · exact parseInv_mem_led env v seen _ (by intro o; simp) hled
  · right; right
    refine ⟨rfl, rfl, ?_⟩
    simp [modeOpts_append, Opt.isMode, hun.2]

theorem parseSpec_exit (env : Env) (v0 v : Vars) (seen : List Opt) (last : Opt)
    (events : List Event) (hinv : ParseInv env v0 v seen) (hex : ExitAt env v last events) :
    ParseSpec env v0 ⟨seen ++ [last], events, Outcome.exited⟩ :=
  ⟨seen, last, v, rfl, hinv, hex⟩

theorem parseArgs_cons (env : Env) (arg : String) (rest : List String) (v : Vars)
    (seen : List Opt) :
    parseArgs env (arg :: rest) v seen =
      if arg = "--help" ∨ arg = "-h" ∨ arg = "-?" then
        ⟨seen ++ [Opt.help], [Event.printf Msg.usage, Event.exit 0], Outcome.exited⟩
      else if arg = "--display" ∨ arg = "-d" then
        match rest with
        | [] =>
          ⟨seen ++ [Opt.display none],
            [Event.fprintf (Msg.missingArgument arg), Event.exit 1], Outcome.exited⟩
        | a :: rest1 =>
          parseArgs env rest1 { v with disp := some a } (seen ++ [Opt.display (some a)])
      else if arg = "--led" ∨ arg = "-l" then
        match rest with
        | [] =>
          ⟨seen ++ [Opt.led none],
            [Event.fprintf (Msg.missingArgument arg), Event.exit 1], Outcome.exited⟩
        | a :: rest1 =>
          if is_number env a 32 = true ∧ env.atoi a > 0 then
            parseArgs env rest1 { v with led := env.atoi a } (seen ++ [Opt.led (some a)])
          else
            ⟨seen ++ [Opt.led (some a)],
              [Event.fprintf (Msg.invalidArgument a arg), Event.exit 1], Outcome.exited⟩
      else if arg = "--brightness" ∨ arg = "-b" then
        if v.fade ≠ -1 then
          ⟨seen ++ [Opt.brightness rest.head?],
            [Event.fprintf Msg.bothModes, Event.exit 1], Outcome.exited⟩
        else
          match rest with
          | [] =>
            ⟨seen ++ [Opt.brightness none],
              [Event.fprintf (Msg.missingArgument arg), Event.exit 1], Outcome.exited⟩
          | a :: rest1 =>
            match env.strtod a with
            | some p =>
              if p ≥ 1.0 ∧ p ≤ 100.0 then
                parseArgs env rest1
                  { v with cycle := fl ((v.usec_cycle : ℚ) * fl (p / 100)), fade := FALSE }
                  (seen ++ [Opt.brightness (some a)])
              else
                ⟨seen ++ [Opt.brightness (some a)],
                  [Event.fprintf (Msg.invalidArgument a arg), Event.exit 1], Outcome.exited⟩
            | none =>
              ⟨seen ++ [Opt.brightness (some a)],
                [Event.fprintf (Msg.invalidArgument a arg), Event.exit 1], Outcome.exited⟩
      else if arg = "--fade" ∨ arg = "-f" then
        if v.cycle ≠ -1 then
          ⟨seen ++ [Opt.fade], [Event.fprintf Msg.bothModes, Event.exit 1], Outcome.exited⟩
        else
          parseArgs env rest { v with fade := TRUE, cycle := 200 } (seen ++ [Opt.fade])
      else
        ⟨seen ++ [Opt.unrecognized arg],
          [Event.fprintf (Msg.unrecognized arg), Event.exit 1], Outcome.exited⟩ := by
  rw [parseArgs.eq_def]

theorem parseArgs_spec (env : Env) (v0 : Vars) (hU : 0 ≤ v0.usec_cycle) :
    ∀ (n : Nat) (args : List String) (v : Vars) (seen : List Opt),
      args.length ≤ n → ParseInv env v0 v seen → ParseSpec env v0 (parseArgs env args v seen) := by
  intro n
  induction n with
  | zero =>
    intro args v seen hlen hinv
    have hnil : args = [] := List.length_eq_zero.mp (Nat.le_zero.mp hlen)
    subst hnil
    simp only [parseArgs, ParseSpec]
    exact ⟨hinv, trivial⟩
  | succ k ih =>
    intro args v seen hlen hinv
    cases args with
    | nil =>
      simp only [parseArgs, ParseSpec]
      exact ⟨hinv, trivial⟩
    | cons arg rest =>
      rw [parseArgs_cons]
      have hrest : rest.length ≤ k := by simpa using hlen
      by_cases h1 : arg = "--help" ∨ arg = "-h" ∨ arg = "-?"
      · rw [if_pos h1]
        exact parseSpec_exit env v0 v seen _ _ hinv rfl
      rw [if_neg h1]
      by_cases h2 : arg = "--display" ∨ arg = "-d"
      · rw [if_pos h2]
        cases rest with
        | nil => exact parseSpec_exit env v0 v seen _ _ hinv ⟨rfl, arg, rfl⟩
        | cons a rest1 =>
          exact ih rest1 _ _ (by simp at hrest; omega) (parseInv_display env v0 v seen a hinv)
      rw [if_neg h2]
      by_cases h3 : arg = "--led" ∨ arg = "-l"
      · rw [if_pos h3]
        cases rest with
        | nil => exact parseSpec_exit env v0 v seen _ _ hinv ⟨arg, rfl⟩
        | cons a rest1 =>
          by_cases hacc : is_number env a 32 = true ∧ env.atoi a > 0
          · simp only [if_pos hacc]
            exact ih rest1 _ _ (by simp at hrest; omega)
              (parseInv_led env v0 v seen a hacc.1 hacc.2 hinv)
          · simp only [if_neg hacc]
            exact parseSpec_exit env v0 v seen _ _ hinv ⟨hacc, arg, rfl⟩
      rw [if_neg h3]
      by_cases h4 : arg = "--brightness" ∨ arg = "-b"
      · rw [if_pos h4]
        by_cases hf : v.fade ≠ -1
        · rw [if_pos hf]
          exact parseSpec_exit env v0 v seen _ _ hinv (Or.inl ⟨hf, rfl⟩)
        rw [if_neg hf]
        have hf1 : v.fade = -1 := not_not.mp hf
        cases rest with
        | nil => exact parseSpec_exit env v0 v seen _ _ hinv (Or.inr (Or.inl ⟨hf1, rfl, arg, rfl⟩))
        | cons a rest1 =>
          cases hs : env.strtod a with
          | none =>
            simp only [hs]
            refine parseSpec_exit env v0 v seen _ _ hinv (Or.inr (Or.inr ⟨hf1, a, arg, rfl, ?_, rfl⟩))
            intro p hp
            rw [hs] at hp
            cases hp
          | some p =>
            simp only [hs]
            by_cases hr : p ≥ 1.0 ∧ p ≤ 100.0
            · rw [if_pos hr]
              have hr1 : 1 ≤ p := by have := hr.1; norm_num at this; exact this
              have hr2 : p ≤ 100 := by have := hr.2; norm_num at this; exact this
              exact ih rest1 _ _ (by simp at hrest; omega)
                (parseInv_brightness env v0 v seen a p hf1 hs hr1 hr2 hinv)
            · rw [if_neg hr]
              refine parseSpec_exit env v0 v seen _ _ hinv
                (Or.inr (Or.inr ⟨hf1, a, arg, rfl, ?_, rfl⟩))
              intro q hq hq12
              rw [hs] at hq
              cases hq
              apply hr
              constructor
              · norm_num; exact hq12.1
              · norm_num; exact hq12.2
      rw [if_neg h4]
      by_cases h5 : arg = "--fade" ∨ arg = "-f"
      · rw [if_pos h5]
        by_cases hc : v.cycle ≠ -1
        · rw [if_pos hc]
          exact parseSpec_exit env v0 v seen _ _ hinv ⟨hc, rfl⟩
        rw [if_neg hc]
        exact ih rest _ _ hrest (parseInv_fade env v0 v seen hU (not_not.mp hc) hinv)
      rw [if_neg h5]
      exact parseSpec_exit env v0 v seen _ _ hinv rfl

/-! ## `main` up to the loop -/

theorem initVars_500 : initVars 500 =
    { disp := none, hz := 500, cycle := -1, usec_cycle := 20000, usec_on := 0, usec_off := 0,
      factor := 1.25, tick_count := 0, fade := -1, led := -1 } := by
  decide!

theorem unset_initVars_500 : Unset (initVars 500) := by
  rw [initVars_500]
  simp [Unset]

theorem startup_cases (env : Env) (w : Vars) :
    (w.led = -1 ∧
      startup env w = ([Event.fprintf Msg.ledRequired, Event.exit 1], Outcome.exited)) ∨
    (w.led ≠ -1 ∧ (w.fade = -1 ∧ w.cycle = -1) ∧
      startup env w = ([Event.fprintf Msg.modeRequired, Event.exit 1], Outcome.exited)) ∨
    (w.led ≠ -1 ∧ ¬ (w.fade = -1 ∧ w.cycle = -1) ∧ env.XOpenDisplay w.disp = false ∧
      startup env w =
        ([Event.XOpenDisplay w.disp, Event.fprintf Msg.cannotOpen, Event.exit 1],
          Outcome.exited)) ∨
    (w.led ≠ -1 ∧ ¬ (w.fade = -1 ∧ w.cycle = -1) ∧ env.XOpenDisplay w.disp = true ∧
      startup env w = ([Event.XOpenDisplay w.disp], Outcome.running w)) := by
  unfold startup
  by_cases c1 : w.led = -1
  · left
    exact ⟨c1, by rw [if_pos c1]⟩
  by_cases c2 : w.fade = -1 ∧ w.cycle = -1
  · right; left
    exact ⟨c1, c2, by rw [if_neg c1, if_pos c2]⟩
  by_cases c3 : env.XOpenDisplay w.disp = false
  · right; right; left
    exact ⟨c1, c2, c3, by rw [if_neg c1, if_neg c2, if_pos c3]⟩
  · right; right; right
    exact ⟨c1, c2, by simpa using c3, by rw [if_neg c1, if_neg c2, if_neg c3]⟩

theorem mainFrom_running (env : Env) (v0 : Vars) (h0 : Unset v0) (argv : List String) (v : Vars)
    (h : (mainFrom env v0 argv).outcome = Outcome.running v) :
    ParseInv env v0 v (mainFrom env v0 argv).seen ∧
    (mainFrom env v0 argv).events = [Event.XOpenDisplay v.disp] ∧
    v.led ≠ -1 ∧ v.fade ≠ -1 ∧ env.XOpenDisplay v.disp = true := by
  obtain ⟨hf, hc, hl, hU⟩ := h0
  have hs := parseArgs_spec env v0 hU _ argv.tail v0 [] le_rfl (parseInv_init env v0 hf hc hl)
  unfold mainFrom at h ⊢
  generalize parseArgs env argv.tail v0 [] = r at hs h ⊢
  obtain ⟨seen, events, outcome⟩ := r
  cases outcome with
  | exited => simp at h
  | running w =>
    simp only [ParseSpec] at hs
    obtain ⟨hinv, hev⟩ := hs
    subst hev
    rcases startup_cases env w with ⟨_, e⟩ | ⟨_, _, e⟩ | ⟨_, _, _, e⟩ | ⟨c1, c2, c3, e⟩
    · simp [e] at h
    · simp [e] at h
    · simp [e] at h
    · simp only [e, Outcome.running.injEq] at h ⊢
      subst h
      refine ⟨hinv, by simp, c1, ?_, c3⟩
      intro hfade
      exact c2 ⟨hfade, (parseInv_unset_of_fade env v0 w seen hinv hfade).1⟩

/-- How `main` ends before its loop, when it does: in the parsing loop, or in
one of the three checks after it. -/
theorem mainFrom_exited (env : Env) (v0 : Vars) (h0 : Unset v0) (argv : List String)
    (h : (mainFrom env v0 argv).outcome = Outcome.exited) :
    (∃ pre last vm, (mainFrom env v0 argv).seen = pre ++ [last] ∧ ParseInv env v0 vm pre ∧
      ExitAt env vm last (mainFrom env v0 argv).events) ∨
    (∃ w, ParseInv env v0 w (mainFrom env v0 argv).seen ∧
      ((w.led = -1 ∧
          (mainFrom env v0 argv).events = [Event.fprintf Msg.ledRequired, Event.exit 1]) ∨
       (w.led ≠ -1 ∧ w.fade = -1 ∧ w.cycle = -1 ∧
          (mainFrom env v0 argv).events = [Event.fprintf Msg.modeRequired, Event.exit 1]) ∨
       (w.led ≠ -1 ∧ w.fade ≠ -1 ∧ env.XOpenDisplay w.disp = false ∧
          (mainFrom env v0 argv).events =
            [Event.XOpenDisplay w.disp, Event.fprintf Msg.cannotOpen, Event.exit 1]))) := by
  obtain ⟨hf, hc, hl, hU⟩ := h0
  have hs := parseArgs_spec env v0 hU _ argv.tail v0 [] le_rfl (parseInv_init env v0 hf hc hl)
  unfold mainFrom at h ⊢
  generalize parseArgs env argv.tail v0 [] = r at hs h ⊢
  obtain ⟨seen, events, outcome⟩ := r
  cases outcome with
  | exited =>
    left
    simpa only [ParseSpec] using hs
  | running w =>
    right
    simp only [ParseSpec] at hs
    obtain ⟨hinv, hev⟩ := hs
    subst hev
    refine ⟨w, hinv, ?_⟩
    rcases startup_cases env w with ⟨c1, e⟩ | ⟨c1, c2, e⟩ | ⟨c1, c2, c3, e⟩ | ⟨_, _, _, e⟩
    · left
      exact ⟨c1, by simp [e]⟩
    · right; left
      exact ⟨c1, c2.1, c2.2, by simp [e]⟩
    · right; right
      refine ⟨c1, ?_, c3, by simp [e]⟩
      intro hfade
      exact c2 ⟨hfade, (parseInv_unset_of_fade env v0 w seen hinv hfade).1⟩
    · simp [e] at h

theorem main_running (env : Env) (argv : List String) (n : Nat) (w : Vars)
    (h : (main env argv n).outcome = Outcome.running w) :
    ∃ v, (mainFrom env (initVars 500) argv).outcome = Outcome.running v ∧ w = ticks n v ∧
      (main env argv n).seen = (mainFrom env (initVars 500) argv).seen ∧
      (main env argv n).events = Event.XOpenDisplay v.disp :: loopTrace n v := by
  rcases hr : (mainFrom env (initVars 500) argv).outcome with _ | v
  · simp only [main, hr] at h
    exact absurd h (by simp)
  · have hev := (mainFrom_running env _ unset_initVars_500 argv v hr).2.1
    simp only [main, hr, Outcome.running.injEq] at h
    refine ⟨v, rfl, h.symm, ?_, ?_⟩
    · simp only [main, hr]
    · simp only [main, hr, hev, List.singleton_append]

theorem main_exited (env : Env) (argv : List String) (n : Nat)
    (h : (mainFrom env (initVars 500) argv).outcome = Outcome.exited) :
    main env argv n = mainFrom env (initVars 500) argv := by
  unfold main
  simp only [h]

theorem main_exited_iff (env : Env) (argv : List String) (n : Nat) :
    (main env argv n).outcome = Outcome.exited ↔
      (mainFrom env (initVars 500) argv).outcome = Outcome.exited := by
  constructor
  · intro h
    cases hr : (mainFrom env (initVars 500) argv).outcome with
    | exited => rfl
    | running v =>
      unfold main at h
      simp only [hr] at h
      exact absurd h (by simp)
  · intro h
    rw [main_exited env argv n h]
    exact h

/-! ## The state in which the loop is entered -/

theorem mem_modeOpts (seen : List Opt) (o : Opt) (h : o ∈ seen) (hm : o.isMode = true) :
    o ∈ modeOpts seen :=
  List.mem_filter.mpr ⟨h, hm⟩

/-- The three ways the mode variables can stand after parsing, read off the
branches entered. -/
theorem parseInv_mode (env : Env) (v0 v : Vars) (seen : List Opt)
    (h : ParseInv env v0 v seen) :
    (v.fade = -1 ∧ v.cycle = -1 ∧ modeOpts seen = []) ∨
    (v.fade = FALSE ∧ ∃ a p, modeOpts seen = [Opt.brightness (some a)] ∧
      env.strtod a = some p ∧ 1 ≤ p ∧ p ≤ 100 ∧
      v.cycle = fl ((v0.usec_cycle : ℚ) * fl (p / 100))) ∨
    (v.fade = TRUE ∧ v.cycle = 200 ∧ modeOpts seen = [Opt.fade]) :=
  h.2.2.2.2.2.2.2

theorem mainFrom_inBounds (env : Env) (argv : List String) (v : Vars)
    (h : (mainFrom env (initVars 500) argv).outcome = Outcome.running v) :
    v.usec_cycle = 20000 ∧ v.hz = 500 ∧ v.tick_count = 0 ∧ v.factor = 1.25 ∧ InBounds v := by
  obtain ⟨hinv, _, _, hfade, _⟩ := mainFrom_running env _ unset_initVars_500 argv v h
  have hmode := parseInv_mode env _ v _ hinv
  obtain ⟨ehz, eU, _, _, efac, etc, _, _⟩ := hinv
  rw [initVars_500] at ehz eU efac etc hmode
  simp only at ehz eU efac etc hmode
  refine ⟨eU, ehz, etc, efac, ?_⟩
  simp only [InBounds, floorOf, eU]
  have hfl : (20000 : Int).tdiv 100 = 200 := by decide
  rw [hfl]
  rcases hmode with ⟨hf, _⟩ | ⟨_, a, p, _, _, h1, h2, hc⟩ | ⟨_, hc, _⟩
  · exact absurd hf hfade
  · rw [hc]
    push_cast
    exact bright_bounds p h1 h2
  · rw [hc]
    norm_num

theorem ticks_main_inBounds (env : Env) (argv : List String) (v : Vars) (n : Nat)
    (h : (mainFrom env (initVars 500) argv).outcome = Outcome.running v) :
    (ticks n v).usec_cycle = 20000 ∧ (200 : ℚ) ≤ (ticks n v).cycle ∧
      (ticks n v).cycle ≤ 20000 := by
  obtain ⟨eU, _, _, _, hb⟩ := mainFrom_inBounds env argv v h
  have hU : (ticks n v).usec_cycle = 20000 := by rw [(ticks_frame n v).2.1, eU]
  have hb2 := ticks_inBounds n v (by rw [eU]; decide) hb
  simp only [InBounds, floorOf, hU] at hb2
  have hfl : (20000 : Int).tdiv 100 = 200 := by decide
  rw [hfl] at hb2
  refine ⟨hU, ?_, ?_⟩
  · exact_mod_cast hb2.1
  · exact_mod_cast hb2.2

/-! ## The ramp step in closed form -/

theorem clamp_eq (lo hi x : ℚ) (h : lo ≤ hi) :
    (if (if x < lo then lo else x) > hi then hi else (if x < lo then lo else x)) =
      min hi (max lo x) := by
  by_cases h1 : x < lo
  · rw [if_pos h1, if_neg (not_lt.mpr h), max_eq_left (le_of_lt h1), min_eq_right h]
  · rw [if_neg h1, max_eq_right (not_lt.mp h1)]
    by_cases h2 : x > hi
    · rw [if_pos h2, min_eq_left (le_of_lt h2)]
    · rw [if_neg h2, min_eq_right (not_lt.mp h2)]

theorem rampStep_cycle (v : Vars) (h : 0 ≤ v.usec_cycle) :
    (rampStep v).cycle =
      min (v.usec_cycle : ℚ) (max (floorOf v : ℚ) (v.cycle * (rampStep v).factor)) := by
  have hle : (floorOf v : ℚ) ≤ (v.usec_cycle : ℚ) := by exact_mod_cast floorOf_le v h
  have hc := fun x => clamp_eq (floorOf v : ℚ) (v.usec_cycle : ℚ) x hle
  unfold floorOf at hc ⊢
  by_cases c1 : v.cycle ≥ (v.usec_cycle : ℚ) <;>
    by_cases c2 : v.cycle ≤ ((v.usec_cycle.tdiv 100 : Int) : ℚ) <;>
    simp only [rampStep, c1, c2, if_true, if_false, ← hc, apply_ite Vars.cycle,
      apply_ite Vars.factor, apply_ite Vars.usec_cycle, ite_self]

theorem rampStep_factor (v : Vars) :
    (rampStep v).factor =
      if v.cycle ≤ (floorOf v : ℚ) then 1.25
      else if v.cycle ≥ (v.usec_cycle : ℚ) then 0.75 else v.factor := by
  unfold floorOf
  simp only [rampStep]
  split_ifs <;> simp_all

theorem rampSteps_succ (n : Nat) (v : Vars) : rampSteps (n + 1) v = rampStep (rampSteps n v) := by
  induction n generalizing v with
  | zero => rfl
  | succ k ih => exact ih (rampStep v)

theorem rampSteps_usec_cycle (n : Nat) (v : Vars) : (rampSteps n v).usec_cycle = v.usec_cycle := by
  induction n with
  | zero => rfl
  | succ k ih => rw [rampSteps_succ, (rampStep_frame _).2.1, ih]

theorem rampSteps_inBounds (n : Nat) (v : Vars) (h : 0 ≤ v.usec_cycle) (hb : InBounds v) :
    InBounds (rampSteps n v) := by
  cases n with
  | zero => exact hb
  | succ k =>
    rw [rampSteps_succ]
    exact rampStep_inBounds _ (by rw [rampSteps_usec_cycle]; exact h)

/-- An iteration that does not reach the tick threshold leaves `cycle` as it is. -/
theorem tick_cycle_below_threshold (v : Vars)
    (h : ((wrap32 (v.tick_count + 1) : Int) : ℚ) < v.hz / 200) : (tick v).cycle = v.cycle := by
  have hn : ¬ ((wrap32 (v.tick_count + 1) : Int) : ℚ) ≥ v.hz / 200 := not_le.mpr h
  simp only [tick]
  split_ifs <;> simp_all

/-! ## Mode options among the branches entered -/

theorem parseInv_modes (env : Env) (v0 v : Vars) (seen : List Opt)
    (h : ParseInv env v0 v seen) :
    (v.fade = -1 ∧ modeOpts seen = []) ∨
    (v.fade = FALSE ∧ ∃ a, modeOpts seen = [Opt.brightness (some a)]) ∨
    (v.fade = TRUE ∧ modeOpts seen = [Opt.fade]) := by
  rcases parseInv_mode env v0 v seen h with ⟨hf, _, hm⟩ | ⟨hf, a, _, hm, _⟩ | ⟨hf, _, hm⟩
  · exact Or.inl ⟨hf, hm⟩
  · exact Or.inr (Or.inl ⟨hf, a, hm⟩)
  · exact Or.inr (Or.inr ⟨hf, hm⟩)

theorem parseInv_not_both (env : Env) (v0 v : Vars) (seen : List Opt)
    (h : ParseInv env v0 v seen) (o : Option String)
    (hb : Opt.brightness o ∈ seen) (hf : Opt.fade ∈ seen) : False := by
  have mb := mem_modeOpts _ _ hb rfl
  have mf := mem_modeOpts _ _ hf rfl
  rcases parseInv_modes env v0 v seen h with ⟨_, hm⟩ | ⟨_, a, hm⟩ | ⟨_, hm⟩
  · rw [hm] at mb; simp at mb
  · rw [hm] at mf; simp at mf
  · rw [hm] at mb; simp at mb

/-! ## The events of the loop -/

theorem pulse_events (v : Vars) (e : Event) (h : e ∈ pulse v) :
    e ≠ Event.XCloseDisplay ∧ (∀ s, e ≠ Event.exit s) ∧ (∀ d, e ≠ Event.XOpenDisplay d) := by
  unfold pulse set_led at h
  split_ifs at h <;> simp at h <;> rcases h with h | h | h | h | h | h <;> subst h <;> simp

theorem loopTrace_events (n : Nat) (v : Vars) (e : Event) (h : e ∈ loopTrace n v) :
    e ≠ Event.XCloseDisplay ∧ (∀ s, e ≠ Event.exit s) ∧ (∀ d, e ≠ Event.XOpenDisplay d) := by
  induction n generalizing v with
  | zero => simp [loopTrace] at h
  | succ k ih =>
    simp only [loopTrace, List.mem_append] at h
    rcases h with h | h
    · exact pulse_events _ e h
    · exact ih _ h

theorem split_at_absent {α : Type} (x : α) (pre post l1 l2 : List α) (hx : x ∉ pre)
    (h : pre ++ post = l1 ++ x :: l2) : ∃ t, l1 = pre ++ t ∧ post = t ++ x :: l2 := by
  rcases List.append_eq_append_iff.mp h with ⟨t, h1, h2⟩ | ⟨t, h1, h2⟩
  · exact ⟨t, h1, h2⟩
  · cases t with
    | nil =>
      refine ⟨[], ?_, ?_⟩
      · simpa using h1.symm
      · simpa using h2.symm
    | cons y t1 =>
      exfalso
      simp only [List.cons_append, List.cons.injEq] at h2
      apply hx
      rw [h1, h2.1]
      simp

/-! ## Fixed brightness -/

/-- C1, refuted as stated: on `-l 1 -b 57` the value `strtod` returns is `57`,
within `[1, 100]`, and the program enters its loop with `usec_cycle = 20000`
and with the stored duty value `20000 * (57 / 100)` as computed in `double`
arithmetic, which is `11400 - 2^-39` and not `11400`: the quotient `57 / 100`
is rounded down and the product is rounded again.  The first iteration
therefore sleeps `usec_on = 11399` and `usec_off = 8601`, where exact rational
arithmetic gives `trunc (20000 * 57 / 100) = 11400`. -/
theorem C1_fixed_brightness_initialisation_counterexample :
    stdenv.strtod "57" = some 57 ∧ (1 : ℚ) ≤ 57 ∧ (57 : ℚ) ≤ 100 ∧
    (mainFrom stdenv (initVars 500) ["xledpwm", "-l", "1", "-b", "57"]).outcome =
      Outcome.running bright57Start ∧
    bright57Start.usec_cycle = 20000 ∧
    bright57Start.cycle = 11400 - 1 / 2 ^ 39 ∧
    bright57Start.cycle ≠ (bright57Start.usec_cycle : ℚ) * (57 / 100) ∧
    (tick bright57Start).usec_on = 11399 ∧
    (tick bright57Start).usec_off = 8601 ∧
    ctrunc ((bright57Start.usec_cycle : ℚ) * 57 / 100) = 11400 ∧
    (tick bright57Start).usec_on ≠ ctrunc ((bright57Start.usec_cycle : ℚ) * 57 / 100) :=
  ⟨by decide!, by norm_num, by norm_num, by decide!, by decide!, by decide!, by decide!,
    by decide!, by decide!, by decide!, by decide!⟩

/-- C1, amended: a brightness value `p` in `[1, 100]` given to
`-b`/`--brightness` is stored as the `double` result of
`usec_cycle * (p / 100)`, the quotient and the product each rounded to the
nearest `double`, with `fade = FALSE` (the branch continues the parsing loop
with exactly these assignments).  When the program enters its loop after that
option the period is `20000`, the stored value is still that `double`, it
differs from the exact `usec_cycle * (p / 100)` by at most `40000 / 2^53`, the
first iteration uses `usec_on = trunc cycle`, and this differs from
`trunc (usec_cycle * p / 100)` by at most one; the two are equal, and
`cycle = usec_cycle * (p / 100)`, whenever neither rounding changes its
operand. -/
theorem C1_fixed_brightness_initialisation_amended (env : Env) (argv : List String)
    (a : String) (p : ℚ) (v : Vars)
    (hp : env.strtod a = some p) (h1 : 1 ≤ p) (h100 : p ≤ 100)
    (hseen : Opt.brightness (some a) ∈ (mainFrom env (initVars 500) argv).seen)
    (hrun : (mainFrom env (initVars 500) argv).outcome = Outcome.running v) :
    (∀ (opt : String) (w : Vars) (rest : List String) (seen : List Opt),
      opt = "-b" ∨ opt = "--brightness" → w.fade = -1 →
      parseArgs env (opt :: a :: rest) w seen =
        parseArgs env rest { w with cycle := fl ((w.usec_cycle : ℚ) * fl (p / 100)), fade := FALSE }
          (seen ++ [Opt.brightness (some a)])) ∧
    v.fade = FALSE ∧ v.usec_cycle = 20000 ∧
    v.cycle = fl ((v.usec_cycle : ℚ) * fl (p / 100)) ∧
    |v.cycle - (v.usec_cycle : ℚ) * (p / 100)| ≤ 40000 / 2 ^ 53 ∧
    (tick v).usec_on = ctrunc v.cycle ∧
    (tick v).usec_on ≤ ctrunc ((v.usec_cycle : ℚ) * p / 100) + 1 ∧
    ctrunc ((v.usec_cycle : ℚ) * p / 100) ≤ (tick v).usec_on + 1 ∧
    (fl (p / 100) = p / 100 →
      fl ((v.usec_cycle : ℚ) * (p / 100)) = (v.usec_cycle : ℚ) * (p / 100) →
      v.cycle = (v.usec_cycle : ℚ) * (p / 100) ∧
      (tick v).usec_on = ctrunc ((v.usec_cycle : ℚ) * p / 100)) := by
  have hrange : p ≥ 1.0 ∧ p ≤ 100.0 := by
    constructor
    · norm_num; exact h1
    · norm_num; exact h100
  refine ⟨?_, ?_⟩
  · intro opt w rest seen hopt hw
    have hnf : ¬ w.fade ≠ -1 := not_not.mpr hw
    rcases hopt with rfl | rfl
    · rw [parseArgs_cons, if_neg (by decide), if_neg (by decide), if_neg (by decide),
        if_pos (by decide), if_neg hnf]
      simp only [hp, if_pos hrange]
    · rw [parseArgs_cons, if_neg (by decide), if_neg (by decide), if_neg (by decide),
        if_pos (by decide), if_neg hnf]
      simp only [hp, if_pos hrange]
  · obtain ⟨hinv, _, _, _, _⟩ := mainFrom_running env _ unset_initVars_500 argv v hrun
    obtain ⟨eU, _, _, _, _⟩ := mainFrom_inBounds env argv v hrun
    have hmem := mem_modeOpts _ _ hseen rfl
    have hcyc : v.fade = FALSE ∧ v.cycle = fl ((v.usec_cycle : ℚ) * fl (p / 100)) := by
      rcases parseInv_mode env _ v _ hinv with ⟨_, _, hm⟩ | ⟨hF, b, q, hm, hq, _, _, hc⟩ |
          ⟨_, _, hm⟩
      · rw [hm] at hmem
        simp at hmem
      · rw [hm] at hmem
        simp only [List.mem_singleton, Opt.brightness.injEq, Option.some.injEq] at hmem
        subst hmem
        rw [hp] at hq
        cases hq
        refine ⟨hF, ?_⟩
        rw [hc, eU, initVars_500]
      · rw [hm] at hmem
        simp at hmem
    have hne : v.fade ≠ TRUE := by rw [hcyc.1]; decide
    have hon : (tick v).usec_on = ctrunc v.cycle := by
      rw [(tick_usec v).1, tick_cycle_fixed v hne]
    have hU : (v.usec_cycle : ℚ) = 20000 := by rw [eU]; norm_num
    have herr : |v.cycle - (v.usec_cycle : ℚ) * (p / 100)| ≤ 40000 / 2 ^ 53 := by
      rw [hcyc.2, hU]
      exact bright_error p h1 h100
    have hcn : (0 : ℚ) ≤ v.cycle := by
      rw [hcyc.2, hU]
      linarith [(bright_bounds p h1 h100).1]
    have hen : (0 : ℚ) ≤ (v.usec_cycle : ℚ) * p / 100 := by
      rw [hU]
      linarith
    have hlt : |v.cycle - (v.usec_cycle : ℚ) * p / 100| < 1 := by
      rw [mul_div_assoc]
      refine lt_of_le_of_lt herr ?_
      norm_num
    obtain ⟨c1, c2⟩ := ctrunc_close _ _ hcn hen hlt
    refine ⟨hcyc.1, eU, hcyc.2, herr, hon, ?_, ?_, ?_⟩
    · rw [hon]; exact c1
    · rw [hon]; exact c2
    · intro e1 e2
      have hex : v.cycle = (v.usec_cycle : ℚ) * (p / 100) := by
        rw [hcyc.2, e1, e2]
      refine ⟨hex, ?_⟩
      rw [hon, hex, mul_div_assoc]

/-- C1 amended, on `-l 3 -b 25`: the loop is entered with the `double`
`20000 * (25 / 100)`, which is `5000` exactly, and the first iteration has
`usec_on = 5000 = trunc (20000 * 25 / 100)`. -/
theorem C1_fixed_brightness_initialisation_amended_witness :
    stdenv.strtod "25" = some 25 ∧
    Opt.brightness (some "25") ∈
      (mainFrom stdenv (initVars 500) ["xledpwm", "-l", "3", "-b", "25"]).seen ∧
    (mainFrom stdenv (initVars 500) ["xledpwm", "-l", "3", "-b", "25"]).outcome =
      Outcome.running brightStart ∧
    brightStart.cycle = fl ((brightStart.usec_cycle : ℚ) * fl (25 / 100)) ∧
    |brightStart.cycle - (brightStart.usec_cycle : ℚ) * (25 / 100)| ≤ 40000 / 2 ^ 53 ∧
    (tick brightStart).usec_on = ctrunc brightStart.cycle ∧
    (tick brightStart).usec_on = 5000 ∧
    ctrunc ((brightStart.usec_cycle : ℚ) * 25 / 100) = 5000 :=
  have h := C1_fixed_brightness_initialisation_amended stdenv
    ["xledpwm", "-l", "3", "-b", "25"]
    "25" 25 brightStart (by decide!) (by norm_num) (by norm_num) (by decide!) (by decide!)
  ⟨by decide!, by decide!, by decide!, h.2.2.2.1, h.2.2.2.2.1, h.2.2.2.2.2.1, by decide!,
    by decide!⟩

/-- C2: when `fade` is `FALSE` no loop iteration changes `cycle` or `fade`,
and at every tick `n ≥ 1` the pair `(usec_on, usec_off)` is that of the first
tick.  With period `1000` and brightness `25` (the state the `-b 25` branch
produces from period `1000`) every tick `n ≥ 1`, in particular each of the
first 1000, has `usec_on = 250` and `usec_off = 750`. -/
theorem C2_fixed_brightness_constancy (v : Vars) (n : Nat) (hf : v.fade = FALSE)
    (hn : 1 ≤ n) :
    (ticks n v).cycle = v.cycle ∧ (ticks n v).fade = FALSE ∧
    (ticks n v).usec_on = (ticks 1 v).usec_on ∧
    (ticks n v).usec_off = (ticks 1 v).usec_off ∧
    (parseArgs stdenv ["-b", "25"] period1000 []).outcome = Outcome.running fixed25 ∧
    (ticks n fixed25).usec_on = 250 ∧ (ticks n fixed25).usec_off = 750 := by
  have key : ∀ w : Vars, w.fade = FALSE →
      (ticks n w).cycle = w.cycle ∧ (ticks n w).fade = FALSE ∧
      (ticks n w).usec_on = ctrunc w.cycle ∧
      (ticks n w).usec_off = wrap32 (w.usec_cycle - ctrunc w.cycle) := by
    intro w hw
    have hne : w.fade ≠ TRUE := by rw [hw]; decide
    obtain ⟨m, rfl⟩ : ∃ m, n = m + 1 := ⟨n - 1, by omega⟩
    have hc : (ticks (m + 1) w).cycle = w.cycle := ticks_cycle_fixed _ w hne
    have hU : (ticks (m + 1) w).usec_cycle = w.usec_cycle := (ticks_frame _ w).2.1
    have hu := tick_usec (ticks m w)
    rw [← ticks_succ] at hu
    refine ⟨hc, by rw [(ticks_frame _ w).1, hw], ?_, ?_⟩
    · rw [hu.1, hc]
    · rw [hu.2, hu.1, hc, hU]
  have one : ∀ w : Vars, w.fade = FALSE →
      (ticks 1 w).usec_on = ctrunc w.cycle ∧
      (ticks 1 w).usec_off = wrap32 (w.usec_cycle - ctrunc w.cycle) := by
    intro w hw
    have hne : w.fade ≠ TRUE := by rw [hw]; decide
    have hu := tick_usec w
    have hc := tick_cycle_fixed w hne
    have hU := (tick_frame w).2.1
    exact ⟨by show (tick w).usec_on = _; rw [hu.1, hc],
      by show (tick w).usec_off = _; rw [hu.2, hu.1, hc, hU]⟩
  obtain ⟨k1, k2, k3, k4⟩ := key v hf
  obtain ⟨_, _, s3, s4⟩ := key fixed25 rfl
  refine ⟨k1, k2, ?_, ?_, by decide!, ?_, ?_⟩
  · rw [k3, (one v hf).1]
  · rw [k4, (one v hf).2]
  · rw [s3]; decide!
  · rw [s4]; decide!

/-- C2, at tick 1000 of the scenario with period `1000` and brightness `25`. -/
theorem C2_fixed_brightness_constancy_witness :
    fixed25.fade = FALSE ∧ 1 ≤ 1000 ∧
    (ticks 1000 fixed25).cycle = 250 ∧
    (ticks 1000 fixed25).usec_on = 250 ∧ (ticks 1000 fixed25).usec_off = 750 :=
  have h := C2_fixed_brightness_constancy fixed25 1000 rfl (by decide)
  ⟨rfl, by decide, by rw [h.1]; decide!, h.2.2.2.2.2.1, h.2.2.2.2.2.2⟩

/-! ## The fade ramp -/

/-- C3: in fade mode the duty value of the program lies in
`[usec_cycle/100, usec_cycle] = [200, 20000]` when the loop is entered and
after every number `n` of iterations; the ramp step maps every state with
`usec_cycle ≥ 0`, whatever its `cycle` and `factor`, to a value in
`[usec_cycle/100, usec_cycle]` (integer division); and from any state within
the bounds every later tick is within the bounds. -/
theorem C3_fade_bounds (env : Env) (argv : List String) (n : Nat) (v : Vars)
    (hrun : (main env argv n).outcome = Outcome.running v) (hfade : v.fade = TRUE) :
    v.usec_cycle = 20000 ∧ v.usec_cycle.tdiv 100 = 200 ∧
    ((v.usec_cycle.tdiv 100 : Int) : ℚ) ≤ v.cycle ∧ v.cycle ≤ (v.usec_cycle : ℚ) ∧
    (∀ w : Vars, 0 ≤ w.usec_cycle →
      ((w.usec_cycle.tdiv 100 : Int) : ℚ) ≤ (rampStep w).cycle ∧
      (rampStep w).cycle ≤ (w.usec_cycle : ℚ)) ∧
    (∀ (w : Vars) (m : Nat), 0 ≤ w.usec_cycle →
      ((w.usec_cycle.tdiv 100 : Int) : ℚ) ≤ w.cycle → w.cycle ≤ (w.usec_cycle : ℚ) →
      ((w.usec_cycle.tdiv 100 : Int) : ℚ) ≤ (ticks m w).cycle ∧
      (ticks m w).cycle ≤ (w.usec_cycle : ℚ)) := by
  obtain ⟨v0, h0, rfl, _, _⟩ := main_running env argv n v hrun
  obtain ⟨hU, hlo, hhi⟩ := ticks_main_inBounds env argv v0 n h0
  have hfl : (20000 : Int).tdiv 100 = 200 := by decide
  refine ⟨hU, by rw [hU, hfl], ?_, ?_, ?_, ?_⟩
  · rw [hU, hfl]; exact_mod_cast hlo
  · rw [hU]; exact_mod_cast hhi
  · intro w hw
    have hb := rampStep_inBounds w hw
    simp only [InBounds, floorOf, (rampStep_frame w).2.1] at hb
    exact hb
  · intro w m hw hlo hhi
    have hb := ticks_inBounds m w hw ⟨hlo, hhi⟩
    simp only [InBounds, floorOf, (ticks_frame m w).2.1] at hb
    exact hb

/-- C3, on `-l 1 -f` after 7 iterations: the duty value is within
`[200, 20000]`. -/
theorem C3_fade_bounds_witness :
    (main stdenv ["xledpwm", "-l", "1", "-f"] 7).outcome = Outcome.running (ticks 7 fadeStart) ∧
    (ticks 7 fadeStart).fade = TRUE ∧
    (ticks 7 fadeStart).usec_cycle = 20000 ∧
    (((ticks 7 fadeStart).usec_cycle.tdiv 100 : Int) : ℚ) ≤ (ticks 7 fadeStart).cycle ∧
    (ticks 7 fadeStart).cycle ≤ ((ticks 7 fadeStart).usec_cycle : ℚ) :=
  have h := C3_fade_bounds stdenv ["xledpwm", "-l", "1", "-f"] 7 (ticks 7 fadeStart)
    (by decide!) (by decide!)
  ⟨by decide!, by decide!, h.1, h.2.2.1, h.2.2.2.1⟩

/-- C4: for every period `usec_cycle ≥ 1` and every previous factor, a ramp
step that begins with `cycle ≥ usec_cycle` uses the factor `0.75`, one that
begins with `cycle ≤ usec_cycle/100` uses the factor `1.25`, and one that
begins strictly between the bounds keeps the previous factor; in each case the
new duty value is `cycle` times that factor, clamped into
`[usec_cycle/100, usec_cycle]`. -/
theorem C4_ramp_direction_flip (v : Vars) (hper : 1 ≤ v.usec_cycle) :
    (v.cycle ≥ (v.usec_cycle : ℚ) →
      (rampStep v).factor = 0.75 ∧
      (rampStep v).cycle =
        min (v.usec_cycle : ℚ) (max ((v.usec_cycle.tdiv 100 : Int) : ℚ) (v.cycle * 0.75))) ∧
    (v.cycle ≤ ((v.usec_cycle.tdiv 100 : Int) : ℚ) →
      (rampStep v).factor = 1.25 ∧
      (rampStep v).cycle =
        min (v.usec_cycle : ℚ) (max ((v.usec_cycle.tdiv 100 : Int) : ℚ) (v.cycle * 1.25))) ∧
    (((v.usec_cycle.tdiv 100 : Int) : ℚ) < v.cycle → v.cycle < (v.usec_cycle : ℚ) →
      (rampStep v).factor = v.factor ∧
      (rampStep v).cycle =
        min (v.usec_cycle : ℚ)
          (max ((v.usec_cycle.tdiv 100 : Int) : ℚ) (v.cycle * v.factor))) := by
  have hlt : (floorOf v : ℚ) < (v.usec_cycle : ℚ) := by exact_mod_cast floorOf_lt v hper
  have hc := rampStep_cycle v (by omega)
  have hf := rampStep_factor v
  unfold floorOf at hlt hc hf
  refine ⟨?_, ?_, ?_⟩
  · intro h
    have h2 : ¬ v.cycle ≤ ((v.usec_cycle.tdiv 100 : Int) : ℚ) := by
      intro h3
      linarith
    rw [if_neg h2, if_pos h] at hf
    exact ⟨hf, by rw [hc, hf]⟩
  · intro h
    rw [if_pos h] at hf
    exact ⟨hf, by rw [hc, hf]⟩
  · intro h1 h2
    rw [if_neg (not_le.mpr h1), if_neg (not_le.mpr h2)] at hf
    exact ⟨hf, by rw [hc, hf]⟩

/-- C4, with period `1000` at `cycle = 1000` and previous factor `1.25`: the
step uses `0.75` and gives `750`. -/
theorem C4_ramp_direction_flip_witness :
    1 ≤ atCeiling.usec_cycle ∧ atCeiling.factor = 1.25 ∧
    (rampStep atCeiling).factor = 0.75 ∧ (rampStep atCeiling).cycle = 750 :=
  have h := (C4_ramp_direction_flip atCeiling (by decide!)).1 (by decide!)
  ⟨by decide!, by decide!, h.1, by decide!⟩

/-! ## Durations of the two phases -/

/-- C5: at every tick of the program (any arguments on which the loop is
entered, so both modes, after `n + 1` iterations) `usec_on = trunc cycle`,
`usec_off = usec_cycle - usec_on` without overflow, neither is negative, and
`usec_on + usec_off = usec_cycle` exactly. -/
theorem C5_duty_sums_to_period (env : Env) (argv : List String) (n : Nat) (v : Vars)
    (hrun : (main env argv (n + 1)).outcome = Outcome.running v) :
    v.usec_on = ctrunc v.cycle ∧ v.usec_off = v.usec_cycle - v.usec_on ∧
    0 ≤ v.usec_on ∧ 0 ≤ v.usec_off ∧
    v.usec_on + v.usec_off = v.usec_cycle := by
  obtain ⟨v0, h0, rfl, _, _⟩ := main_running env argv (n + 1) v hrun
  obtain ⟨hU, hlo, hhi⟩ := ticks_main_inBounds env argv v0 (n + 1) h0
  have hu := tick_usec (ticks n v0)
  rw [← ticks_succ] at hu
  have hc0 : (0 : ℚ) ≤ (ticks (n + 1) v0).cycle := by linarith
  have hon0 : 0 ≤ (ticks (n + 1) v0).usec_on := by
    rw [hu.1]; exact ctrunc_nonneg _ hc0
  have hon1 : (ticks (n + 1) v0).usec_on ≤ 20000 := by
    rw [hu.1]; exact ctrunc_le _ 20000 hc0 (by exact_mod_cast hhi)
  have hoff : (ticks (n + 1) v0).usec_off =
      (ticks (n + 1) v0).usec_cycle - (ticks (n + 1) v0).usec_on := by
    rw [hu.2, hU]
    exact wrap32_of_range _ (by omega) (by omega)
  refine ⟨hu.1, hoff, hon0, ?_, ?_⟩
  · rw [hoff, hU]; omega
  · rw [hoff]; omega

/-- C5, on `-l 1 -f` at tick 6: `usec_on + usec_off = 20000`. -/
theorem C5_duty_sums_to_period_witness :
    (main stdenv ["xledpwm", "-l", "1", "-f"] (5 + 1)).outcome =
      Outcome.running (ticks 6 fadeStart) ∧
    (ticks 6 fadeStart).usec_on = 312 ∧ (ticks 6 fadeStart).usec_off = 19688 ∧
    (ticks 6 fadeStart).usec_on + (ticks 6 fadeStart).usec_off =
      (ticks 6 fadeStart).usec_cycle :=
  have h := C5_duty_sums_to_period stdenv ["xledpwm", "-l", "1", "-f"] 5 (ticks 6 fadeStart)
    (by decide!)
  ⟨by decide!, by decide!, by decide!, h.2.2.2.2⟩

/-! ## Fade initialisation and the fade scenario -/

/-- C6, as stated, fails on `-l 1 -f`: the loop is entered in fade mode with
`cycle = 200`, while `usec_cycle * 0.1 = 2000`; the first iteration has
`usec_on = 200`. -/
theorem C6_fade_initialisation_counterexample :
    (main stdenv ["xledpwm", "-l", "1", "-f"] 0).outcome = Outcome.running fadeStart ∧
    Opt.fade ∈ (main stdenv ["xledpwm", "-l", "1", "-f"] 0).seen ∧
    fadeStart.fade = TRUE ∧ fadeStart.cycle = 200 ∧
    (fadeStart.usec_cycle : ℚ) * 0.1 = 2000 ∧
    fadeStart.cycle ≠ (fadeStart.usec_cycle : ℚ) * 0.1 ∧
    (tick fadeStart).usec_on = 200 := by
  refine ⟨by decide!, by decide!, by decide!, by decide!, by decide!, by decide!, by decide!⟩

/-- C6, amended: the fade branch, entered with `cycle` unset, continues the
parsing loop with `fade = TRUE` and `cycle = 200`; when the program enters its
loop after a fade option, `fade = TRUE`, the period is `20000`, and the initial
duty value is `200`, which is `usec_cycle * 0.01` and equals the floor
`usec_cycle/100`; the first iteration has `usec_on = 200`. -/
theorem C6_fade_initialisation_amended (env : Env) (argv : List String) (v : Vars)
    (hseen : Opt.fade ∈ (mainFrom env (initVars 500) argv).seen)
    (hrun : (mainFrom env (initVars 500) argv).outcome = Outcome.running v) :
    (∀ (opt : String) (w : Vars) (rest : List String) (seen : List Opt),
      opt = "-f" ∨ opt = "--fade" → w.cycle = -1 →
      parseArgs env (opt :: rest) w seen =
        parseArgs env rest { w with fade := TRUE, cycle := 200 } (seen ++ [Opt.fade])) ∧
    v.fade = TRUE ∧ v.usec_cycle = 20000 ∧ v.cycle = 200 ∧
    v.cycle = (v.usec_cycle : ℚ) * 0.01 ∧
    v.cycle = ((v.usec_cycle.tdiv 100 : Int) : ℚ) ∧
    (tick v).usec_on = 200 := by
  refine ⟨?_, ?_⟩
  · intro opt w rest seen hopt hw
    have hnc : ¬ w.cycle ≠ -1 := not_not.mpr hw
    rcases hopt with rfl | rfl
    · rw [parseArgs_cons, if_neg (by decide), if_neg (by decide), if_neg (by decide),
        if_neg (by decide), if_pos (by decide), if_neg hnc]
    · rw [parseArgs_cons, if_neg (by decide), if_neg (by decide), if_neg (by decide),
        if_neg (by decide), if_pos (by decide), if_neg hnc]
  · obtain ⟨hinv, _, _, _, _⟩ := mainFrom_running env _ unset_initVars_500 argv v hrun
    obtain ⟨eU, ehz, etc, _, _⟩ := mainFrom_inBounds env argv v hrun
    have hmem := mem_modeOpts _ _ hseen rfl
    have hcyc : v.fade = TRUE ∧ v.cycle = 200 := by
      rcases parseInv_mode env _ v _ hinv with ⟨_, _, hm⟩ | ⟨_, b, q, hm, _⟩ | ⟨hT, hc, _⟩
      · rw [hm] at hmem
        simp at hmem
      · rw [hm] at hmem
        simp at hmem
      · exact ⟨hT, hc⟩
    have hfl : (20000 : Int).tdiv 100 = 200 := by decide
    refine ⟨hcyc.1, eU, hcyc.2, ?_, ?_, ?_⟩
    · rw [hcyc.2, eU]; norm_num
    · rw [hcyc.2, eU, hfl]; norm_num
    · have hw : wrap32 (v.tick_count + 1) = 1 := by rw [etc]; decide
      have hlt : ((wrap32 (v.tick_count + 1) : Int) : ℚ) < v.hz / 200 := by
        rw [hw, ehz]; norm_num
      rw [(tick_usec v).1, tick_cycle_below_threshold v hlt, hcyc.2]
      exact ctrunc_intCast 200

/-- C6 amended, on `-l 1 -f`. -/
theorem C6_fade_initialisation_amended_witness :
    Opt.fade ∈ (mainFrom stdenv (initVars 500) ["xledpwm", "-l", "1", "-f"]).seen ∧
    (mainFrom stdenv (initVars 500) ["xledpwm", "-l", "1", "-f"]).outcome =
      Outcome.running fadeStart ∧
    fadeStart.fade = TRUE ∧ fadeStart.usec_cycle = 20000 ∧ fadeStart.cycle = 200 ∧
    (tick fadeStart).usec_on = 200 :=
  have h := C6_fade_initialisation_amended stdenv ["xledpwm", "-l", "1", "-f"] fadeStart
    (by decide!) (by decide!)
  ⟨by decide!, by decide!, h.2.1, h.2.2.1, h.2.2.2.1, h.2.2.2.2.2.2⟩

/-- C7: with period `1000` (floor `10`), from `cycle = 100` and factor `1.25`,
the truncated ON durations after ramp steps 1, 2, 3 are `125, 156, 195`; each
of the first 11 steps uses `1.25` and strictly increases the value, which is
below `1000` before step 11 and exactly `1000` after it; each of the steps
12 to 28 uses `0.75` and strictly decreases the value, which is above `10`
before step 28 and exactly `10` after it; step 29 uses `1.25` and increases
again; and after every number of steps the value lies in `[10, 1000]`. -/
theorem C7_fade_scenario :
    fade1000.usec_cycle = 1000 ∧ fade1000.usec_cycle.tdiv 100 = 10 ∧
    fade1000.cycle = 100 ∧ fade1000.factor = 1.25 ∧
    ctrunc (rampSteps 1 fade1000).cycle = 125 ∧
    ctrunc (rampSteps 2 fade1000).cycle = 156 ∧
    ctrunc (rampSteps 3 fade1000).cycle = 195 ∧
    (∀ k, k < 11 →
      (rampSteps (k + 1) fade1000).factor = 1.25 ∧
      (rampSteps k fade1000).cycle < (rampSteps (k + 1) fade1000).cycle ∧
      (rampSteps k fade1000).cycle < 1000) ∧
    (rampSteps 11 fade1000).cycle = 1000 ∧
    (∀ k, 11 ≤ k → k < 28 →
      (rampSteps (k + 1) fade1000).factor = 0.75 ∧
      (rampSteps (k + 1) fade1000).cycle < (rampSteps k fade1000).cycle ∧
      10 < (rampSteps k fade1000).cycle) ∧
    (rampSteps 28 fade1000).cycle = 10 ∧
    (rampSteps 29 fade1000).factor = 1.25 ∧
    (rampSteps 28 fade1000).cycle < (rampSteps 29 fade1000).cycle ∧
    (∀ k, (10 : ℚ) ≤ (rampSteps k fade1000).cycle ∧ (rampSteps k fade1000).cycle ≤ 1000) := by
  refine ⟨by decide!, by decide!, by decide!, by decide!, by decide!, by decide!, by decide!,
    by decide!, by decide!, by decide!, by decide!, by decide!, by decide!, ?_⟩
  intro k
  have hb := rampSteps_inBounds k fade1000 (by decide!) (by
    simp only [InBounds, floorOf]
    constructor <;> decide!)
  have hU : (rampSteps k fade1000).usec_cycle = 1000 := by
    rw [rampSteps_usec_cycle]; decide!
  have hfl : (1000 : Int).tdiv 100 = 10 := by decide
  simp only [InBounds, floorOf, hU, hfl] at hb
  exact ⟨by exact_mod_cast hb.1, by exact_mod_cast hb.2⟩

/-! ## Mode exclusivity -/

/-- C8: if the parsing loop of a run enters both a brightness branch and the
fade branch, in either order, the program exits during parsing: the branch it
exits in is the second of the two mode options (exactly one mode option was
entered before it), the events of the whole run are the message
`can't specify both -b and -f` and `exit(1)`, and so no call of
`XOpenDisplay`, `set_led`, `XFlush` or `XCloseDisplay` occurs. -/
theorem C8_mode_exclusivity (env : Env) (argv : List String) (n : Nat) (o : Option String)
    (hb : Opt.brightness o ∈ (main env argv n).seen)
    (hf : Opt.fade ∈ (main env argv n).seen) :
    (main env argv n).outcome = Outcome.exited ∧
    (main env argv n).events = [Event.fprintf Msg.bothModes, Event.exit 1] ∧
    (∀ e ∈ (main env argv n).events, e.isSink = false) ∧
    (∃ pre last, (main env argv n).seen = pre ++ [last] ∧ last.isMode = true ∧
      (modeOpts pre).length = 1) := by
  rcases hr : (mainFrom env (initVars 500) argv).outcome with _ | v0
  · rw [main_exited env argv n hr] at hb hf ⊢
    have hev : (mainFrom env (initVars 500) argv).events =
          [Event.fprintf Msg.bothModes, Event.exit 1] ∧
        ∃ pre last, (mainFrom env (initVars 500) argv).seen = pre ++ [last] ∧
          last.isMode = true ∧ (modeOpts pre).length = 1 := by
      rcases mainFrom_exited env _ unset_initVars_500 argv hr with
        ⟨pre, last, vm, hseen, hinv, hex⟩ | ⟨w, hinv, _⟩
      · rw [hseen] at hb hf
        have hb2 : Opt.brightness o ∈ pre ∨ last = Opt.brightness o := by
          rcases List.mem_append.mp hb with h | h
          · exact Or.inl h
          · exact Or.inr (List.mem_singleton.mp h).symm
        have hf2 : Opt.fade ∈ pre ∨ last = Opt.fade := by
          rcases List.mem_append.mp hf with h | h
          · exact Or.inl h
          · exact Or.inr (List.mem_singleton.mp h).symm
        rcases hb2 with hbp | hbl
        · rcases hf2 with hfp | hfl
          · exact absurd (parseInv_not_both env _ vm pre hinv o hbp hfp) id
          · subst hfl
            have mb := mem_modeOpts _ _ hbp rfl
            refine ⟨hex.2, pre, Opt.fade, hseen, rfl, ?_⟩
            rcases parseInv_modes env _ vm pre hinv with ⟨_, hm⟩ | ⟨_, a, hm⟩ | ⟨_, hm⟩
            · rw [hm] at mb; simp at mb
            · rw [hm]; rfl
            · rw [hm]; rfl
        · subst hbl
          rcases hf2 with hfp | hfl
          · have mf := mem_modeOpts _ _ hfp rfl
            rcases parseInv_modes env _ vm pre hinv with ⟨_, hm⟩ | ⟨_, a, hm⟩ | ⟨hT, hm⟩
            · rw [hm] at mf; simp at mf
            · rw [hm] at mf; simp at mf
            · have hne : vm.fade ≠ -1 := by rw [hT]; decide
              refine ⟨?_, pre, Opt.brightness o, hseen, rfl, by rw [hm]; rfl⟩
              rcases hex with ⟨_, hev⟩ | ⟨h1, _⟩ | ⟨h1, _⟩
              · exact hev
              · exact absurd h1 hne
              · exact absurd h1 hne
          · cases hfl
      · exact absurd (parseInv_not_both env _ w _ hinv o hb hf) id
    refine ⟨hr, hev.1, ?_, hev.2⟩
    intro e he
    rw [hev.1] at he
    simp only [List.mem_cons, List.mem_singleton, List.not_mem_nil, or_false] at he
    rcases he with rfl | rfl <;> rfl
  · exfalso
    have hinv := (mainFrom_running env _ unset_initVars_500 argv v0 hr).1
    have hseen : (main env argv n).seen = (mainFrom env (initVars 500) argv).seen := by
      simp only [main, hr]
    rw [hseen] at hb hf
    exact parseInv_not_both env _ v0 _ hinv o hb hf

/-- C8, on `-l 1 -b 25 -f`: the run exits with the message and status 1. -/
theorem C8_mode_exclusivity_witness :
    Opt.brightness (some "25") ∈ (main stdenv ["xledpwm", "-l", "1", "-b", "25", "-f"] 3).seen ∧
    Opt.fade ∈ (main stdenv ["xledpwm", "-l", "1", "-b", "25", "-f"] 3).seen ∧
    (main stdenv ["xledpwm", "-l", "1", "-b", "25", "-f"] 3).outcome = Outcome.exited ∧
    (main stdenv ["xledpwm", "-l", "1", "-b", "25", "-f"] 3).events =
      [Event.fprintf Msg.bothModes, Event.exit 1] :=
  have h := C8_mode_exclusivity stdenv ["xledpwm", "-l", "1", "-b", "25", "-f"] 3 (some "25")
    (by decide!) (by decide!)
  ⟨by decide!, by decide!, h.1, h.2.1⟩

/-! ## Interrupt cleanup -/

/-- C9: for every loop state `v`, every number `n` of iterations and every
prefix (the first `k` events) of the loop's trace, `cleanup(sig)` adds exactly
`set_led(led, OFF)` (one state-set event), then `XCloseDisplay`, then
`exit(sig)`; the last state-set event of the whole trace is that OFF; the
prefix contains no `XCloseDisplay`, and whatever follows an `XCloseDisplay` in
the whole trace is `exit(sig)` alone, so no state-set event follows the
disconnect.  The global `led` that `cleanup` reads is the one the loop uses. -/
theorem C9_interrupt_cleanup (v : Vars) (n k : Nat) (sig : Int) :
    (ticks n v).led = v.led ∧
    cleanup v.led sig =
      [Event.XChangeKeyboardControl (if v.led ≠ ALL then some v.led else none) OFF,
        Event.XCloseDisplay, Event.exit sig] ∧
    ((cleanup v.led sig).filter Event.isStateSet).length = 1 ∧
    (((loopTrace n v).take k ++ cleanup v.led sig).filter Event.isStateSet).getLast? =
      some (Event.XChangeKeyboardControl (if v.led ≠ ALL then some v.led else none) OFF) ∧
    Event.XCloseDisplay ∉ (loopTrace n v).take k ∧
    (∀ l1 l2, (loopTrace n v).take k ++ cleanup v.led sig = l1 ++ Event.XCloseDisplay :: l2 →
      l2 = [Event.exit sig] ∧ ∀ e ∈ l2, e.isStateSet = false) := by
  have hcl : cleanup v.led sig =
      [Event.XChangeKeyboardControl (if v.led ≠ ALL then some v.led else none) OFF,
        Event.XCloseDisplay, Event.exit sig] := by
    unfold cleanup set_led
    split_ifs <;> rfl
  have hno : Event.XCloseDisplay ∉ (loopTrace n v).take k := by
    intro hmem
    exact (loopTrace_events n v _ (List.mem_of_mem_take hmem)).1 rfl
  refine ⟨(ticks_frame n v).2.2.2.1, hcl, ?_, ?_, hno, ?_⟩
  · rw [hcl]; rfl
  · rw [hcl, List.filter_append]
    have hfil : List.filter Event.isStateSet
        [Event.XChangeKeyboardControl (if v.led ≠ ALL then some v.led else none) OFF,
          Event.XCloseDisplay, Event.exit sig] =
        [Event.XChangeKeyboardControl (if v.led ≠ ALL then some v.led else none) OFF] := rfl
    rw [hfil, List.getLast?_append]
    rfl
  · intro l1 l2 hsplit
    obtain ⟨t, _, ht⟩ := split_at_absent _ _ _ l1 l2 hno hsplit
    rw [hcl] at ht
    have hl2 : l2 = [Event.exit sig] := by
      cases t with
      | nil => simp at ht
      | cons y t1 =>
        cases t1 with
        | nil =>
          simp only [List.cons_append, List.nil_append, List.cons.injEq] at ht
          exact ht.2.2.symm
        | cons z t2 =>
          exfalso
          simp only [List.cons_append, List.cons.injEq] at ht
          obtain ⟨_, hz, ht3⟩ := ht
          cases t2 with
          | nil =>
            simp only [List.nil_append, List.cons.injEq] at ht3
            exact absurd ht3.1 (by simp)
          | cons u t3 =>
            simp only [List.cons_append, List.cons.injEq] at ht3
            have := ht3.2
            simp at this
    refine ⟨hl2, ?_⟩
    intro e he
    rw [hl2] at he
    rw [List.mem_singleton.mp he]
    rfl

/-! ## Exactly one mode -/

/-- C10: whenever the program is in its loop (parsing completed; after any
number `n` of iterations), `fade` is `TRUE` or `FALSE` and not the unset value
`-1`; exactly one mode option was entered by the parsing loop, the fade option
when `fade = TRUE` and a brightness option when `fade = FALSE`; `fade` has the
value with which the loop was entered, and the next iteration leaves it
unchanged. -/
theorem C10_exactly_one_mode (env : Env) (argv : List String) (n : Nat) (v : Vars)
    (hrun : (main env argv n).outcome = Outcome.running v) :
    (v.fade = TRUE ∨ v.fade = FALSE) ∧ v.fade ≠ -1 ∧
    (modeOpts (main env argv n).seen).length = 1 ∧
    (v.fade = TRUE ↔ Opt.fade ∈ (main env argv n).seen) ∧
    (v.fade = FALSE ↔ ∃ a, Opt.brightness a ∈ (main env argv n).seen) ∧
    (∃ v0, (main env argv 0).outcome = Outcome.running v0 ∧ v.fade = v0.fade) ∧
    (tick v).fade = v.fade := by
  obtain ⟨v0, h0, rfl, hseen, _⟩ := main_running env argv n v hrun
  obtain ⟨hinv, _, _, hne, _⟩ := mainFrom_running env _ unset_initVars_500 argv v0 h0
  have hfr : (ticks n v0).fade = v0.fade := (ticks_frame n v0).1
  have hmem : ∀ x, x ∈ modeOpts (mainFrom env (initVars 500) argv).seen ↔
      (x ∈ (mainFrom env (initVars 500) argv).seen ∧ x.isMode = true) := by
    intro x
    exact List.mem_filter
  rw [hseen, hfr]
  have h00 : (main env argv 0).outcome = Outcome.running v0 := by
    simp only [main, h0, ticks]
  rcases parseInv_modes env _ v0 _ hinv with ⟨hf, _⟩ | ⟨hF, a, hm⟩ | ⟨hT, hm⟩
  · exact absurd hf hne
  · refine ⟨Or.inr hF, hne, by rw [hm]; rfl, ?_, ?_, ⟨v0, h00, rfl⟩, by rw [(tick_frame _).1, hfr]⟩
    · constructor
      · intro hT
        rw [hF] at hT
        exact absurd hT (by decide)
      · intro hin
        have := (hmem Opt.fade).mpr ⟨hin, rfl⟩
        rw [hm] at this
        simp at this
    · constructor
      · intro _
        have := (hmem (Opt.brightness (some a))).mp (by rw [hm]; simp)
        exact ⟨some a, this.1⟩
      · intro _
        exact hF
  · refine ⟨Or.inl hT, hne, by rw [hm]; rfl, ?_, ?_, ⟨v0, h00, rfl⟩, by rw [(tick_frame _).1, hfr]⟩
    · constructor
      · intro _
        have := (hmem Opt.fade).mp (by rw [hm]; simp)
        exact this.1
      · intro _
        exact hT
    · constructor
      · intro hF
        rw [hT] at hF
        exact absurd hF (by decide)
      · intro hin
        obtain ⟨a, ha⟩ := hin
        have := (hmem (Opt.brightness a)).mpr ⟨ha, rfl⟩
        rw [hm] at this
        simp at this

/-- C10, on `-l 3 -b 25` after 4 iterations: `fade` is `FALSE` and the one
mode option entered is the brightness option. -/
theorem C10_exactly_one_mode_witness :
    (main stdenv ["xledpwm", "-l", "3", "-b", "25"] 4).outcome =
      Outcome.running (ticks 4 brightStart) ∧
    (ticks 4 brightStart).fade = FALSE ∧
    (ticks 4 brightStart).fade ≠ -1 ∧
    (modeOpts (main stdenv ["xledpwm", "-l", "3", "-b", "25"] 4).seen).length = 1 :=
  have h := C10_exactly_one_mode stdenv ["xledpwm", "-l", "3", "-b", "25"] 4
    (ticks 4 brightStart) (by decide!)
  ⟨by decide!, by decide!, h.2.1, h.2.2.1⟩

/-! ## An induction principle for the parsing loop -/

/-- Whatever holds of the run that ends at once when no argument is left, of
every run that exits in the branch it enters first, and of every run that
continues after an accepted branch as soon as it holds of the continuation,
holds of every run of the parsing loop. -/
theorem parseArgs_induction (env : Env) (M : List String → Vars → List Opt → Run → Prop)
    (hnil : ∀ v seen, M [] v seen ⟨seen, [], Outcome.running v⟩)
    (hexit : ∀ arg rest v seen last events, last.enteredBy arg → ExitAt env v last events →
      M (arg :: rest) v seen ⟨seen ++ [last], events, Outcome.exited⟩)
    (hstep : ∀ arg rest rest1 v v1 seen o r, o.enteredBy arg → o.accepted env →
      (rest1 = rest ∨ ∃ a, rest = a :: rest1) →
      M rest1 v1 (seen ++ [o]) r → M (arg :: rest) v seen r) :
    ∀ args v seen, M args v seen (parseArgs env args v seen) := by
  apply parseArgs.induct env (fun args v seen => M args v seen (parseArgs env args v seen))
  · intro v seen
    rw [parseArgs]
    exact hnil v seen
  · intro arg rest v seen h1
    rw [parseArgs_cons, if_pos h1]
    exact hexit arg rest v seen Opt.help _ h1 rfl
  · intro arg v seen h1 h2
    rw [parseArgs_cons, if_neg h1, if_pos h2]
    exact hexit arg [] v seen (Opt.display none) _ h2 ⟨rfl, arg, rfl⟩
  · intro arg v seen h1 h2 a rest1 ih
    rw [parseArgs_cons, if_neg h1, if_pos h2]
    exact hstep arg (a :: rest1) rest1 v _ seen (Opt.display (some a)) _ h2 ⟨a, rfl⟩
      (Or.inr ⟨a, rfl⟩) ih
  · intro arg v seen h1 h2 h3
    rw [parseArgs_cons, if_neg h1, if_neg h2, if_pos h3]
    exact hexit arg [] v seen (Opt.led none) _ h3 ⟨arg, rfl⟩
  · intro arg v seen h1 h2 h3 a rest1 hacc ih
    rw [parseArgs_cons, if_neg h1, if_neg h2, if_pos h3]
    simp only [if_pos hacc]
    exact hstep arg (a :: rest1) rest1 v _ seen (Opt.led (some a)) _ h3 ⟨a, rfl, hacc.1, hacc.2⟩
      (Or.inr ⟨a, rfl⟩) ih
  · intro arg v seen h1 h2 h3 a rest1 hacc
    rw [parseArgs_cons, if_neg h1, if_neg h2, if_pos h3]
    simp only [if_neg hacc]
    exact hexit arg (a :: rest1) v seen (Opt.led (some a)) _ h3 ⟨hacc, arg, rfl⟩
  · intro arg rest v seen h1 h2 h3 h4 hf
    rw [parseArgs_cons, if_neg h1, if_neg h2, if_neg h3, if_pos h4, if_pos hf]
    exact hexit arg rest v seen (Opt.brightness rest.head?) _ h4 (Or.inl ⟨hf, rfl⟩)
  · intro arg v seen h1 h2 h3 h4 hf
    rw [parseArgs_cons, if_neg h1, if_neg h2, if_neg h3, if_pos h4, if_neg hf]
    exact hexit arg [] v seen (Opt.brightness none) _ h4
      (Or.inr (Or.inl ⟨not_not.mp hf, rfl, arg, rfl⟩))
  · intro arg v seen h1 h2 h3 h4 hf a rest1 p hs hr ih
    rw [parseArgs_cons, if_neg h1, if_neg h2, if_neg h3, if_pos h4, if_neg hf]
    simp only [hs, if_pos hr]
    have hr1 : 1 ≤ p := by have := hr.1; norm_num at this; exact this
    have hr2 : p ≤ 100 := by have := hr.2; norm_num at this; exact this
    exact hstep arg (a :: rest1) rest1 v _ seen (Opt.brightness (some a)) _ h4
      ⟨a, p, rfl, hs, hr1, hr2⟩ (Or.inr ⟨a, rfl⟩) ih
  · intro arg v seen h1 h2 h3 h4 hf a rest1 p hs hr
    rw [parseArgs_cons, if_neg h1, if_neg h2, if_neg h3, if_pos h4, if_neg hf]
    simp only [hs, if_neg hr]
    refine hexit arg (a :: rest1) v seen (Opt.brightness (some a)) _ h4
      (Or.inr (Or.inr ⟨not_not.mp hf, a, arg, rfl, ?_, rfl⟩))
    intro q hq hq12
    rw [hs] at hq
    cases hq
    apply hr
    constructor
    · norm_num; exact hq12.1
    · norm_num; exact hq12.2
  · intro arg v seen h1 h2 h3 h4 hf a rest1 hs
    rw [parseArgs_cons, if_neg h1, if_neg h2, if_neg h3, if_pos h4, if_neg hf]
    simp only [hs]
    refine hexit arg (a :: rest1) v seen (Opt.brightness (some a)) _ h4
      (Or.inr (Or.inr ⟨not_not.mp hf, a, arg, rfl, ?_, rfl⟩))
    intro q hq
    rw [hs] at hq
    cases hq
  · intro arg rest v seen h1 h2 h3 h4 h5 hc
    rw [parseArgs_cons, if_neg h1, if_neg h2, if_neg h3, if_neg h4, if_pos h5, if_pos hc]
    exact hexit arg rest v seen Opt.fade _ h5 ⟨hc, rfl⟩
  · intro arg rest v seen h1 h2 h3 h4 h5 hc ih
    rw [parseArgs_cons, if_neg h1, if_neg h2, if_neg h3, if_neg h4, if_pos h5, if_neg hc]
    exact hstep arg rest rest v _ seen Opt.fade _ h5 trivial (Or.inl rfl) ih
  · intro arg rest v seen h1 h2 h3 h4 h5
    rw [parseArgs_cons, if_neg h1, if_neg h2, if_neg h3, if_neg h4, if_neg h5]
    exact hexit arg rest v seen (Opt.unrecognized arg) _ rfl rfl

theorem passed_exit (seen : List Opt) (last : Opt) (events : List Event) :
    Run.passed ⟨seen ++ [last], events, Outcome.exited⟩ = seen := by
  simp [Run.passed]

/-- Every branch that a run of the parsing loop has left without `exit` passed
its operand tests. -/
theorem parseArgs_passed (env : Env) (args : List String) (v : Vars) (seen : List Opt) :
    (∀ o ∈ seen, o.accepted env) → ∀ o ∈ (parseArgs env args v seen).passed, o.accepted env := by
  refine parseArgs_induction env
    (fun _ _ seen r => (∀ o ∈ seen, o.accepted env) → ∀ o ∈ r.passed, o.accepted env)
    ?_ ?_ ?_ args v seen
  · intro v seen h
    exact h
  · intro arg rest v seen last events _ _ h
    rw [passed_exit]
    exact h
  · intro arg rest rest1 v v1 seen o r _ hacc _ ih h
    apply ih
    intro x hx
    rcases List.mem_append.mp hx with hx | hx
    · exact h x hx
    · rw [List.mem_singleton.mp hx]
      exact hacc

/-- Every branch that a run of the parsing loop enters is entered by one of
the arguments. -/
theorem parseArgs_origin (env : Env) (args : List String) (v : Vars) (seen : List Opt) :
    ∀ o ∈ (parseArgs env args v seen).seen, o ∈ seen ∨ ∃ s ∈ args, o.enteredBy s := by
  refine parseArgs_induction env
    (fun args _ seen r => ∀ o ∈ r.seen, o ∈ seen ∨ ∃ s ∈ args, o.enteredBy s)
    ?_ ?_ ?_ args v seen
  · intro v seen o ho
    exact Or.inl ho
  · intro arg rest v seen last events hent _ o ho
    rcases List.mem_append.mp ho with ho | ho
    · exact Or.inl ho
    · rw [List.mem_singleton.mp ho]
      exact Or.inr ⟨arg, List.mem_cons_self _ _, hent⟩
  · intro arg rest rest1 v v1 seen x r hent _ hrest ih o ho
    rcases ih o ho with h | ⟨s, hs, hos⟩
    · rcases List.mem_append.mp h with h | h
      · exact Or.inl h
      · rw [List.mem_singleton.mp h]
        exact Or.inr ⟨arg, List.mem_cons_self _ _, hent⟩
    · refine Or.inr ⟨s, ?_, hos⟩
      rcases hrest with rfl | ⟨a, rfl⟩
      · exact List.mem_cons_of_mem _ hs
      · exact List.mem_cons_of_mem _ (List.mem_cons_of_mem _ hs)

/-! ## The ways a run of `main` can go -/

/-- A run of `main` either exits in a branch of the parsing loop, all branches
before it having been accepted, or completes the parsing loop with every
branch accepted and then exits in one of the checks of lines 204-222 or enters
the loop. -/
theorem main_cases (env : Env) (argv : List String) (n : Nat) :
    (∃ pre last vm, (main env argv n).seen = pre ++ [last] ∧
      (main env argv n).outcome = Outcome.exited ∧
      (parseArgs env argv.tail (initVars 500) []).outcome = Outcome.exited ∧
      ParseInv env (initVars 500) vm pre ∧ ExitAt env vm last (main env argv n).events ∧
      (∀ o ∈ pre, o.accepted env)) ∨
    (∃ w, parseArgs env argv.tail (initVars 500) [] =
        ⟨(main env argv n).seen, [], Outcome.running w⟩ ∧
      ParseInv env (initVars 500) w (main env argv n).seen ∧
      (∀ o ∈ (main env argv n).seen, o.accepted env) ∧
      ((w.led = -1 ∧ (main env argv n).outcome = Outcome.exited ∧
          (main env argv n).events = [Event.fprintf Msg.ledRequired, Event.exit 1]) ∨
       (w.led ≠ -1 ∧ w.fade = -1 ∧ w.cycle = -1 ∧
          (main env argv n).outcome = Outcome.exited ∧
          (main env argv n).events = [Event.fprintf Msg.modeRequired, Event.exit 1]) ∨
       (w.led ≠ -1 ∧ w.fade ≠ -1 ∧ env.XOpenDisplay w.disp = false ∧
          (main env argv n).outcome = Outcome.exited ∧
          (main env argv n).events =
            [Event.XOpenDisplay w.disp, Event.fprintf Msg.cannotOpen, Event.exit 1]) ∨
       (w.led ≠ -1 ∧ w.fade ≠ -1 ∧ env.XOpenDisplay w.disp = true ∧
          (main env argv n).outcome = Outcome.running (ticks n w) ∧
          (main env argv n).events = Event.XOpenDisplay w.disp :: loopTrace n w))) := by
  obtain ⟨hf, hc, hl, hU⟩ := unset_initVars_500
  have hs := parseArgs_spec env _ hU _ argv.tail (initVars 500) [] le_rfl
    (parseInv_init env _ hf hc hl)
  have hp := parseArgs_passed env argv.tail (initVars 500) [] (by simp)
  unfold main mainFrom
  generalize parseArgs env argv.tail (initVars 500) [] = r at hs hp ⊢
  obtain ⟨seen, events, outcome⟩ := r
  cases outcome with
  | exited =>
    left
    simp only [ParseSpec] at hs
    obtain ⟨pre, last, vm, hseen, hinv, hex⟩ := hs
    subst hseen
    rw [passed_exit] at hp
    exact ⟨pre, last, vm, rfl, rfl, rfl, hinv, hex, hp⟩
  | running w =>
    right
    simp only [ParseSpec] at hs
    obtain ⟨hinv, hev⟩ := hs
    subst hev
    simp only [Run.passed] at hp
    have hfc : w.fade = -1 → w.cycle = -1 := fun h =>
      (parseInv_unset_of_fade env _ w seen hinv h).1
    rcases startup_cases env w with ⟨c1, e⟩ | ⟨c1, c2, e⟩ | ⟨c1, c2, c3, e⟩ | ⟨c1, c2, c3, e⟩
    · refine ⟨w, ?_, ?_, ?_, Or.inl ⟨c1, ?_, ?_⟩⟩ <;> simp [e] <;> assumption
    · refine ⟨w, ?_, ?_, ?_, Or.inr (Or.inl ⟨c1, c2.1, c2.2, ?_, ?_⟩)⟩ <;> simp [e] <;>
        assumption
    · have c2f : w.fade ≠ -1 := fun h => c2 ⟨h, hfc h⟩
      refine ⟨w, ?_, ?_, ?_, Or.inr (Or.inr (Or.inl ⟨c1, c2f, c3, ?_, ?_⟩))⟩ <;> simp [e] <;>
        assumption
    · have c2f : w.fade ≠ -1 := fun h => c2 ⟨h, hfc h⟩
      refine ⟨w, ?_, ?_, ?_, Or.inr (Or.inr (Or.inr ⟨c1, c2f, c3, ?_, ?_⟩))⟩ <;> simp [e] <;>
        assumption


theorem main_seen (env : Env) (argv : List String) (n : Nat) :
    (main env argv n).seen = (parseArgs env argv.tail (initVars 500) []).seen := by
  unfold main mainFrom
  generalize parseArgs env argv.tail (initVars 500) [] = r
  obtain ⟨seen, events, outcome⟩ := r
  cases outcome with
  | exited => rfl
  | running w =>
    simp only
    rcases startup_cases env w with ⟨_, e⟩ | ⟨_, _, e⟩ | ⟨_, _, _, e⟩ | ⟨_, _, _, e⟩ <;>
      simp only [e]

/-- Every branch that a run of `main` enters is entered by one of
`argv[1], argv[2], ...`. -/
theorem main_origin (env : Env) (argv : List String) (n : Nat) (o : Opt)
    (h : o ∈ (main env argv n).seen) : ∃ s ∈ argv.tail, o.enteredBy s := by
  rw [main_seen] at h
  rcases parseArgs_origin env argv.tail (initVars 500) [] o h with h | h
  · simp at h
  · exact h

/-- An exit of the parsing loop in a branch other than the help branch prints
one message to `stderr` and calls `exit(1)`. -/
theorem exitAt_status_one (env : Env) (v : Vars) (last : Opt) (events : List Event)
    (h : ExitAt env v last events) (hh : last ≠ Opt.help) :
    ∃ m, events = [Event.fprintf m, Event.exit 1] := by
  cases last with
  | help => exact absurd rfl hh
  | display d =>
    obtain ⟨_, arg, e⟩ := h
    exact ⟨_, e⟩
  | led l =>
    cases l with
    | none =>
      obtain ⟨arg, e⟩ := h
      exact ⟨_, e⟩
    | some a =>
      obtain ⟨_, arg, e⟩ := h
      exact ⟨_, e⟩
  | brightness b =>
    rcases h with ⟨_, e⟩ | ⟨_, _, arg, e⟩ | ⟨_, a, arg, _, _, e⟩
    · exact ⟨_, e⟩
    · exact ⟨_, e⟩
    · exact ⟨_, e⟩
  | fade => exact ⟨_, h.2⟩
  | unrecognized a => exact ⟨_, h⟩

theorem no_sink_of_message (events : List Event) (m : Msg) (st : Int)
    (h : events = [Event.fprintf m, Event.exit st]) : ∀ e ∈ events, e.isSink = false := by
  intro e he
  rw [h] at he
  simp only [List.mem_cons, List.mem_singleton, List.not_mem_nil, or_false] at he
  rcases he with rfl | rfl <;> rfl

/-- No branch of a mode option is entered when no argument is the text of a
mode option. -/
theorem modeOpts_nil_of_texts (env : Env) (argv : List String) (n : Nat)
    (hmode : ∀ s ∈ argv.tail, s ≠ "--brightness" ∧ s ≠ "-b" ∧ s ≠ "--fade" ∧ s ≠ "-f") :
    modeOpts (main env argv n).seen = [] := by
  unfold modeOpts
  rw [List.filter_eq_nil_iff]
  intro o ho hm
  obtain ⟨s, hs, hent⟩ := main_origin env argv n o ho
  obtain ⟨n1, n2, n3, n4⟩ := hmode s hs
  cases o with
  | brightness b => rcases hent with h | h <;> contradiction
  | fade => rcases hent with h | h <;> contradiction
  | help => simp [Opt.isMode] at hm
  | display d => simp [Opt.isMode] at hm
  | led l => simp [Opt.isMode] at hm
  | unrecognized a => simp [Opt.isMode] at hm

/-! ## Neither mode given -/

/-- C11: for every argument list that contains no brightness and no fade
option text and no help option text, the program exits before `XOpenDisplay`
and before the loop, after one message on `stderr`, with `exit(1)`; no mode
branch is entered; and when the list is otherwise valid (the parsing loop
completes and `led` has been set by an accepted `--led`), the message is
`one of '-f' or '-b' is required`. -/
theorem C11_neither_mode_given (env : Env) (argv : List String) (n : Nat)
    (hmode : ∀ s ∈ argv.tail, s ≠ "--brightness" ∧ s ≠ "-b" ∧ s ≠ "--fade" ∧ s ≠ "-f")
    (hhelp : ∀ s ∈ argv.tail, s ≠ "--help" ∧ s ≠ "-h" ∧ s ≠ "-?") :
    modeOpts (main env argv n).seen = [] ∧
    (main env argv n).outcome = Outcome.exited ∧
    (∃ m, (main env argv n).events = [Event.fprintf m, Event.exit 1]) ∧
    (∀ e ∈ (main env argv n).events, e.isSink = false) ∧
    (∀ w, (parseArgs env argv.tail (initVars 500) []).outcome = Outcome.running w →
      w.led ≠ -1 →
      (main env argv n).events = [Event.fprintf Msg.modeRequired, Event.exit 1]) := by
  have hnil := modeOpts_nil_of_texts env argv n hmode
  have key : (main env argv n).outcome = Outcome.exited ∧
      (∃ m, (main env argv n).events = [Event.fprintf m, Event.exit 1]) ∧
      (∀ w, (parseArgs env argv.tail (initVars 500) []).outcome = Outcome.running w →
        w.led ≠ -1 →
        (main env argv n).events = [Event.fprintf Msg.modeRequired, Event.exit 1]) := by
    rcases main_cases env argv n with ⟨pre, last, vm, hseen, hout, hpar, _, hex, _⟩ |
        ⟨w, hpar, hinv, _, hst⟩
    · have hlast : last ≠ Opt.help := by
        intro hl
        have hmem : Opt.help ∈ (main env argv n).seen := by rw [hseen, hl]; simp
        obtain ⟨s, hs, hent⟩ := main_origin env argv n _ hmem
        obtain ⟨n1, n2, n3⟩ := hhelp s hs
        rcases hent with h | h | h <;> contradiction
      refine ⟨hout, exitAt_status_one env vm last _ hex hlast, ?_⟩
      intro w hw
      rw [hpar] at hw
      exact absurd hw (by simp)
    · have hfade : w.fade = -1 := by
        rcases parseInv_modes env _ w _ hinv with ⟨h, _⟩ | ⟨_, a, hm⟩ | ⟨_, hm⟩
        · exact h
        · rw [hnil] at hm; simp at hm
        · rw [hnil] at hm; simp at hm
      rcases hst with ⟨c1, ho, he⟩ | ⟨c1, _, _, ho, he⟩ | ⟨_, c2, _⟩ | ⟨_, c2, _⟩
      · refine ⟨ho, ⟨_, he⟩, ?_⟩
        intro w2 hw2 hled
        rw [hpar] at hw2
        simp only [Outcome.running.injEq] at hw2
        subst hw2
        exact absurd c1 hled
      · exact ⟨ho, ⟨_, he⟩, fun _ _ _ => he⟩
      · exact absurd hfade c2
      · exact absurd hfade c2
  obtain ⟨k1, ⟨m, k2⟩, k3⟩ := key
  exact ⟨hnil, k1, ⟨m, k2⟩, no_sink_of_message _ m 1 k2, k3⟩

/-- C11, on `-l 3`: the run exits with the message that a mode is required. -/
theorem C11_neither_mode_given_witness :
    (∀ s ∈ (["xledpwm", "-l", "3"] : List String).tail,
      s ≠ "--brightness" ∧ s ≠ "-b" ∧ s ≠ "--fade" ∧ s ≠ "-f") ∧
    (∀ s ∈ (["xledpwm", "-l", "3"] : List String).tail, s ≠ "--help" ∧ s ≠ "-h" ∧ s ≠ "-?") ∧
    (main stdenv ["xledpwm", "-l", "3"] 2).outcome = Outcome.exited ∧
    (main stdenv ["xledpwm", "-l", "3"] 2).events =
      [Event.fprintf Msg.modeRequired, Event.exit 1] :=
  have h := C11_neither_mode_given stdenv ["xledpwm", "-l", "3"] 2 (by decide) (by decide)
  ⟨by decide, by decide, h.2.1, by decide!⟩

/-! ## Validation of the brightness operand -/

theorem brightText_range (env : Env) (a : String) (p : ℚ) (hp : env.strtod a = some p) :
    BrightText env a ↔ (p ≥ 1.0 ∧ p ≤ 100.0) := by
  constructor
  · rintro ⟨q, hq, h1, h2⟩
    rw [hp] at hq
    cases hq
    constructor
    · norm_num; exact h1
    · norm_num; exact h2
  · intro h
    refine ⟨p, hp, ?_, ?_⟩
    · have := h.1; norm_num at this; exact this
    · have := h.2; norm_num at this; exact this

/-- The brightness branch entered with `fade` unset and an operand: lines
168-181. -/
theorem parseArgs_brightness (env : Env) (a opt : String) (w : Vars) (rest : List String)
    (seen : List Opt) (hopt : opt = "-b" ∨ opt = "--brightness") (hw : w.fade = -1) :
    (∀ p, env.strtod a = some p → 1 ≤ p → p ≤ 100 →
      parseArgs env (opt :: a :: rest) w seen =
        parseArgs env rest { w with cycle := fl ((w.usec_cycle : ℚ) * fl (p / 100)), fade := FALSE }
          (seen ++ [Opt.brightness (some a)])) ∧
    (¬ BrightText env a →
      parseArgs env (opt :: a :: rest) w seen =
        ⟨seen ++ [Opt.brightness (some a)],
          [Event.fprintf (Msg.invalidArgument a opt), Event.exit 1], Outcome.exited⟩) := by
  have hnf : ¬ w.fade ≠ -1 := not_not.mpr hw
  have e : parseArgs env (opt :: a :: rest) w seen =
      match env.strtod a with
      | some p =>
        if p ≥ 1.0 ∧ p ≤ 100.0 then
          parseArgs env rest { w with cycle := fl ((w.usec_cycle : ℚ) * fl (p / 100)), fade := FALSE }
            (seen ++ [Opt.brightness (some a)])
        else
          ⟨seen ++ [Opt.brightness (some a)],
            [Event.fprintf (Msg.invalidArgument a opt), Event.exit 1], Outcome.exited⟩
      | none =>
        ⟨seen ++ [Opt.brightness (some a)],
          [Event.fprintf (Msg.invalidArgument a opt), Event.exit 1], Outcome.exited⟩ := by
    rcases hopt with rfl | rfl <;>
      rw [parseArgs_cons, if_neg (by decide), if_neg (by decide), if_neg (by decide),
        if_pos (by decide), if_neg hnf]
  constructor
  · intro p hp h1 h2
    rw [e]
    simp only [hp]
    rw [if_pos ((brightText_range env a p hp).mp ⟨p, hp, h1, h2⟩)]
  · intro hno
    rw [e]
    cases hs : env.strtod a with
    | none => rfl
    | some p =>
      simp only
      rw [if_neg (fun h => hno ((brightText_range env a p hs).mpr h))]

/-- A run of the parsing loop keeps the branches entered before it, and one
that exits has entered one more at least. -/
theorem parseArgs_seen_length (env : Env) (args : List String) (v : Vars) (seen : List Opt) :
    seen.length ≤ (parseArgs env args v seen).seen.length ∧
    ((parseArgs env args v seen).outcome = Outcome.exited →
      seen.length + 1 ≤ (parseArgs env args v seen).seen.length) := by
  refine parseArgs_induction env
    (fun _ _ seen r => seen.length ≤ r.seen.length ∧
      (r.outcome = Outcome.exited → seen.length + 1 ≤ r.seen.length))
    ?_ ?_ ?_ args v seen
  · intro v seen
    exact ⟨le_refl _, fun h => absurd h (by simp)⟩
  · intro arg rest v seen last events _ _
    simp
  · intro arg rest rest1 v v1 seen o r _ _ _ ih
    simp only [List.length_append, List.length_singleton] at ih
    exact ⟨by omega, fun h => by have := ih.2 h; omega⟩

/-- C12: in the brightness branch entered with `fade` unset, the value `p` that
`strtod` gives for the operand is accepted, with the `double`
`usec_cycle * (p/100)` stored in `cycle` and `fade = FALSE`, exactly when
`1 ≤ p ≤ 100`; `1` and `100` themselves
are accepted, and `0` (what `strtod` gives for a text that is not a number) and
a result that is not finite are not.  On every other operand the branch prints
`invalid argument` and calls `exit(1)` without assigning anything.  In a run of
the program that enters a brightness branch with an operand outside the range,
the program exits in that very branch, during parsing, with one message and
`exit(1)`; when no mode option came before, the message is `invalid argument`
and `cycle` and `fade`, assigned only by accepted mode options, are both
still `-1`. -/
theorem C12_brightness_range (env : Env) (a opt : String) (w : Vars) (rest : List String)
    (seen : List Opt) (hopt : opt = "-b" ∨ opt = "--brightness") (hw : w.fade = -1) :
    (BrightText env a ↔ ∃ p, env.strtod a = some p ∧ 1 ≤ p ∧ p ≤ 100 ∧
      parseArgs env (opt :: a :: rest) w seen =
        parseArgs env rest { w with cycle := fl ((w.usec_cycle : ℚ) * fl (p / 100)), fade := FALSE }
          (seen ++ [Opt.brightness (some a)])) ∧
    (¬ BrightText env a ↔
      parseArgs env (opt :: a :: rest) w seen =
        ⟨seen ++ [Opt.brightness (some a)],
          [Event.fprintf (Msg.invalidArgument a opt), Event.exit 1], Outcome.exited⟩) ∧
    (env.strtod a = some 1 → BrightText env a) ∧
    (env.strtod a = some 100 → BrightText env a) ∧
    (env.strtod a = some 0 → ¬ BrightText env a) ∧
    (env.strtod a = none → ¬ BrightText env a) ∧
    (∀ (argv : List String) (n : Nat),
      Opt.brightness (some a) ∈ (main env argv n).seen → ¬ BrightText env a →
      (main env argv n).outcome = Outcome.exited ∧
      (∃ m, (main env argv n).events = [Event.fprintf m, Event.exit 1]) ∧
      ∃ pre, (main env argv n).seen = pre ++ [Opt.brightness (some a)] ∧
        (modeOpts pre = [] →
          (∃ o, (main env argv n).events =
            [Event.fprintf (Msg.invalidArgument a o), Event.exit 1]) ∧
          ∀ vm, ParseInv env (initVars 500) vm pre → vm.fade = -1 ∧ vm.cycle = -1)) := by
  obtain ⟨hacc, hrej⟩ := parseArgs_brightness env a opt w rest seen hopt hw
  refine ⟨?_, ?_, ?_, ?_, ?_, ?_, ?_⟩
  · constructor
    · rintro ⟨p, hp, h1, h2⟩
      exact ⟨p, hp, h1, h2, hacc p hp h1 h2⟩
    · rintro ⟨p, hp, h1, h2, _⟩
      exact ⟨p, hp, h1, h2⟩
  · constructor
    · exact hrej
    · intro he hb
      obtain ⟨p, hp, h1, h2⟩ := hb
      have hcont := hacc p hp h1 h2
      rw [he] at hcont
      have hlen := (parseArgs_seen_length env rest
        { w with cycle := fl ((w.usec_cycle : ℚ) * fl (p / 100)), fade := FALSE }
        (seen ++ [Opt.brightness (some a)])).2
      rw [← hcont] at hlen
      have := hlen rfl
      simp at this
  · intro h
    exact ⟨1, h, le_refl _, by norm_num⟩
  · intro h
    exact ⟨100, h, by norm_num, le_refl _⟩
  · rintro h ⟨p, hp, h1, _⟩
    rw [h] at hp
    cases hp
    norm_num at h1
  · rintro h ⟨p, hp, _⟩
    rw [h] at hp
    cases hp
  · intro argv n hmem hno
    rcases main_cases env argv n with ⟨pre, last, vm, hseen, hout, _, hinv, hex, hpre⟩ |
        ⟨_, _, _, hall, _⟩
    · rw [hseen] at hmem
      rcases List.mem_append.mp hmem with hin | hin
      · obtain ⟨b, p, hb, hp, h1, h2⟩ := hpre _ hin
        cases hb
        exact absurd ⟨p, hp, h1, h2⟩ hno
      · have hl : last = Opt.brightness (some a) := (List.mem_singleton.mp hin).symm
        subst hl
        refine ⟨hout, exitAt_status_one env vm _ _ hex (by simp), pre, hseen, ?_⟩
        intro hnil
        have hunset : ∀ vm1, ParseInv env (initVars 500) vm1 pre →
            vm1.fade = -1 ∧ vm1.cycle = -1 := by
          intro vm1 h1
          rcases parseInv_mode env _ vm1 pre h1 with ⟨hf, hc, _⟩ | ⟨_, b, q, hm, _⟩ | ⟨_, _, hm⟩
          · exact ⟨hf, hc⟩
          · rw [hnil] at hm; simp at hm
          · rw [hnil] at hm; simp at hm
        refine ⟨?_, hunset⟩
        rcases hex with ⟨hf, _⟩ | ⟨_, hnone, _⟩ | ⟨_, b, arg, hb, _, he⟩
        · exact absurd (hunset vm hinv).1 hf
        · cases hnone
        · cases hb
          exact ⟨arg, he⟩
    · obtain ⟨b, p, hb, hp, h1, h2⟩ := hall _ hmem
      cases hb
      exact absurd ⟨p, hp, h1, h2⟩ hno


/-- C12, on the operand `abc`, for which `strtod` gives `0`: the branch exits
with `invalid argument 'abc' for -b` and status 1. -/
theorem C12_brightness_range_witness :
    ("-b" = "-b" ∨ "-b" = "--brightness") ∧ (initVars 500).fade = -1 ∧
    stdenv.strtod "abc" = some 0 ∧ ¬ BrightText stdenv "abc" ∧
    parseArgs stdenv ["-b", "abc"] (initVars 500) [] =
      ⟨[] ++ [Opt.brightness (some "abc")],
        [Event.fprintf (Msg.invalidArgument "abc" "-b"), Event.exit 1], Outcome.exited⟩ :=
  have h := C12_brightness_range stdenv "abc" "-b" (initVars 500) [] [] (Or.inl rfl) (by decide!)
  have h0 : stdenv.strtod "abc" = some 0 := by decide!
  ⟨Or.inl rfl, by decide!, h0, h.2.2.2.2.1 h0, h.2.1.mp (h.2.2.2.2.1 h0)⟩

/-! ## Validation of the operand of `--led` -/

theorem dropWhile_isdigit_nil (l : List Char) :
    l.dropWhile isdigit = [] ↔ l.all isdigit = true := by
  rw [List.dropWhile_eq_nil_iff, List.all_eq_true]

theorem minusOne_of_toList (a : String) (h : a.toList = ['-', '1']) : a = "-1" := by
  apply String.ext
  exact h

/-- The test of line 150 in terms of the result of `atoi`: the operand consists
of decimal digits only and `atoi` reads it as a value from 1 to 32. -/
theorem led_test_iff (env : Env) (hstd : IntAtoi env) (a : String) :
    (is_number env a 32 = true ∧ env.atoi a > 0) ↔
      (a.toList.all isdigit = true ∧ 1 ≤ env.atoi a ∧ env.atoi a ≤ 32) := by
  obtain ⟨_, hminus⟩ := hstd
  unfold is_number
  by_cases h1 : a.toList = ['-', '1']
  · have ha := minusOne_of_toList a h1
    subst ha
    rw [hminus]
    constructor
    · intro h
      exact absurd h.2 (by decide)
    · intro h
      exact absurd h.1 (by decide)
  · rw [if_neg h1]
    by_cases hall : a.toList.all isdigit = true
    · have hp : a.toList.dropWhile isdigit = [] := (dropWhile_isdigit_nil _).mpr hall
      simp only [hp, ne_eq, not_true_eq_false, false_or]
      constructor
      · rintro ⟨h2, h3⟩
        refine ⟨hall, ?_, ?_⟩
        · omega
        · split_ifs at h2 with h4
          omega
      · rintro ⟨_, h2, h3⟩
        constructor
        · rw [if_neg (by omega)]
        · omega
    · have hp : a.toList.dropWhile isdigit ≠ [] := fun h =>
        hall ((dropWhile_isdigit_nil _).mp h)
      simp only [ne_eq, hp, not_false_eq_true, true_or, if_true]
      constructor
      · intro h
        exact absurd h.1 (by simp)
      · intro h
        exact absurd h.1 hall

theorem ledText_fits (a : String) (h : LedText a) : FitsInt a := by
  intro _
  obtain ⟨_, _, h32⟩ := h
  omega

/-- The test of line 150 in terms of the text, for an operand whose value fits
in an `int`. -/
theorem led_accept_iff (env : Env) (hstd : IntAtoi env) (a : String) (hfit : FitsInt a) :
    (is_number env a 32 = true ∧ env.atoi a > 0) ↔ LedText a := by
  rw [led_test_iff env hstd a]
  unfold LedText
  constructor
  · rintro ⟨hall, h1, h32⟩
    have hv := hstd.1 a hall (hfit hall)
    rw [hv] at h1 h32
    exact ⟨hall, by omega, by omega⟩
  · rintro ⟨hall, h1, h32⟩
    have hv := hstd.1 a hall (by omega)
    rw [hv]
    exact ⟨hall, by omega, by omega⟩

theorem digit_not_space (c : Char) (h : isdigit c = true) : isspace c = false := by
  cases hs : isspace c with
  | false => rfl
  | true =>
    exfalso
    unfold isspace at hs
    simp only [decide_eq_true_eq] at hs
    rcases hs with rfl | rfl | rfl | rfl | rfl | rfl <;> exact absurd h (by decide)

theorem atoi_digits (s : String) (h : s.toList.all isdigit = true)
    (hfit : digitsValue s.toList 0 < 2 ^ 31) :
    atoi s = (digitsValue s.toList 0 : Int) := by
  have hd : s.toList.dropWhile isspace = s.toList := by
    cases hl : s.toList with
    | nil => rfl
    | cons c cs =>
      rw [hl] at h
      simp only [List.all_cons, Bool.and_eq_true] at h
      simp [List.dropWhile, digit_not_space c h.1]
  have hm : (match s.toList.dropWhile isspace with
      | '-' :: cs => -(digitsValue cs 0 : Int)
      | '+' :: cs => (digitsValue cs 0 : Int)
      | cs => (digitsValue cs 0 : Int)) = (digitsValue s.toList 0 : Int) := by
    rw [hd]
    split
    · rename_i cs hl
      rw [hl] at h
      simp only [List.all_cons, Bool.and_eq_true] at h
      exact absurd h.1 (by decide)
    · rename_i cs hl
      rw [hl] at h
      simp only [List.all_cons, Bool.and_eq_true] at h
      exact absurd h.1 (by decide)
    · rfl
  have hnn : (0 : Int) ≤ (digitsValue s.toList 0 : Int) := Int.ofNat_nonneg _
  have hlt : (digitsValue s.toList 0 : Int) < 2 ^ 31 := by exact_mod_cast hfit
  unfold atoi strtol
  rw [hm]
  have hc : clampLong (digitsValue s.toList 0 : Int) = (digitsValue s.toList 0 : Int) := by
    unfold clampLong
    rw [min_eq_left (by omega), max_eq_right (by omega)]
  rw [hc]
  exact wrap32_of_range _ (by omega) hlt

theorem intAtoi_stdenv : IntAtoi stdenv :=
  ⟨atoi_digits, by decide!⟩

/-- The `--led` branch with an operand: lines 150-157. -/
theorem parseArgs_led (env : Env) (a opt : String) (w : Vars) (rest : List String)
    (seen : List Opt) (hopt : opt = "-l" ∨ opt = "--led") :
    ((is_number env a 32 = true ∧ env.atoi a > 0) →
      parseArgs env (opt :: a :: rest) w seen =
        parseArgs env rest { w with led := env.atoi a } (seen ++ [Opt.led (some a)])) ∧
    (¬ (is_number env a 32 = true ∧ env.atoi a > 0) →
      parseArgs env (opt :: a :: rest) w seen =
        ⟨seen ++ [Opt.led (some a)],
          [Event.fprintf (Msg.invalidArgument a opt), Event.exit 1], Outcome.exited⟩) := by
  have e : parseArgs env (opt :: a :: rest) w seen =
      if is_number env a 32 = true ∧ env.atoi a > 0 then
        parseArgs env rest { w with led := env.atoi a } (seen ++ [Opt.led (some a)])
      else
        ⟨seen ++ [Opt.led (some a)],
          [Event.fprintf (Msg.invalidArgument a opt), Event.exit 1], Outcome.exited⟩ := by
    rcases hopt with rfl | rfl <;>
      rw [parseArgs_cons, if_neg (by decide), if_neg (by decide), if_pos (by decide)]
  exact ⟨fun h => by rw [e, if_pos h], fun h => by rw [e, if_neg h]⟩

/-- In a run of the program, a `--led` branch whose operand fails the test of
line 150 is the branch the run exits in, with `invalid argument` and
`exit(1)`. -/
theorem led_rejected_run (env : Env) (argv : List String) (n : Nat) (a : String)
    (hmem : Opt.led (some a) ∈ (main env argv n).seen)
    (hno : ¬ (is_number env a 32 = true ∧ env.atoi a > 0)) :
    (main env argv n).outcome = Outcome.exited ∧
    (∃ o, (main env argv n).events = [Event.fprintf (Msg.invalidArgument a o), Event.exit 1]) ∧
    ∃ pre, (main env argv n).seen = pre ++ [Opt.led (some a)] := by
  rcases main_cases env argv n with ⟨pre, last, vm, hseen, hout, _, _, hex, hpre⟩ |
      ⟨_, _, _, hall, _⟩
  · rw [hseen] at hmem
    rcases List.mem_append.mp hmem with hin | hin
    · obtain ⟨b, hb, h1, h2⟩ := hpre _ hin
      cases hb
      exact absurd ⟨h1, h2⟩ hno
    · have hl : last = Opt.led (some a) := (List.mem_singleton.mp hin).symm
      subst hl
      obtain ⟨_, arg, he⟩ := hex
      exact ⟨hout, ⟨arg, he⟩, pre, hseen⟩
  · obtain ⟨b, hb, h1, h2⟩ := hall _ hmem
    cases hb
    exact absurd ⟨h1, h2⟩ hno

theorem pulse_stateSet (v : Vars) (hl : v.led ≠ ALL) (e : Event) (he : e ∈ pulse v)
    (hs : e.isStateSet = true) : ∃ m, e = Event.XChangeKeyboardControl (some v.led) m := by
  unfold pulse set_led at he
  rw [if_pos hl, if_pos hl] at he
  simp only [List.cons_append, List.nil_append, List.mem_cons, List.mem_singleton,
    List.not_mem_nil, or_false] at he
  rcases he with rfl | rfl | rfl | rfl | rfl | rfl
  · exact ⟨_, rfl⟩
  · exact absurd hs (by simp [Event.isStateSet])
  · exact absurd hs (by simp [Event.isStateSet])
  · exact ⟨_, rfl⟩
  · exact absurd hs (by simp [Event.isStateSet])
  · exact absurd hs (by simp [Event.isStateSet])

theorem loopTrace_stateSet (n : Nat) (v : Vars) (hl : v.led ≠ ALL) (e : Event)
    (he : e ∈ loopTrace n v) (hs : e.isStateSet = true) :
    ∃ m, e = Event.XChangeKeyboardControl (some v.led) m := by
  induction n generalizing v with
  | zero => simp [loopTrace] at he
  | succ k ih =>
    have hled : (tick v).led = v.led := (tick_frame v).2.2.2.1
    simp only [loopTrace, List.mem_append] at he
    rcases he with he | he
    · have := pulse_stateSet (tick v) (by rw [hled]; exact hl) e he hs
      rw [hled] at this
      exact this
    · have := ih (tick v) (by rw [hled]; exact hl) he
      rw [hled] at this
      exact this

/-- Whenever the program is in its loop, `led` is what `atoi` returns on an
accepted operand of `--led`, which consists of decimal digits only; it is
between 1 and 32, it is the decimal value of the operand when that fits in an
`int`, and every state-set event of the run names that one indicator. -/
theorem led_in_loop (env : Env) (hstd : IntAtoi env) (argv : List String) (n : Nat) (v : Vars)
    (hrun : (main env argv n).outcome = Outcome.running v) :
    1 ≤ v.led ∧ v.led ≤ 32 ∧ v.led ≠ ALL ∧
    (∃ a, Opt.led (some a) ∈ (main env argv n).seen ∧ a.toList.all isdigit = true ∧
      v.led = env.atoi a ∧
      (FitsInt a → LedText a ∧ v.led = (digitsValue a.toList 0 : Int))) ∧
    (∀ e ∈ (main env argv n).events, e.isStateSet = true →
      ∃ m, e = Event.XChangeKeyboardControl (some v.led) m) := by
  obtain ⟨v0, h0, rfl, hseen, hev⟩ := main_running env argv n v hrun
  obtain ⟨hinv, _, hled, _, _⟩ := mainFrom_running env _ unset_initVars_500 argv v0 h0
  have hfr : (ticks n v0).led = v0.led := (ticks_frame n v0).2.2.2.1
  rw [hfr, hseen, hev]
  obtain ⟨_, _, _, _, _, _, hl, _⟩ := hinv
  rcases hl with ⟨h, _⟩ | ⟨a, ha, hnum, hpos, hval⟩
  · exact absurd h hled
  · obtain ⟨hdig, h1, h32⟩ := (led_test_iff env hstd a).mp ⟨hnum, hpos⟩
    rw [← hval] at h1 h32
    have hall : v0.led ≠ ALL := by
      unfold ALL
      omega
    refine ⟨h1, h32, hall, ⟨a, ha, hdig, hval, ?_⟩, ?_⟩
    · intro hfit
      have hlt := (led_accept_iff env hstd a hfit).mp ⟨hnum, hpos⟩
      exact ⟨hlt, by rw [hval, hstd.1 a hdig (hfit hdig)]⟩
    · intro e he hs
      rcases List.mem_cons.mp he with rfl | he
      · exact absurd hs (by simp [Event.isStateSet])
      · exact loopTrace_stateSet n v0 hall e he hs

theorem not_ledText_minusOne : ¬ LedText "-1" := by
  unfold LedText
  decide

theorem fitsInt_of_not_digits (a : String) (h : ¬ a.toList.all isdigit = true) : FitsInt a :=
  fun hd => absurd hd h

theorem is_number_minusOne (env : Env) : is_number env "-1" 32 = true := by
  unfold is_number
  rw [if_pos (by decide)]

/-- C13, as stated, fails on `-l -1 -f` and on `-l 33 -f`: the sentinel `-1`
(the value of `ALL`) and the positive id `33` are both refused with
`invalid argument` and `exit(1)`, before any call to the display.  It also
fails on `-l 4294967299 -f`, where `atoi` is the conversion of the GNU C
library: the positive id `4294967299` does not fit in an `int`, is read as
`3`, and the loop drives indicator 3. -/
theorem C13_indicator_id_counterexample :
    stdenv.atoi "-1" = ALL ∧
    (main stdenv ["xledpwm", "-l", "-1", "-f"] 1).outcome = Outcome.exited ∧
    (main stdenv ["xledpwm", "-l", "-1", "-f"] 1).events =
      [Event.fprintf (Msg.invalidArgument "-1" "-l"), Event.exit 1] ∧
    stdenv.atoi "33" = 33 ∧
    (main stdenv ["xledpwm", "-l", "33", "-f"] 1).outcome = Outcome.exited ∧
    (main stdenv ["xledpwm", "-l", "33", "-f"] 1).events =
      [Event.fprintf (Msg.invalidArgument "33" "-l"), Event.exit 1] ∧
    digitsValue "4294967299".toList 0 = 4294967299 ∧
    stdenv.atoi "4294967299" = 3 ∧
    (main stdenv ["xledpwm", "-l", "4294967299", "-f"] 1).events =
      [Event.XOpenDisplay none, Event.XChangeKeyboardControl (some 3) ON, Event.XFlush,
        Event.usleep 200, Event.XChangeKeyboardControl (some 3) OFF, Event.XFlush,
        Event.usleep 19800] := by
  refine ⟨by decide!, by decide!, by decide!, by decide!, by decide!, by decide!, by decide!,
    by decide!, by decide!⟩

/-- C13, amended: with a library `atoi` that follows the C standard, the
`--led` branch accepts every operand that consists of decimal digits and has a
value from 1 to 32, storing that value in `led`; among the operands whose
value fits in an `int` it refuses every other one, the sentinel `-1` (the
value of `ALL`) included, with `invalid argument` and `exit(1)`; and whenever
the program is in its loop `led` is between 1 and 32, different from `ALL`, it
is what `atoi` returned on an operand of decimal digits (the value of the
operand when that fits in an `int`), and every state-set event of the run
names that one indicator, never all indicators. -/
theorem C13_indicator_id_amended (env : Env) (hstd : IntAtoi env) (a opt : String) (w : Vars)
    (rest : List String) (seen : List Opt) (hopt : opt = "-l" ∨ opt = "--led") :
    (LedText a →
      parseArgs env (opt :: a :: rest) w seen =
        parseArgs env rest { w with led := (digitsValue a.toList 0 : Int) }
          (seen ++ [Opt.led (some a)])) ∧
    (FitsInt a → ¬ LedText a →
      parseArgs env (opt :: a :: rest) w seen =
        ⟨seen ++ [Opt.led (some a)],
          [Event.fprintf (Msg.invalidArgument a opt), Event.exit 1], Outcome.exited⟩) ∧
    env.atoi "-1" = ALL ∧
    parseArgs env (opt :: "-1" :: rest) w seen =
      ⟨seen ++ [Opt.led (some "-1")],
        [Event.fprintf (Msg.invalidArgument "-1" opt), Event.exit 1], Outcome.exited⟩ ∧
    (∀ (argv : List String) (n : Nat) (v : Vars),
      (main env argv n).outcome = Outcome.running v →
      1 ≤ v.led ∧ v.led ≤ 32 ∧ v.led ≠ ALL ∧
      (∃ b, Opt.led (some b) ∈ (main env argv n).seen ∧ b.toList.all isdigit = true ∧
        v.led = env.atoi b ∧
        (FitsInt b → LedText b ∧ v.led = (digitsValue b.toList 0 : Int))) ∧
      (∀ e ∈ (main env argv n).events, e.isStateSet = true →
        ∃ m, e = Event.XChangeKeyboardControl (some v.led) m)) := by
  have hacc := fun x => parseArgs_led env x opt w rest seen hopt
  have hiff := led_accept_iff env hstd
  refine ⟨?_, ?_, hstd.2, ?_, ?_⟩
  · intro h
    rw [(hacc a).1 ((hiff a (ledText_fits a h)).mpr h), hstd.1 a h.1 (ledText_fits a h h.1)]
  · intro hfit h
    exact (hacc a).2 (fun h2 => h ((hiff a hfit).mp h2))
  · exact (hacc "-1").2 (fun h2 => not_ledText_minusOne
      ((hiff "-1" (fitsInt_of_not_digits "-1" (by decide))).mp h2))
  · intro argv n v hrun
    exact led_in_loop env hstd argv n v hrun

/-- C13 amended, on the operand `3`: it is accepted and stored, and on
`-l 3 -f` the loop drives indicator 3. -/
theorem C13_indicator_id_amended_witness :
    IntAtoi stdenv ∧ ("-l" = "-l" ∨ "-l" = "--led") ∧ LedText "3" ∧
    parseArgs stdenv ["-l", "3"] (initVars 500) [] =
      parseArgs stdenv [] { initVars 500 with led := (digitsValue "3".toList 0 : Int) }
        ([] ++ [Opt.led (some "3")]) ∧
    (main stdenv ["xledpwm", "-l", "3", "-f"] 1).events =
      [Event.XOpenDisplay none, Event.XChangeKeyboardControl (some 3) ON, Event.XFlush,
        Event.usleep 200, Event.XChangeKeyboardControl (some 3) OFF, Event.XFlush,
        Event.usleep 19800] :=
  have h := C13_indicator_id_amended stdenv intAtoi_stdenv "3" "-l" (initVars 500) [] []
    (Or.inl rfl)
  have h3 : LedText "3" := by unfold LedText; decide
  ⟨intAtoi_stdenv, Or.inl rfl, h3, h.1 h3, by decide!⟩

/-! ## The cadence of the ramp -/

theorem rampStep_tick_count_irrelevant (v : Vars) (t : Int) :
    (rampStep { v with tick_count := t }).cycle = (rampStep v).cycle ∧
    (rampStep { v with tick_count := t }).factor = (rampStep v).factor := by
  simp [rampStep]

/-- An iteration in which the ramp step is due: the step is taken on the
variables as they stand, and the counter is reset. -/
theorem tick_of_due (v : Vars) (h : rampDue v) :
    (tick v).tick_count = 0 ∧ (tick v).cycle = (rampStep v).cycle ∧
    (tick v).factor = (rampStep v).factor := by
  obtain ⟨hf, ht⟩ := h
  have hr := rampStep_tick_count_irrelevant v (wrap32 (v.tick_count + 1))
  have hfr := rampStep_frame { v with tick_count := wrap32 (v.tick_count + 1) }
  simp only [tick, if_pos hf, if_pos ht]
  exact ⟨hfr.2.2.2.2.2, hr.1, hr.2⟩

/-- An iteration in which the ramp step is not due: the counter is
incremented and the duty value and the factor are kept. -/
theorem tick_of_not_due (v : Vars) (h : ¬ rampDue v) :
    (tick v).tick_count = wrap32 (v.tick_count + 1) ∧ (tick v).cycle = v.cycle ∧
    (tick v).factor = v.factor := by
  unfold rampDue at h
  simp only [tick]
  by_cases hf : v.fade = TRUE
  · have ht : ¬ ((wrap32 (v.tick_count + 1) : Int) : ℚ) ≥ v.hz / 200 := fun h2 => h ⟨hf, h2⟩
    simp only [hf, if_true, ht, if_false, and_self]
  · simp only [hf, if_false, and_self]

theorem threshold_500 (c : Int) : ((c : ℚ) ≥ (500 : ℚ) / 200 ↔ 3 ≤ c) := by
  constructor
  · intro h
    by_contra hc
    have h2 : c ≤ 2 := by omega
    have h3 : (c : ℚ) ≤ 2 := by exact_mod_cast h2
    norm_num at h
    linarith
  · intro h
    have h3 : (3 : ℚ) ≤ (c : ℚ) := by exact_mod_cast h
    norm_num
    linarith

/-- In fade mode with `hz = 500`, started with the counter at `0`: before
iteration `n + 1` the counter is `n mod 3`, and the ramp step is due in that
iteration exactly when `n + 1` is a multiple of 3. -/
theorem cadence (v0 : Vars) (hf : v0.fade = TRUE) (hz : v0.hz = 500) (h0 : v0.tick_count = 0)
    (n : Nat) :
    (ticks n v0).tick_count = ((n % 3 : Nat) : Int) ∧
    wrap32 ((ticks n v0).tick_count + 1) = ((n % 3 : Nat) : Int) + 1 ∧
    (rampDue (ticks n v0) ↔ (n + 1) % 3 = 0) := by
  have step : ∀ m, (ticks m v0).tick_count = ((m % 3 : Nat) : Int) →
      wrap32 ((ticks m v0).tick_count + 1) = ((m % 3 : Nat) : Int) + 1 ∧
      (rampDue (ticks m v0) ↔ (m + 1) % 3 = 0) := by
    intro m hm
    have hw : wrap32 ((ticks m v0).tick_count + 1) = ((m % 3 : Nat) : Int) + 1 := by
      rw [hm]
      exact wrap32_of_range _ (by omega) (by omega)
    refine ⟨hw, ?_⟩
    unfold rampDue
    rw [hw, (ticks_frame m v0).1, (ticks_frame m v0).2.2.1, hz, threshold_500]
    constructor
    · rintro ⟨_, h⟩
      omega
    · intro h
      exact ⟨hf, by omega⟩
  have count : ∀ m, (ticks m v0).tick_count = ((m % 3 : Nat) : Int) := by
    intro m
    induction m with
    | zero => simpa [ticks] using h0
    | succ k ih =>
      obtain ⟨hw, hd⟩ := step k ih
      rw [ticks_succ]
      by_cases hdue : rampDue (ticks k v0)
      · rw [(tick_of_due _ hdue).1]
        have := hd.mp hdue
        omega
      · rw [(tick_of_not_due _ hdue).1, hw]
        have : ¬ (k + 1) % 3 = 0 := fun h => hdue (hd.mpr h)
        omega
  exact ⟨count n, step n (count n)⟩

/-- C14: in fade mode (`hz = 500`, threshold `hz/200 = 5/2`) the test
`tick_count >= hz/200` holds exactly for `tick_count ≥ 3`; iteration `n + 1` of
the loop, the one that starts from the state after `n` iterations, executes the
ramp step exactly when `n + 1` is a multiple of 3; `tick_count` after the
increment of that iteration is `n mod 3 + 1`, so always 1, 2 or 3; an
iteration that executes the ramp step ends with `tick_count = 0` and the duty
value of the ramp step, one that does not keeps the duty value; and the ramp
step always sets `tick_count` to `0`. -/
theorem C14_ramp_cadence (env : Env) (argv : List String) (v0 : Vars) (n : Nat)
    (hrun : (mainFrom env (initVars 500) argv).outcome = Outcome.running v0)
    (hfade : v0.fade = TRUE) :
    v0.hz = 500 ∧ v0.hz / 200 = 5 / 2 ∧
    (∀ c : Int, ((c : ℚ) ≥ v0.hz / 200 ↔ 3 ≤ c)) ∧
    wrap32 ((ticks n v0).tick_count + 1) = ((n % 3 : Nat) : Int) + 1 ∧
    1 ≤ wrap32 ((ticks n v0).tick_count + 1) ∧ wrap32 ((ticks n v0).tick_count + 1) ≤ 3 ∧
    (rampDue (ticks n v0) ↔ (n + 1) % 3 = 0) ∧
    (rampDue (ticks n v0) →
      (ticks (n + 1) v0).tick_count = 0 ∧
      (ticks (n + 1) v0).cycle = (rampStep (ticks n v0)).cycle) ∧
    (¬ rampDue (ticks n v0) →
      (ticks (n + 1) v0).tick_count = wrap32 ((ticks n v0).tick_count + 1) ∧
      (ticks (n + 1) v0).cycle = (ticks n v0).cycle) ∧
    (∀ w : Vars, (rampStep w).tick_count = 0) := by
  obtain ⟨_, ehz, etc, _, _⟩ := mainFrom_inBounds env argv v0 hrun
  obtain ⟨_, hw, hd⟩ := cadence v0 hfade ehz etc n
  refine ⟨ehz, by rw [ehz]; norm_num, ?_, hw, by rw [hw]; omega, by rw [hw]; omega, hd,
    ?_, ?_, fun w => (rampStep_frame w).2.2.2.2.2⟩
  · intro c
    rw [ehz]
    exact threshold_500 c
  · intro h
    rw [ticks_succ]
    exact ⟨(tick_of_due _ h).1, (tick_of_due _ h).2.1⟩
  · intro h
    rw [ticks_succ]
    exact ⟨(tick_of_not_due _ h).1, (tick_of_not_due _ h).2.1⟩

/-- C14, on `-l 1 -f`: the ramp step is due in iteration 3 and not in
iteration 2, and after iteration 3 the counter is `0`. -/
theorem C14_ramp_cadence_witness :
    (mainFrom stdenv (initVars 500) ["xledpwm", "-l", "1", "-f"]).outcome =
      Outcome.running fadeStart ∧
    fadeStart.fade = TRUE ∧
    rampDue (ticks 2 fadeStart) ∧ ¬ rampDue (ticks 1 fadeStart) ∧
    (ticks 3 fadeStart).tick_count = 0 ∧ (ticks 3 fadeStart).cycle = 250 :=
  have h2 := C14_ramp_cadence stdenv ["xledpwm", "-l", "1", "-f"] fadeStart 2
    (by decide!) (by decide!)
  have h1 := C14_ramp_cadence stdenv ["xledpwm", "-l", "1", "-f"] fadeStart 1
    (by decide!) (by decide!)
  ⟨by decide!, by decide!, h2.2.2.2.2.2.2.1.mpr (by decide),
    fun h => absurd (h1.2.2.2.2.2.2.1.mp h) (by decide),
    (h2.2.2.2.2.2.2.2.1 (h2.2.2.2.2.2.2.1.mpr (by decide))).1, by decide!⟩

/-! ## The arguments of `usleep` -/

theorem le_ctrunc (q : ℚ) (N : Int) (h0 : 0 ≤ q) (h : (N : ℚ) ≤ q) : N ≤ ctrunc q := by
  unfold ctrunc
  rw [if_pos h0]
  exact Int.le_floor.mpr h

/-- The two durations after every iteration of the program's loop. -/
theorem usec_bounds (env : Env) (argv : List String) (v0 : Vars) (k : Nat)
    (h0 : (mainFrom env (initVars 500) argv).outcome = Outcome.running v0) :
    200 ≤ (ticks (k + 1) v0).usec_on ∧ (ticks (k + 1) v0).usec_on ≤ 20000 ∧
    0 ≤ (ticks (k + 1) v0).usec_off ∧ (ticks (k + 1) v0).usec_off ≤ 19800 := by
  obtain ⟨hU, hlo, hhi⟩ := ticks_main_inBounds env argv v0 (k + 1) h0
  have hu := tick_usec (ticks k v0)
  rw [← ticks_succ] at hu
  have hc0 : (0 : ℚ) ≤ (ticks (k + 1) v0).cycle := by linarith
  have hon0 : 200 ≤ (ticks (k + 1) v0).usec_on := by
    rw [hu.1]; exact le_ctrunc _ 200 hc0 (by exact_mod_cast hlo)
  have hon1 : (ticks (k + 1) v0).usec_on ≤ 20000 := by
    rw [hu.1]; exact ctrunc_le _ 20000 hc0 (by exact_mod_cast hhi)
  have hoff : (ticks (k + 1) v0).usec_off = 20000 - (ticks (k + 1) v0).usec_on := by
    rw [hu.2, hU]
    exact wrap32_of_range _ (by omega) (by omega)
  refine ⟨hon0, hon1, ?_, ?_⟩ <;> rw [hoff] <;> omega

/-- Every `usleep` of the loop's trace has as argument the `usec_on` or the
`usec_off` of the state after some iteration. -/
theorem loopTrace_usleep (n : Nat) (v : Vars) (u : Int) (h : Event.usleep u ∈ loopTrace n v) :
    ∃ k, k < n ∧ (u = (ticks (k + 1) v).usec_on ∨ u = (ticks (k + 1) v).usec_off) := by
  induction n generalizing v with
  | zero => simp [loopTrace] at h
  | succ m ih =>
    simp only [loopTrace, List.mem_append] at h
    rcases h with h | h
    · refine ⟨0, by omega, ?_⟩
      unfold pulse set_led at h
      split_ifs at h <;> simp at h <;> rcases h with h | h
      · exact Or.inl h
      · exact Or.inr h
      · exact Or.inl h
      · exact Or.inr h
    · obtain ⟨k, hk, hu⟩ := ih (tick v) h
      exact ⟨k + 1, by omega, hu⟩

/-- C15: for every accepted configuration (any arguments on which the program
enters its loop, with brightness in `[1, 100]` or with fade), the period is
`20000` and after every iteration `200 ≤ usec_on ≤ 20000` and
`0 ≤ usec_off ≤ 19800`; every argument passed to `usleep` in the run is one of
these values, so it is not negative. -/
theorem C15_sleep_durations (env : Env) (argv : List String) (n : Nat) (v : Vars)
    (hrun : (main env argv (n + 1)).outcome = Outcome.running v) :
    v.usec_cycle = 20000 ∧
    200 ≤ v.usec_on ∧ v.usec_on ≤ 20000 ∧ 0 ≤ v.usec_off ∧ v.usec_off ≤ 19800 ∧
    (∀ u, Event.usleep u ∈ (main env argv (n + 1)).events → 0 ≤ u ∧ u ≤ 20000) := by
  obtain ⟨v0, h0, rfl, _, hev⟩ := main_running env argv (n + 1) v hrun
  obtain ⟨hU, _, _⟩ := ticks_main_inBounds env argv v0 (n + 1) h0
  obtain ⟨b1, b2, b3, b4⟩ := usec_bounds env argv v0 n h0
  refine ⟨hU, b1, b2, b3, b4, ?_⟩
  intro u hu
  rw [hev] at hu
  rcases List.mem_cons.mp hu with hu | hu
  · cases hu
  · obtain ⟨k, _, hk⟩ := loopTrace_usleep _ v0 u hu
    obtain ⟨c1, c2, c3, c4⟩ := usec_bounds env argv v0 k h0
    rcases hk with rfl | rfl <;> constructor <;> omega

/-- C15, on `-l 3 -b 25` after 2 iterations: `usec_on = 5000` and
`usec_off = 15000`. -/
theorem C15_sleep_durations_witness :
    (main stdenv ["xledpwm", "-l", "3", "-b", "25"] (1 + 1)).outcome =
      Outcome.running (ticks 2 brightStart) ∧
    (ticks 2 brightStart).usec_on = 5000 ∧ (ticks 2 brightStart).usec_off = 15000 ∧
    200 ≤ (ticks 2 brightStart).usec_on ∧ (ticks 2 brightStart).usec_off ≤ 19800 :=
  have h := C15_sleep_durations stdenv ["xledpwm", "-l", "3", "-b", "25"] 1 (ticks 2 brightStart)
    (by decide!)
  ⟨by decide!, by decide!, by decide!, h.2.1, h.2.2.2.2.1⟩

/-! ## The trajectory of the default fade -/

theorem sameRamp_rampStep (a b : Vars) (h : SameRamp a b) : SameRamp (rampStep a) (rampStep b) := by
  obtain ⟨d1, z1, c1, u1, on1, off1, f1, t1, fd1, l1⟩ := a
  obtain ⟨d2, z2, c2, u2, on2, off2, f2, t2, fd2, l2⟩ := b
  simp only [SameRamp] at h
  obtain ⟨rfl, rfl, rfl⟩ := h
  simp only [SameRamp, rampStep]
  split_ifs <;> simp

theorem sameRamp_rampSteps (k : Nat) (a b : Vars) (h : SameRamp a b) :
    SameRamp (rampSteps k a) (rampSteps k b) := by
  induction k with
  | zero => exact h
  | succ m ih =>
    rw [rampSteps_succ, rampSteps_succ]
    exact sameRamp_rampStep _ _ ih

theorem rampSteps_add (a b : Nat) (v : Vars) :
    rampSteps (a + b) v = rampSteps a (rampSteps b v) := by
  induction a with
  | zero => simp [rampSteps]
  | succ m ih => rw [Nat.add_right_comm, rampSteps_succ, rampSteps_succ, ih]

/-- In fade mode with `hz = 500`, started with the counter at `0`, the state
after `3 * k` iterations, and after one or two more, agrees with the state
after `k` ramp steps on `cycle`, `factor` and `usec_cycle`. -/
theorem ticks_sameRamp (v0 : Vars) (hf : v0.fade = TRUE) (hz : v0.hz = 500)
    (h0 : v0.tick_count = 0) (k j : Nat) (hj : j < 3) :
    SameRamp (ticks (3 * k + j) v0) (rampSteps k v0) := by
  have keep : ∀ n, ¬ (n + 1) % 3 = 0 → ∀ w, SameRamp (ticks n v0) w →
      SameRamp (ticks (n + 1) v0) w := by
    intro n hn w hw
    have hnd : ¬ rampDue (ticks n v0) := fun h => hn ((cadence v0 hf hz h0 n).2.2.mp h)
    obtain ⟨_, e1, e2⟩ := tick_of_not_due _ hnd
    rw [ticks_succ]
    exact ⟨by rw [e1]; exact hw.1, by rw [e2]; exact hw.2.1,
      by rw [(tick_frame _).2.1]; exact hw.2.2⟩
  have base : ∀ m, SameRamp (ticks (3 * m) v0) (rampSteps m v0) := by
    intro m
    induction m with
    | zero => exact ⟨rfl, rfl, rfl⟩
    | succ q ih =>
      have s1 := keep (3 * q) (by omega) _ ih
      have s2 := keep (3 * q + 1) (by omega) _ s1
      have hd : rampDue (ticks (3 * q + 1 + 1) v0) :=
        (cadence v0 hf hz h0 (3 * q + 1 + 1)).2.2.mpr (by omega)
      obtain ⟨_, e1, e2⟩ := tick_of_due _ hd
      have sr := sameRamp_rampStep _ _ s2
      have e : 3 * (q + 1) = 3 * q + 1 + 1 + 1 := by omega
      rw [e, ticks_succ, rampSteps_succ]
      exact ⟨by rw [e1]; exact sr.1, by rw [e2]; exact sr.2.1,
        by rw [(tick_frame _).2.1, (rampStep_frame _).2.1]; exact s2.2.2⟩
  have b0 := base k
  have b1 := keep (3 * k) (by omega) _ b0
  have b2 := keep (3 * k + 1) (by omega) _ b1
  interval_cases j
  · exact b0
  · exact b1
  · exact b2

/-- The trajectory from the state in which the loop is entered on `-l 1 -f`. -/
theorem trajectory_fadeStart :
    (∀ k, k ≤ 20 → (rampSteps k fadeStart).cycle = 200 * (1.25 : ℚ) ^ k) ∧
    (rampSteps 21 fadeStart).cycle = 20000 ∧
    (∀ k, k < 21 → (rampSteps k fadeStart).cycle < (rampSteps (k + 1) fadeStart).cycle) ∧
    (∀ j, j ≤ 16 → (rampSteps (21 + j) fadeStart).cycle = 20000 * (0.75 : ℚ) ^ j) ∧
    (rampSteps 38 fadeStart).cycle = 200 ∧
    (∀ j, j < 17 →
      (rampSteps (21 + j + 1) fadeStart).cycle < (rampSteps (21 + j) fadeStart).cycle) ∧
    rampSteps 39 fadeStart = rampSteps 1 fadeStart := by
  refine ⟨by decide!, by decide!, by decide!, by decide!, by decide!, by decide!, by decide!⟩

theorem period_fadeStart (k : Nat) :
    (rampSteps (k + 38) fadeStart).cycle = (rampSteps k fadeStart).cycle := by
  cases k with
  | zero =>
    rw [Nat.zero_add, trajectory_fadeStart.2.2.2.2.1]
    rfl
  | succ m =>
    have e : m + 1 + 38 = m + 39 := by omega
    rw [e, rampSteps_add, trajectory_fadeStart.2.2.2.2.2.2, ← rampSteps_add]

theorem rampSteps_fadeStart_cases (n : Nat) :
    ∃ m, m < 39 ∧ rampSteps n fadeStart = rampSteps m fadeStart := by
  induction n with
  | zero => exact ⟨0, by omega, rfl⟩
  | succ k ih =>
    obtain ⟨m, hm, e⟩ := ih
    by_cases h : m + 1 < 39
    · exact ⟨m + 1, h, by rw [rampSteps_succ, e, ← rampSteps_succ]⟩
    · have h38 : m = 38 := by omega
      subst h38
      exact ⟨1, by omega, by rw [rampSteps_succ, e, ← rampSteps_succ,
        trajectory_fadeStart.2.2.2.2.2.2]⟩

/-- Line 238 on the way from `cycle = 200`: at every ramp step the duty value
that the step produces is the same when the product `cycle * factor` is
rounded to a `double` before it is clamped.  (The product is a `double`
itself at every step but the one that reaches the period, where the exact and
the rounded product both exceed it.) -/
theorem ramp_rounding_immaterial (n : Nat) :
    min ((rampSteps n fadeStart).usec_cycle : ℚ)
        (max (floorOf (rampSteps n fadeStart) : ℚ)
          (fl ((rampSteps n fadeStart).cycle * (rampStep (rampSteps n fadeStart)).factor))) =
      (rampStep (rampSteps n fadeStart)).cycle := by
  have h : ∀ m, m < 39 →
      min ((rampSteps m fadeStart).usec_cycle : ℚ)
          (max (floorOf (rampSteps m fadeStart) : ℚ)
            (fl ((rampSteps m fadeStart).cycle * (rampStep (rampSteps m fadeStart)).factor))) =
        (rampStep (rampSteps m fadeStart)).cycle := by
    decide!
  obtain ⟨m, hm, e⟩ := rampSteps_fadeStart_cases n
  rw [e]
  exact h m hm

/-- The state in which the program enters its loop in fade mode agrees with
`fadeStart` on what the ramp reads. -/
theorem fade_entry (env : Env) (argv : List String) (v0 : Vars)
    (hrun : (mainFrom env (initVars 500) argv).outcome = Outcome.running v0)
    (hfade : v0.fade = TRUE) :
    v0.cycle = 200 ∧ SameRamp v0 fadeStart := by
  obtain ⟨hinv, _, _, _, _⟩ := mainFrom_running env _ unset_initVars_500 argv v0 hrun
  obtain ⟨eU, _, _, efac, _⟩ := mainFrom_inBounds env argv v0 hrun
  have hc : v0.cycle = 200 := by
    rcases parseInv_mode env _ v0 _ hinv with ⟨hf, _⟩ | ⟨hF, _⟩ | ⟨_, hc, _⟩
    · rw [hfade] at hf; exact absurd hf (by decide)
    · rw [hfade] at hF; exact absurd hF (by decide)
    · exact hc
  refine ⟨hc, ?_, ?_, ?_⟩
  · rw [hc]; rfl
  · rw [efac]; rfl
  · rw [eU]; decide!

/-- C16: when the program enters its loop in fade mode (`usec_cycle = 20000`,
`cycle = 200`), the duty value after `k` ramp steps is `200 * 1.25^k` for
`k ≤ 20` and `20000` after step 21, strictly increasing over these 21 steps;
it is `20000 * 0.75^j` after step `21 + j` for `j ≤ 16` and `200` after step
38, strictly decreasing over these 17 steps; the sequence repeats with period
38 ramp steps; the state after `3 * k` loop iterations, and after one or two
more, has the duty value of `k` ramp steps, so the duty value of the loop
repeats with period 114 iterations. -/
theorem C16_default_fade_trajectory (env : Env) (argv : List String) (v0 : Vars)
    (hrun : (mainFrom env (initVars 500) argv).outcome = Outcome.running v0)
    (hfade : v0.fade = TRUE) :
    v0.usec_cycle = 20000 ∧ v0.cycle = 200 ∧
    (∀ k, k ≤ 20 → (rampSteps k v0).cycle = 200 * (1.25 : ℚ) ^ k) ∧
    (rampSteps 21 v0).cycle = 20000 ∧
    (∀ k, k < 21 → (rampSteps k v0).cycle < (rampSteps (k + 1) v0).cycle) ∧
    (∀ j, j ≤ 16 → (rampSteps (21 + j) v0).cycle = 20000 * (0.75 : ℚ) ^ j) ∧
    (rampSteps 38 v0).cycle = 200 ∧
    (∀ j, j < 17 → (rampSteps (21 + j + 1) v0).cycle < (rampSteps (21 + j) v0).cycle) ∧
    (∀ k, (rampSteps (k + 38) v0).cycle = (rampSteps k v0).cycle) ∧
    (∀ k j, j < 3 → (ticks (3 * k + j) v0).cycle = (rampSteps k v0).cycle) ∧
    (∀ n, (ticks (n + 114) v0).cycle = (ticks n v0).cycle) := by
  obtain ⟨eU, ehz, etc, _, _⟩ := mainFrom_inBounds env argv v0 hrun
  obtain ⟨hc, hsame⟩ := fade_entry env argv v0 hrun hfade
  have tr : ∀ k, (rampSteps k v0).cycle = (rampSteps k fadeStart).cycle :=
    fun k => (sameRamp_rampSteps k _ _ hsame).1
  obtain ⟨t1, t2, t3, t4, t5, t6, _⟩ := trajectory_fadeStart
  have per : ∀ k, (rampSteps (k + 38) v0).cycle = (rampSteps k v0).cycle := by
    intro k
    rw [tr, tr, period_fadeStart]
  have lp : ∀ k j, j < 3 → (ticks (3 * k + j) v0).cycle = (rampSteps k v0).cycle :=
    fun k j hj => (ticks_sameRamp v0 hfade ehz etc k j hj).1
  refine ⟨eU, hc, ?_, ?_, ?_, ?_, ?_, ?_, per, lp, ?_⟩
  · intro k hk
    rw [tr]; exact t1 k hk
  · rw [tr]; exact t2
  · intro k hk
    rw [tr, tr]; exact t3 k hk
  · intro j hj
    rw [tr]; exact t4 j hj
  · rw [tr]; exact t5
  · intro j hj
    rw [tr, tr]; exact t6 j hj
  · intro n
    have e1 : n = 3 * (n / 3) + n % 3 := by omega
    have e2 : n + 114 = 3 * (n / 3 + 38) + n % 3 := by omega
    have hj : n % 3 < 3 := by omega
    rw [e2, lp _ _ hj, per]
    conv_rhs => rw [e1]
    rw [lp _ _ hj]

/-- C16, on `-l 1 -f`: the duty value is `20000` after 21 ramp steps, `200`
after 38, and after 117 loop iterations it is what it was after 3. -/
theorem C16_default_fade_trajectory_witness :
    (mainFrom stdenv (initVars 500) ["xledpwm", "-l", "1", "-f"]).outcome =
      Outcome.running fadeStart ∧
    fadeStart.fade = TRUE ∧
    (rampSteps 21 fadeStart).cycle = 20000 ∧ (rampSteps 38 fadeStart).cycle = 200 ∧
    (ticks (3 + 114) fadeStart).cycle = (ticks 3 fadeStart).cycle ∧
    (ticks 3 fadeStart).cycle = 250 :=
  have h := C16_default_fade_trajectory stdenv ["xledpwm", "-l", "1", "-f"] fadeStart
    (by decide!) (by decide!)
  ⟨by decide!, by decide!, h.2.2.2.1, h.2.2.2.2.2.2.1, h.2.2.2.2.2.2.2.2.2.2 3, by decide!⟩

/-! ## Validation of the `--led` argument -/

/-- A run of the program in which no `--led` operand passed the test of line
150 exits before the display is opened: with the usage text and `exit(0)`
when it enters the help branch, with one message on `stderr` and `exit(1)`
otherwise. -/
theorem no_led_run (env : Env) (argv : List String) (n : Nat)
    (hno : ∀ b, Opt.led (some b) ∈ (main env argv n).seen →
      ¬ (is_number env b 32 = true ∧ env.atoi b > 0)) :
    (main env argv n).outcome = Outcome.exited ∧
    (∀ e ∈ (main env argv n).events, e.isSink = false) ∧
    (Opt.help ∉ (main env argv n).seen →
      ∃ m, (main env argv n).events = [Event.fprintf m, Event.exit 1]) ∧
    (Opt.help ∈ (main env argv n).seen →
      (main env argv n).events = [Event.printf Msg.usage, Event.exit 0]) := by
  rcases main_cases env argv n with ⟨pre, last, vm, hseen, hout, _, _, hex, hpre⟩ |
      ⟨w, _, hinv, hall, hst⟩
  · by_cases hl : last = Opt.help
    · subst hl
      have he : (main env argv n).events = [Event.printf Msg.usage, Event.exit 0] := hex
      refine ⟨hout, ?_, ?_, fun _ => he⟩
      · intro e hmem
        rw [he] at hmem
        simp only [List.mem_cons, List.mem_singleton, List.not_mem_nil, or_false] at hmem
        rcases hmem with rfl | rfl <;> rfl
      · intro hnh
        exact absurd (by rw [hseen]; simp) hnh
    · obtain ⟨m, he⟩ := exitAt_status_one env vm last _ hex hl
      refine ⟨hout, no_sink_of_message _ m 1 he, fun _ => ⟨m, he⟩, ?_⟩
      intro hh
      rw [hseen] at hh
      rcases List.mem_append.mp hh with hin | hin
      · exact absurd (hpre _ hin) (fun h => h)
      · exact absurd (List.mem_singleton.mp hin).symm hl
  · have hled : w.led = -1 := by
      obtain ⟨_, _, _, _, _, _, hl, _⟩ := hinv
      rcases hl with ⟨h, _⟩ | ⟨b, hb, hnum, hpos, _⟩
      · exact h
      · exact absurd ⟨hnum, hpos⟩ (hno b hb)
    rcases hst with ⟨_, ho, he⟩ | ⟨c1, _⟩ | ⟨c1, _⟩ | ⟨c1, _⟩
    · refine ⟨ho, no_sink_of_message _ _ 1 he, fun _ => ⟨_, he⟩, ?_⟩
      intro hh
      exact absurd (hall _ hh) (fun h => h)
    · exact absurd hled c1
    · exact absurd hled c1
    · exact absurd hled c1

/-- C17, as stated, fails on `--help`: no `--led` option is accepted, and the
program exits with status 0, not 1.  It also fails on `-l 4294967297 -f`,
where `atoi` is the conversion of the GNU C library: the operand consists of
decimal digits only and its value is not between 1 and 32, it does not fit in
an `int` and is read as `1`, the test of line 150 accepts it, and the loop
runs with `led = 1`. -/
theorem C17_led_validation_counterexample :
    (main stdenv ["xledpwm", "--help"] 1).seen = [Opt.help] ∧
    (main stdenv ["xledpwm", "--help"] 1).outcome = Outcome.exited ∧
    (main stdenv ["xledpwm", "--help"] 1).events = [Event.printf Msg.usage, Event.exit 0] ∧
    "4294967297".toList.all isdigit = true ∧
    digitsValue "4294967297".toList 0 = 4294967297 ∧
    ¬ LedText "4294967297" ∧
    stdenv.atoi "4294967297" = 1 ∧
    (is_number stdenv "4294967297" 32 = true ∧ stdenv.atoi "4294967297" > 0) ∧
    (main stdenv ["xledpwm", "-l", "4294967297", "-f"] 1).outcome =
      Outcome.running (ticks 1 fadeStart) ∧
    (ticks 1 fadeStart).led = 1 := by
  refine ⟨by decide!, by decide!, by decide!, by decide!, by decide!, ?_, by decide!,
    by decide!, by decide!, by decide!⟩
  unfold LedText
  decide!

/-- C17, amended: with a library `atoi` that follows the C standard, the
operand of `-l`/`--led` passes the test of line 150 exactly when it consists
of decimal digits only and `atoi` reads it as a value between 1 and 32; for an
operand whose value fits in an `int`, that is exactly when it consists of
decimal digits only and its value is between 1 and 32.  Then the branch stores
that value in `led` and parsing continues, and on every other operand whose
value fits in an `int`, among them `-1` (which `is_number` alone accepts),
`0`, `33` and the empty text, the branch prints `invalid argument` and calls
`exit(1)`.  A run that enters a `--led` branch with such an operand exits
there with status 1.  A run with no accepted `--led` option exits before the
display is opened, with status 1 unless it enters the help branch, in which
case it exits with status 0.  Whenever the loop runs, `led` is between 1 and
32. -/
theorem C17_led_validation_amended (env : Env) (hstd : IntAtoi env) (a opt : String)
    (w : Vars) (rest : List String) (seen : List Opt) (hopt : opt = "-l" ∨ opt = "--led") :
    ((is_number env a 32 = true ∧ env.atoi a > 0) ↔
      (a.toList.all isdigit = true ∧ 1 ≤ env.atoi a ∧ env.atoi a ≤ 32)) ∧
    (FitsInt a → ((is_number env a 32 = true ∧ env.atoi a > 0) ↔ LedText a)) ∧
    (LedText a →
      parseArgs env (opt :: a :: rest) w seen =
        parseArgs env rest { w with led := (digitsValue a.toList 0 : Int) }
          (seen ++ [Opt.led (some a)])) ∧
    (FitsInt a → ¬ LedText a →
      parseArgs env (opt :: a :: rest) w seen =
        ⟨seen ++ [Opt.led (some a)],
          [Event.fprintf (Msg.invalidArgument a opt), Event.exit 1], Outcome.exited⟩) ∧
    (is_number env "-1" 32 = true ∧
      (FitsInt "-1" ∧ ¬ LedText "-1") ∧ (FitsInt "0" ∧ ¬ LedText "0") ∧
      (FitsInt "33" ∧ ¬ LedText "33") ∧ (FitsInt "" ∧ ¬ LedText "")) ∧
    (∀ (argv : List String) (n : Nat),
      Opt.led (some a) ∈ (main env argv n).seen → FitsInt a → ¬ LedText a →
      (main env argv n).outcome = Outcome.exited ∧
      ∃ o, (main env argv n).events =
        [Event.fprintf (Msg.invalidArgument a o), Event.exit 1]) ∧
    (∀ (argv : List String) (n : Nat),
      (∀ b, Opt.led (some b) ∈ (main env argv n).seen →
        ¬ (is_number env b 32 = true ∧ env.atoi b > 0)) →
      (main env argv n).outcome = Outcome.exited ∧
      (∀ e ∈ (main env argv n).events, e.isSink = false) ∧
      (Opt.help ∉ (main env argv n).seen →
        ∃ m, (main env argv n).events = [Event.fprintf m, Event.exit 1]) ∧
      (Opt.help ∈ (main env argv n).seen →
        (main env argv n).events = [Event.printf Msg.usage, Event.exit 0])) ∧
    (∀ (argv : List String) (n : Nat) (v : Vars),
      (main env argv n).outcome = Outcome.running v → 1 ≤ v.led ∧ v.led ≤ 32) := by
  have hacc := parseArgs_led env a opt w rest seen hopt
  have hiff := led_accept_iff env hstd
  refine ⟨led_test_iff env hstd a, hiff a, ?_, ?_,
    ⟨is_number_minusOne env, ⟨fitsInt_of_not_digits _ (by decide), not_ledText_minusOne⟩,
      ⟨?_, ?_⟩, ⟨?_, ?_⟩, ⟨?_, ?_⟩⟩, ?_, ?_, ?_⟩
  · intro h
    rw [hacc.1 ((hiff a (ledText_fits a h)).mpr h), hstd.1 a h.1 (ledText_fits a h h.1)]
  · intro hfit h
    exact hacc.2 (fun h2 => h ((hiff a hfit).mp h2))
  · unfold FitsInt; decide
  · unfold LedText; decide
  · unfold FitsInt; decide
  · unfold LedText; decide
  · unfold FitsInt; decide
  · unfold LedText; decide
  · intro argv n hmem hfit hno
    obtain ⟨h1, h2, _⟩ := led_rejected_run env argv n a hmem
      (fun h => hno ((hiff a hfit).mp h))
    exact ⟨h1, h2⟩
  · intro argv n hno
    exact no_led_run env argv n hno
  · intro argv n v hrun
    obtain ⟨h1, h2, _⟩ := led_in_loop env hstd argv n v hrun
    exact ⟨h1, h2⟩

/-- C17 amended, on the operand `33`: it fails the test, and the run on
`-l 33 -f` exits with `invalid argument '33' for -l` and status 1. -/
theorem C17_led_validation_amended_witness :
    IntAtoi stdenv ∧ ("-l" = "-l" ∨ "-l" = "--led") ∧ FitsInt "33" ∧ ¬ LedText "33" ∧
    ¬ (is_number stdenv "33" 32 = true ∧ stdenv.atoi "33" > 0) ∧
    parseArgs stdenv ["-l", "33"] (initVars 500) [] =
      ⟨[] ++ [Opt.led (some "33")],
        [Event.fprintf (Msg.invalidArgument "33" "-l"), Event.exit 1], Outcome.exited⟩ ∧
    (main stdenv ["xledpwm", "-l", "33", "-f"] 1).outcome = Outcome.exited :=
  have h := C17_led_validation_amended stdenv intAtoi_stdenv "33" "-l" (initVars 500) [] []
    (Or.inl rfl)
  have hf33 : FitsInt "33" := h.2.2.2.2.1.2.2.2.1.1
  have h33 : ¬ LedText "33" := h.2.2.2.2.1.2.2.2.1.2
  ⟨intAtoi_stdenv, Or.inl rfl, hf33, h33, fun hx => h33 ((h.2.1 hf33).mp hx),
    h.2.2.2.1 hf33 h33,
    (h.2.2.2.2.2.1 ["xledpwm", "-l", "33", "-f"] 1 (by decide!) hf33 h33).1⟩

/-! ## A repeated mode option -/

/-- A run of the program in which the parsing loop enters two mode branches
exits in the second of them with `can't specify both -b and -f`. -/
theorem mode_twice (env : Env) (argv : List String) (n : Nat)
    (h2 : 2 ≤ (modeOpts (main env argv n).seen).length) :
    (main env argv n).outcome = Outcome.exited ∧
    (main env argv n).events = [Event.fprintf Msg.bothModes, Event.exit 1] ∧
    ∃ pre last x, (main env argv n).seen = pre ++ [last] ∧ modeOpts pre = [x] ∧
      modeOpts (main env argv n).seen = [x, last] ∧
      (∀ a, x = Opt.brightness a → x.accepted env) := by
  rcases main_cases env argv n with ⟨pre, last, vm, hseen, hout, _, hinv, hex, hpre⟩ |
      ⟨w, _, hinv, _, _⟩
  · rw [hseen, modeOpts_append] at h2
    have hone : ∃ x, modeOpts pre = [x] ∧ vm.fade ≠ -1 ∧ vm.cycle ≠ -1 := by
      rcases parseInv_mode env _ vm pre hinv with ⟨_, _, hm⟩ | ⟨hF, a, p, hm, _, h1, _, hc⟩ |
          ⟨hT, hc, hm⟩
      · rw [hm] at h2
        split_ifs at h2 <;> simp at h2
      · refine ⟨_, hm, by rw [hF]; decide, ?_⟩
        rw [hc, initVars_500]
        intro hneg
        have : (0 : ℚ) ≤ fl (((20000 : Int) : ℚ) * fl (p / 100)) :=
          bright_nonneg _ (by norm_num) p h1
        simp only at hneg
        rw [hneg] at this
        norm_num at this
      · exact ⟨_, hm, by rw [hT]; decide, by rw [hc]; norm_num⟩
    obtain ⟨x, hx, hfade, hcyc⟩ := hone
    have hlast : last.isMode = true := by
      by_contra hnm
      rw [hx, if_neg hnm] at h2
      simp at h2
    have hx_mem : x ∈ pre := by
      have : x ∈ modeOpts pre := by rw [hx]; simp
      exact (List.mem_filter.mp this).1
    refine ⟨hout, ?_, pre, last, x, hseen, hx, ?_, fun _ _ => hpre x hx_mem⟩
    · cases last with
      | brightness b =>
        rcases hex with ⟨_, he⟩ | ⟨hf, _⟩ | ⟨hf, _⟩
        · exact he
        · exact absurd hf hfade
        · exact absurd hf hfade
      | fade => exact hex.2
      | help => simp [Opt.isMode] at hlast
      | display d => simp [Opt.isMode] at hlast
      | led l => simp [Opt.isMode] at hlast
      | unrecognized u => simp [Opt.isMode] at hlast
    · rw [hseen, modeOpts_append, hx, if_pos hlast]
      rfl
  · exfalso
    rcases parseInv_modes env _ w _ hinv with ⟨_, hm⟩ | ⟨_, a, hm⟩ | ⟨_, hm⟩ <;>
      rw [hm] at h2 <;> simp at h2

/-- C18: if the parsing loop of a run enters the fade branch twice, or enters a
brightness branch after an earlier brightness branch with an operand, the two
being the branches `m1` and `m2` in this order among the branches entered, then
the program exits in the second of them, which is the last branch it enters,
with the message `can't specify both -b and -f` and `exit(1)`, before any call
to the display; the first was the only mode option entered before and, when it
is a brightness option, its operand was accepted; both are of the same mode. -/
theorem C18_repeated_mode_option (env : Env) (argv : List String) (n : Nat) (m1 m2 : Opt)
    (hrep : (m1 = Opt.fade ∧ m2 = Opt.fade) ∨
      (∃ a o, m1 = Opt.brightness (some a) ∧ m2 = Opt.brightness o))
    (hsub : List.Sublist [m1, m2] (main env argv n).seen) :
    (main env argv n).outcome = Outcome.exited ∧
    (main env argv n).events = [Event.fprintf Msg.bothModes, Event.exit 1] ∧
    (∀ e ∈ (main env argv n).events, e.isSink = false) ∧
    (∃ pre, (main env argv n).seen = pre ++ [m2] ∧ modeOpts pre = [m1]) ∧
    modeOpts (main env argv n).seen = [m1, m2] ∧
    (∀ a, m1 = Opt.brightness (some a) → BrightText env a) := by
  have hm1 : m1.isMode = true := by
    rcases hrep with ⟨rfl, _⟩ | ⟨a, o, rfl, _⟩ <;> rfl
  have hm2 : m2.isMode = true := by
    rcases hrep with ⟨_, rfl⟩ | ⟨a, o, _, rfl⟩ <;> rfl
  have hfil : List.Sublist [m1, m2] (modeOpts (main env argv n).seen) := by
    have := hsub.filter Opt.isMode
    simpa [List.filter_cons, hm1, hm2] using this
  have hlen : 2 ≤ (modeOpts (main env argv n).seen).length := hfil.length_le
  obtain ⟨hout, hev, pre, last, x, hseen, hx, hmo, hacc⟩ := mode_twice env argv n hlen
  have heq : [m1, m2] = modeOpts (main env argv n).seen :=
    hfil.eq_of_length (by rw [hmo]; rfl)
  rw [hmo] at heq
  simp only [List.cons.injEq, and_true] at heq
  obtain ⟨rfl, rfl⟩ := heq
  refine ⟨hout, hev, no_sink_of_message _ _ 1 hev, ⟨pre, hseen, hx⟩, hmo, ?_⟩
  intro a ha
  have hA := hacc (some a) ha
  subst ha
  obtain ⟨b, p, hb, hp, h1, h2⟩ := hA
  cases hb
  exact ⟨p, hp, h1, h2⟩

/-- C18, on `-l 1 -f -f`: the second fade option ends the run with the
message and status 1. -/
theorem C18_repeated_mode_option_witness :
    List.Sublist [Opt.fade, Opt.fade] (main stdenv ["xledpwm", "-l", "1", "-f", "-f"] 1).seen ∧
    (main stdenv ["xledpwm", "-l", "1", "-f", "-f"] 1).outcome = Outcome.exited ∧
    (main stdenv ["xledpwm", "-l", "1", "-f", "-f"] 1).events =
      [Event.fprintf Msg.bothModes, Event.exit 1] :=
  have hs : List.Sublist [Opt.fade, Opt.fade]
      (main stdenv ["xledpwm", "-l", "1", "-f", "-f"] 1).seen := by decide!
  have h := C18_repeated_mode_option stdenv ["xledpwm", "-l", "1", "-f", "-f"] 1
    Opt.fade Opt.fade (Or.inl ⟨rfl, rfl⟩) hs
  ⟨hs, h.1, h.2.1⟩

end Xledpwm
